import Mathlib

/-!
ScriptHost (Mini404): a shallow embedding of the scripting engine

Source: `src/hw/arm/prusa/utility/ScriptHost.cpp`.

Modelling conventions

* `std::string` is a list of characters (`Str`); `std::vector` is a `List`.
* `size_t` values are natural numbers; every `size_t` operation of the source is
  written with an explicit `% 2 ^ 64`.  `std::string::npos` is `none`.
* `unsigned int` and `int` values are natural numbers and integers; where the source
  can leave the range (`m_iLine`, `m_iTimeoutCount`, `m_iTimeoutCycles`) the wrap to 32
  bits is explicit.
* A C++ exception is an `Except Exn` result.
* `std::map` is an association list searched from the front.
* An `IScriptable*` is the object it points to together with its address; `nullptr` is
  `none`.  A write through such a pointer (`writeObj`) changes every copy of the object
  the tables hold.  What the components other than the engine answer is a parameter of
  the tick.
* `std::set<std::string>` is the list of its elements in increasing order.
* The calls the engine makes into its collaborators are recorded, in order, in the field
  `calls`, as is the registration error written to `std::cerr`.  Of the text written to
  `std::cout` only the lines of `fcnErr` are kept: `ValidateScript` returns them.  The
  mutex is not modelled.
* A file is the list of the lines `std::getline` reads from it; a key is the character
  `KeyCB` receives.
* The conversions `std::stoi`, `std::stoul` and `std::stof` are modelled by their
  accepted syntax and range; whether `std::stof` reports a result that underflows is left
  to the C library by the C standard and is a parameter (`tiny`).
* The headers `ScriptHost.h` and `IScriptable.h` are not among the sources; the record
  types, enumerations and constants they declare are modelled from the specification and
  marked so.
-/

namespace Mini404

/-- A `std::string`. -/
abbrev Str := List Char

/-- The exceptions the standard library calls of the source can raise
(`std::out_of_range`, `std::invalid_argument`), the failure of an `Expects` contract,
and the undefined behaviours the source can reach, made explicit outcomes: a call
through a null `IScriptable*` and the dereference of the `end()` iterator of a set. -/
inductive Exn where
  | out_of_range
  | invalid_argument
  | null_dereference
  | end_dereference
  | contract_violation
  deriving DecidableEq, Repr

instance instDecidableEqExcept {ε α : Type} [DecidableEq ε] [DecidableEq α] :
    DecidableEq (Except ε α)
  | .ok a, .ok b => if h : a = b then isTrue (by rw [h]) else isFalse (by intro h2; cases h2; exact h rfl)
  | .error a, .error b =>
    if h : a = b then isTrue (by rw [h]) else isFalse (by intro h2; cases h2; exact h rfl)
  | .ok _, .error _ => isFalse (by intro h; cases h)
  | .error _, .ok _ => isFalse (by intro h; cases h)

/-- Number of values of a `size_t`. -/
def SIZE_MOD : Nat := 2 ^ 64

/-- Number of values of an `unsigned int`. -/
def UINT_MOD : Nat := 2 ^ 32

/-- `a + b` on `size_t`. -/
def add64 (a b : Nat) : Nat := (a + b) % SIZE_MOD

/-- `a - b` on `size_t` (wraps around below zero). -/
def sub64 (a b : Nat) : Nat := (a + (SIZE_MOD - b % SIZE_MOD)) % SIZE_MOD

/-- Conversion of an integer to `unsigned int`. -/
def toU32 (i : Int) : Nat := (i % (UINT_MOD : Int)).toNat

/-- Conversion of an `unsigned int` value to `int` (two's complement). -/
def toI32 (n : Nat) : Int :=
  if n % UINT_MOD < 2 ^ 31 then (n % UINT_MOD : Nat) else ((n % UINT_MOD : Nat) : Int) - 2 ^ 32

/-- An arithmetic result stored in an `int`: kept when it is in range, wrapped to 32 bits
(two's complement) when it is not. -/
def wrapI32 (i : Int) : Int := toI32 (toU32 i)

/-- Conversion of a `uint64_t` value to `int64_t` (two's complement). -/
def toI64 (n : Nat) : Int :=
  if n % SIZE_MOD < 2 ^ 63 then (n % SIZE_MOD : Nat) else ((n % SIZE_MOD : Nat) : Int) - 2 ^ 64

/-- Conversion of an integer to `uint64_t`. -/
def toU64 (i : Int) : Nat := (i % (SIZE_MOD : Int)).toNat

/-- `std::string::find(const char*)`: the first position at which `pat` occurs. -/
def find (pat : Str) : Str → Option Nat
  | [] => if pat = [] then some 0 else none
  | c :: cs =>
    if pat.isPrefixOf (c :: cs) then some 0 else (find pat cs).map (· + 1)

/-- `std::string::find(char)`: the first position of the character `ch`. -/
def findChar (ch : Char) : Str → Option Nat
  | [] => none
  | c :: cs => if c = ch then some 0 else (findChar ch cs).map (· + 1)

/-- `std::string::substr(pos, n)`: throws when `pos` is past the end, otherwise the
at most `n` characters from `pos` on. -/
def substr (s : Str) (pos n : Nat) : Except Exn Str :=
  if pos > s.length then .error .out_of_range else .ok ((s.drop pos).take n)

/-- One `std::getline(in, tmp, delim)` on the unread characters `rest` of a stream
that still has characters: the token read, and the unread characters left when the
delimiter was met (`none` when the end of the stream was met instead). -/
def getline (delim : Char) : Str → Str × Option Str
  | [] => ([], none)
  | c :: cs =>
    if c = delim then ([], some cs)
    else (c :: (getline delim cs).1, (getline delim cs).2)

/-- The loop `while (getline(argsIn, strTmp, ',')) args.push_back(strTmp);`.
A `getline` that extracts nothing (no unread characters) fails and ends the loop, as
does any `getline` after the end of the stream was met. -/
def readArgs : Nat → Str → List Str
  | 0, _ => []
  | fuel + 1, rest =>
    if rest = [] then []
    else
      match getline ',' rest with
      | (tok, none) => [tok]
      | (tok, some rest') => tok :: readArgs fuel rest'

/-- The white space `std::stoi` skips (`isspace` in the "C" locale). -/
def isspace (c : Char) : Bool :=
  c = ' ' || (9 ≤ c.toNat && c.toNat ≤ 13)

/-- `std::stoi(str)`, base 10: leading white space is skipped, an optional sign and
the longest run of digits are read, what follows is ignored; no digit at all throws
`std::invalid_argument`, a value outside `int` throws `std::out_of_range`. -/
def stoi (str : Str) : Except Exn Int :=
  let s1 := str.dropWhile isspace
  let neg := s1.head? = some '-'
  let s2 := if s1.head? = some '-' ∨ s1.head? = some '+' then s1.tail else s1
  let digits := s2.takeWhile Char.isDigit
  if digits = [] then .error .invalid_argument
  else
    let n : Nat := digits.foldl (fun a c => 10 * a + (c.toNat - 48)) 0
    let v : Int := if neg then -(n : Int) else (n : Int)
    if v < -2147483648 ∨ 2147483647 < v then .error .out_of_range else .ok v

/-- `std::vector::at(i)`. -/
def vecAt {α : Type} (v : List α) (i : Nat) : Except Exn α :=
  match v.get? i with
  | some a => .ok a
  | none => .error .out_of_range

/-- `std::map::count(k) != 0` resp. `find`: the value stored under `k`. -/
def mapFind {κ α : Type} [DecidableEq κ] (m : List (κ × α)) (k : κ) : Option α :=
  (m.find? (fun e => decide (e.1 = k))).map (·.2)

/-- `std::map::at(k)`. -/
def mapAt {κ α : Type} [DecidableEq κ] (m : List (κ × α)) (k : κ) : Except Exn α :=
  match mapFind m k with
  | some a => .ok a
  | none => .error .out_of_range

/-- Modelled from the spec: the enumeration `ArgType` of the header `IScriptable.h`,
which is not part of the sources at hand ("five primitive kinds - signed integer,
floating point, boolean, opaque string, unsigned 32-bit integer"). -/
inductive ArgType where
  | Int
  | Float
  | Bool
  | String
  | uint32
  deriving DecidableEq, Repr

/-- Modelled from the spec: the enumeration `IScriptable::LineStatus` of the header
`IScriptable.h` ("LineOutcome: Finished, Waiting, HoldExec, Timeout, Error,
Unhandled").  With these six values the `default:` of the `switch` in `OnMachineCycle`
is never taken. -/
inductive LineStatus where
  | Finished
  | Waiting
  | HoldExec
  | Timeout
  | Error
  | Unhandled
  deriving DecidableEq, Repr

/-- Modelled from the spec: the members of `IScriptable` (header `IScriptable.h`) the
engine reads and writes.  An `IScriptable*` of the source is modelled by the object it
points to; `addr` is the address, the identity pointer comparisons look at. -/
structure IScriptable where
  addr : Nat
  m_strName : Str
  m_ActionIDs : List (Str × Nat)
  m_ActionArgs : List (Nat × List ArgType)
  m_bRegistered : Bool
  deriving DecidableEq, Repr

/-- Modelled from the spec: the record `LineParts_t` of the header `ScriptHost.h`,
which is not part of the sources at hand ("ParsedLine: holds the context name, action
name, raw argument tokens (comma-split), and a validity flag"). -/
structure LineParts_t where
  isValid : Bool
  strCtxt : Str
  strAct : Str
  vArgs : List Str
  deriving DecidableEq, Repr

/-- Modelled from the spec: a default-constructed `LineParts_t` ("the line is marked
invalid and no further fields are populated"). -/
def LineParts_t.default : LineParts_t :=
  { isValid := false, strCtxt := [], strAct := [], vArgs := [] }

/-- Modelled from the spec: the record behind `GetLineState()` (header `ScriptHost.h`):
the resolution of the line the engine works on.  `pClient` is `none` for `nullptr`. -/
structure linestate_t where
  isValid : Bool
  strCtxt : Str
  iActID : Nat
  vArgs : List Str
  iLine : Nat
  pClient : Option IScriptable
  deriving DecidableEq, Repr

/-- Modelled from the spec: `ScriptHost::State` ("ExecutionStatus: Idle, Running,
Error, Timeout, Finished"). -/
inductive ScriptHost.State where
  | Idle
  | Running
  | Error
  | Timeout
  | Finished
  deriving DecidableEq, Repr

/-- Modelled from the spec: the command status the tick reports ("success, error,
waiting, timed out, syntax error"), with the names the source uses. -/
inductive TermStatus where
  | TermIdle
  | TermSuccess
  | TermFailed
  | TermWaiting
  | TermTimedOut
  | TermSyntax
  deriving DecidableEq, Repr

/-- The calls the engine makes into its collaborators, in the order they are made, and
the registration error `AddScriptable` writes to `std::cerr`. -/
inductive Event where
  | ProcessAction (client : Nat) (ID : Nat) (vArgs : List Str)
  | qemu_system_shutdown_request (cause : Nat)
  | ProcessMenu (client : Nat) (iID : Nat)
  | cerr (msg : Str)
  deriving DecidableEq, Repr

/-- The static members of `ScriptHost` (lines 37-69 of the source), the record behind
`GetLineState()`, the address of the engine object and the calls made so far.  The set
`m_strGLAutoC` is its elements in increasing order. -/
structure ScriptHost where
  this : Nat
  m_clients : List (Str × Option IScriptable)
  m_script : List Str
  m_scriptGL : List Str
  m_uiAVRFreq : Nat
  m_state : ScriptHost.State
  m_iTimeoutCycles : Int
  m_iTimeoutCount : Int
  m_bQuitOnTimeout : Bool
  m_bIsExecHold : Bool
  m_bIsTerminalEnabled : Bool
  m_eCmdStatus : TermStatus
  m_iLine : Nat
  m_uiWaitMs : Nat
  m_uiCurrentMs : Nat
  m_bCanAcceptInput : Bool
  m_strCmd : Str
  lineState : linestate_t
  calls : List Event
  m_mMenuIDs : List (Str × Int)
  m_mMenuBase2Client : List (Nat × Option IScriptable)
  m_mClient2MenuBase : List (Str × Nat)
  m_mClientEntries : List (Str × List (Str × Int))
  m_bMenuCreated : Bool
  m_uiQueuedMenu : Nat
  m_strGLAutoC : List Str
  deriving DecidableEq, Repr

namespace ScriptHost

/-- `SHUTDOWN_CAUSE_HOST_SIGNAL` (line 74). -/
def SHUTDOWN_CAUSE_HOST_SIGNAL : Nat := 4

/-- Modelled from the spec: the action IDs of the built-ins (an enumeration of the
header `ScriptHost.h`), numbered in the order `_Init` registers them. -/
def ActSetTimeoutMs : Nat := 0

/-- Modelled from the spec: see `ActSetTimeoutMs`. -/
def ActSetQuitOnTimeout : Nat := 1

/-- Modelled from the spec: see `ActSetTimeoutMs`. -/
def ActLog : Nat := 2

/-- Modelled from the spec: see `ActSetTimeoutMs`. -/
def ActWait : Nat := 3

/-- `ScriptHost::GetLineParts`. -/
def GetLineParts (strLine : Str) : Except Exn LineParts_t :=
  match find "::".toList strLine, findChar '(' strLine, findChar ')' strLine with
  | some iCtxEnd, some iArgBegin, some iArgEnd => do
    let strCtxt ← substr strLine 0 iCtxEnd
    let strAct ← substr strLine (add64 iCtxEnd 2) (sub64 (sub64 iArgBegin iCtxEnd) 2)
    let strArgs ← substr strLine (add64 iArgBegin 1) (sub64 (sub64 iArgEnd iArgBegin) 1)
    let args := readArgs (strArgs.length + 1) strArgs
    pure { isValid := true, strCtxt := strCtxt, strAct := strAct, vArgs := args }
  | _, _, _ => pure LineParts_t.default

/-- `ScriptHost::ProcessAction`, the built-in actions of the engine. -/
def ProcessAction (ID : Nat) (vArgs : List Str) (s : ScriptHost) :
    Except Exn (LineStatus × ScriptHost) :=
  if ID = ActSetTimeoutMs then do
    let iTime ← (vecAt vArgs 0) >>= stoi
    pure (.Finished,
      { s with
        m_iTimeoutCycles := toI32 (toU32 iTime * (s.m_uiAVRFreq / 1000))
        m_iTimeoutCount := 0 })
  else if ID = ActSetQuitOnTimeout then do
    let v ← (vecAt vArgs 0) >>= stoi
    pure (.Finished, { s with m_bQuitOnTimeout := decide (v ≠ 0) })
  else if ID = ActLog then do
    let _ ← vecAt vArgs 0
    pure (.Finished, s)
  else if ID = ActWait then do
    let s1 := if s.m_uiWaitMs = 0 then { s with m_uiWaitMs := s.m_uiCurrentMs } else s
    let iDiff := toI64 (sub64 s1.m_uiCurrentMs s1.m_uiWaitMs)
    let d ← (vecAt vArgs 0) >>= stoi
    if iDiff < d then pure (.Waiting, s1)
    else pure (.Finished, { s1 with m_uiWaitMs := 0 })
  else pure (.Finished, s)

/-- What the registered components other than the engine answer on one tick: the
`LineStatus` that `ProcessAction(ID, vArgs)` of the component at an address returns. -/
abbrev Clients := Nat → Nat → List Str → LineStatus

/-- The virtual call `pClient->ProcessAction(ID, vArgs)`: the engine's own
`ProcessAction` when the object is the engine, the component's answer otherwise. -/
def callAction (env : Clients) (p : IScriptable) (ID : Nat) (vArgs : List Str)
    (s : ScriptHost) : Except Exn (LineStatus × ScriptHost) :=
  let s1 := { s with calls := s.calls ++ [Event.ProcessAction p.addr ID vArgs] }
  if p.addr = s.this then ProcessAction ID vArgs s1 else pure (env p.addr ID vArgs, s1)

/-- `ScriptHost::ParseLine`. -/
def ParseLine (iLine : Nat) (s : ScriptHost) : Except Exn ScriptHost := do
  let s := { s with lineState := { s.lineState with isValid := false } }
  let strLine ← vecAt s.m_script iLine
  let sLine ← GetLineParts strLine
  if !sLine.isValid then
    pure s
  else
    let s := { s with lineState := { s.lineState with iLine := iLine } }
    match mapFind s.m_clients sLine.strCtxt with
    | none => pure s
    | some none => pure s
    | some (some pClient) =>
      let s := { s with lineState := { s.lineState with
                  strCtxt := sLine.strCtxt, vArgs := sLine.vArgs, pClient := some pClient } }
      match mapFind pClient.m_ActionIDs sLine.strAct with
      | none => pure s
      | some iID =>
        let s := { s with lineState := { s.lineState with iActID := iID } }
        let types ← mapAt pClient.m_ActionArgs iID
        if s.lineState.vArgs.length ≠ types.length then
          pure s
        else
          pure { s with lineState := { s.lineState with isValid := true } }

/-- The block `if (m_clients.count("Board") && m_clients.at("Board")->m_ActionIDs.count(act))`
with the call `m_clients.at("Board")->ProcessAction(ID,{})` of lines 678-681 and
712-715: `none` when the condition is false, the state after the call otherwise. -/
def callBoard (env : Clients) (act : Str) (s : ScriptHost) :
    Except Exn (Option ScriptHost) :=
  match mapFind s.m_clients "Board".toList with
  | none => pure none
  | some none => .error .null_dereference
  | some (some board) =>
    match mapFind board.m_ActionIDs act with
    | none => pure none
    | some ID => do
      let r ← callAction env board ID [] s
      pure (some r.2)

/-- Lines 753-758: `if (m_iLine==scriptSize) { ... }`. -/
def finishIfDone (scriptSize : Nat) (s : ScriptHost) : ScriptHost :=
  if s.m_iLine = scriptSize then
    { s with m_bCanAcceptInput := true, m_state := .Finished }
  else s

/-- Lines 733-748, `case LS::Timeout`, up to the `break`; the flag tells whether the
function returned (`true`) or left the `switch` (`false`). -/
def caseTimeout (scriptSize : Nat) (s : ScriptHost) : Bool × ScriptHost :=
  let s := { s with m_state := .Timeout }
  if s.m_bQuitOnTimeout then
    (true, { s with
      m_iLine := scriptSize % UINT_MOD
      calls := s.calls ++ [Event.qemu_system_shutdown_request SHUTDOWN_CAUSE_HOST_SIGNAL] })
  else
    (false, { s with
      m_iLine := (s.m_iLine + 1) % UINT_MOD
      m_iTimeoutCount := 0
      m_eCmdStatus := .TermTimedOut })

/-- Lines 720-731, `case LS::Waiting`, falling through into `case LS::Timeout`. -/
def caseWaiting (scriptSize : Nat) (s : ScriptHost) : Bool × ScriptHost :=
  if s.m_iTimeoutCycles < 0 then
    (false, { s with m_eCmdStatus := .TermWaiting })
  else
    let s := { s with m_iTimeoutCount := wrapI32 (s.m_iTimeoutCount + 1) }
    if s.m_iTimeoutCount ≤ s.m_iTimeoutCycles then
      (false, { s with m_eCmdStatus := .TermWaiting })
    else
      caseTimeout scriptSize { s with m_state := .Timeout }

/-- Lines 671-752: the `switch (lsResult)`; the flag tells whether the function
returned from inside the `switch`. -/
def switchResult (env : Clients) (scriptSize : Nat) (lsResult : LineStatus)
    (s : ScriptHost) : Except Exn (Bool × ScriptHost) :=
  match lsResult with
  | .Finished => do
    let s ←
      if s.m_bIsExecHold then do
        let s := { s with m_bIsExecHold := false }
        let r ← callBoard env "Resume".toList s
        pure (r.getD s)
      else pure s
    pure (false, { s with
      m_iLine := (s.m_iLine + 1) % UINT_MOD
      m_iTimeoutCount := 0
      m_eCmdStatus := .TermSuccess })
  | .Unhandled | .Error =>
    pure (true, { s with
      m_state := .Error
      m_iLine := scriptSize % UINT_MOD
      m_eCmdStatus := .TermFailed
      calls := s.calls ++ [Event.qemu_system_shutdown_request SHUTDOWN_CAUSE_HOST_SIGNAL] })
  | .HoldExec => do
    let r ← callBoard env "Pause".toList s
    let s := match r with
      | some s1 => { s1 with m_bIsExecHold := true }
      | none => s
    pure (caseWaiting scriptSize s)
  | .Waiting => pure (caseWaiting scriptSize s)
  | .Timeout => pure (caseTimeout scriptSize s)

/-- Lines 662-667: the line at the cursor is resolved when the resolution at hand is
for another line or the engine is idle. -/
def resolveStep (s : ScriptHost) : Except Exn ScriptHost :=
  if s.lineState.iLine ≠ s.m_iLine ∨ s.m_state = .Idle then
    ParseLine s.m_iLine { s with m_state := .Running }
  else pure s

/-- Line 642: `m_uiCurrentMs = iGuestUs/1000U;` (`int64_t` division, then the
conversion to `uint64_t`). -/
def setClock (iGuestUs : Int) (s : ScriptHost) : ScriptHost :=
  { s with m_uiCurrentMs := toU64 (Int.tdiv iGuestUs 1000) }

/-- `ScriptHost::OnMachineCycle`.  The two branches of `if (!m_bIsTerminalEnabled)`
differ in the lock only and are one here. -/
def OnMachineCycle (env : Clients) (iGuestUs : Int) (s : ScriptHost) :
    Except Exn ScriptHost := do
  let s := setClock iGuestUs s
  let scriptSize := s.m_script.length
  if s.m_iLine ≥ scriptSize then
    pure s
  else
    let _ ← vecAt s.m_script s.m_iLine
    let s ← resolveStep s
    if s.lineState.isValid then
      match s.lineState.pClient with
      | none => .error .null_dereference
      | some pClient =>
        let r ← callAction env pClient s.lineState.iActID s.lineState.vArgs s
        let r2 ← switchResult env scriptSize r.1 r.2
        if r2.1 then pure r2.2 else pure (finishIfDone scriptSize r2.2)
    else
      pure { s with
        m_state := .Error
        m_iLine := scriptSize % UINT_MOD
        m_eCmdStatus := .TermSyntax }

/-- `scripthost_run` called once per tick by the host, for a sequence of ticks: each
tick comes with the answers of the components and the simulated time. -/
def runTicks : List (Clients × Int) → ScriptHost → Except Exn ScriptHost
  | [], s => pure s
  | (env, iGuestUs) :: rest, s => OnMachineCycle env iGuestUs s >>= runTicks rest

/-- `m[k] = v` on a `std::map`. -/
def mapSet {κ α : Type} [DecidableEq κ] (m : List (κ × α)) (k : κ) (v : α) : List (κ × α) :=
  match m with
  | [] => [(k, v)]
  | e :: rest => if e.1 = k then (k, v) :: rest else e :: mapSet rest k v

/-- Modelled from the spec: `IScriptable::RegisterAction` of the header
`IScriptable.h` ("each context records, per ID, the ordered list of expected argument
types"). -/
def RegisterAction (strAct : Str) (ID : Nat) (vTypes : List ArgType) (o : IScriptable) :
    IScriptable :=
  { o with
    m_ActionIDs := mapSet o.m_ActionIDs strAct ID
    m_ActionArgs := mapSet o.m_ActionArgs ID vTypes }

/-- Modelled from the spec: the name the engine registers itself under (`m_strName` of
the engine object, set in the header `ScriptHost.h`). -/
def hostName : Str := "ScriptHost".toList

/-- The engine object after the four `RegisterAction` calls of `_Init` (lines
156-159). -/
def hostObject (this : Nat) : IScriptable :=
  RegisterAction "WaitMs".toList ActWait [ArgType.Int]
    (RegisterAction "Log".toList ActLog [ArgType.String]
      (RegisterAction "SetQuitOnTimeout".toList ActSetQuitOnTimeout [ArgType.Bool]
        (RegisterAction "SetTimeoutMs".toList ActSetTimeoutMs [ArgType.Int]
          { addr := this, m_strName := hostName, m_ActionIDs := [], m_ActionArgs := [],
            m_bRegistered := false })))

/-- The static members as initialised at lines 37-61, for an engine object at the
address `this`. -/
def statics (this : Nat) : ScriptHost :=
  { this := this
    m_clients := []
    m_script := []
    m_scriptGL := []
    m_uiAVRFreq := 0
    m_state := .Idle
    m_iTimeoutCycles := -1
    m_iTimeoutCount := 0
    m_bQuitOnTimeout := false
    m_bIsExecHold := false
    m_bIsTerminalEnabled := false
    m_eCmdStatus := .TermIdle
    m_iLine := 0
    m_uiWaitMs := 0
    m_uiCurrentMs := 0
    m_bCanAcceptInput := false
    m_strCmd := []
    lineState :=
      { isValid := false, strCtxt := [], iActID := 0, vArgs := [], iLine := 0, pClient := none }
    calls := []
    m_mMenuIDs := []
    m_mMenuBase2Client := []
    m_mClient2MenuBase := []
    m_mClientEntries := []
    m_bMenuCreated := false
    m_uiQueuedMenu := 0
    m_strGLAutoC := [] }

/-- `ScriptHost::_Init`. -/
def _Init (s : ScriptHost) : ScriptHost :=
  { s with m_clients := mapSet s.m_clients hostName (some (hostObject s.this)) }

/-- A component for the examples: `Dev`, at address 7, with the actions `Stall()` and
`Move(int)`. -/
def devObject : IScriptable :=
  RegisterAction "Move".toList 1 [ArgType.Int]
    (RegisterAction "Stall".toList 0 []
      { addr := 7, m_strName := "Dev".toList, m_ActionIDs := [], m_ActionArgs := [],
        m_bRegistered := true })

/-- A component for the examples: `Board`, at address 9, with the actions `Pause()`
and `Resume()`. -/
def boardObject : IScriptable :=
  RegisterAction "Resume".toList 1 []
    (RegisterAction "Pause".toList 0 []
      { addr := 9, m_strName := "Board".toList, m_ActionIDs := [], m_ActionArgs := [],
        m_bRegistered := true })

/-- An engine for the examples: the engine object at address 1 and the components
`Dev` and `Board` registered, the given script loaded, event frequency `freq`. -/
def demo (script : List Str) (freq : Nat) : ScriptHost :=
  let s := _Init (statics 1)
  { s with
    m_clients :=
      mapSet (mapSet s.m_clients "Dev".toList (some devObject)) "Board".toList
        (some boardObject)
    m_script := script
    m_uiAVRFreq := freq }

/-- For the examples: the resolution of the line `Dev::Stall()` at line `iLine`. -/
def stallLine (iLine : Nat) : linestate_t :=
  { isValid := true, strCtxt := "Dev".toList, iActID := 0, vArgs := [], iLine := iLine,
    pClient := some devObject }

/-- For the examples: the one-line script `Dev::Stall()`. -/
def stallScript : List Str := ["Dev::Stall()".toList]

/-- For the examples: `s` after the first lines of a tick at time 0 that resolved the
line at the cursor to `Dev::Stall()`. -/
def atStall (s : ScriptHost) : ScriptHost :=
  { setClock 0 s with m_state := .Running, lineState := stallLine s.m_iLine }

/-- For the examples: `s` once the call `Dev::Stall()` was made. -/
def afterStall (s : ScriptHost) : ScriptHost :=
  { atStall s with calls := s.calls ++ [Event.ProcessAction 7 0 []] }

/-- For the examples: the two-line script `Dev::Stall()`, `Dev::Move(1)`. -/
def twoLineScript : List Str := ["Dev::Stall()".toList, "Dev::Move(1)".toList]

/-- For the examples: the script `ScriptHost::SetTimeoutMs(100)`, `Dev::Stall()`. -/
def timeoutScript : List Str :=
  ["ScriptHost::SetTimeoutMs(100)".toList, "Dev::Stall()".toList]

/-- For the examples: the engine with `timeoutScript` at frequency 1000 after its first
tick, on which `SetTimeoutMs(100)` was executed. -/
def demoAfterSetTimeout : ScriptHost :=
  match OnMachineCycle (fun _ _ _ => LineStatus.Waiting) 0 (demo timeoutScript 1000) with
  | .ok s => s
  | .error _ => demo timeoutScript 1000

/-- For the examples: the engine with `twoLineScript` after a first tick on which `Dev`
answered `Timeout`. -/
def demoSkipped : ScriptHost :=
  match OnMachineCycle (fun _ _ _ => LineStatus.Timeout) 0 (demo twoLineScript 1000) with
  | .ok s => s
  | .error _ => demo twoLineScript 1000

/-- Components that answer every call with the same status. -/
def always (r : LineStatus) : Clients := fun _ _ _ => r

/-- The context registered as "Board", if any, is a component other than the engine
(so that the Pause and Resume calls of lines 678-681 and 712-715 are answered by that
component). -/
def BoardIsComponent (s : ScriptHost) : Prop :=
  ∀ b, mapFind s.m_clients "Board".toList = some b → ∃ c, b = some c ∧ c.addr ≠ s.this

/-- Spec-level: resolution of the parsed line `p` fails - "the line does not parse,
names an unregistered context, names an action the context does not have, or has a
different number of argument tokens than the action declares". -/
def ResolutionFails (s : ScriptHost) (p : LineParts_t) : Prop :=
  p.isValid = false ∨
  mapFind s.m_clients p.strCtxt = none ∨
  mapFind s.m_clients p.strCtxt = some none ∨
  ∃ c, mapFind s.m_clients p.strCtxt = some (some c) ∧
    (mapFind c.m_ActionIDs p.strAct = none ∨
      ∃ ID vTypes, mapFind c.m_ActionIDs p.strAct = some ID ∧
        mapFind c.m_ActionArgs ID = some vTypes ∧ p.vArgs.length ≠ vTypes.length)

/-- Spec-level: the parsed line `p` resolves to the action `ID` of the registered
component `c` ("parse, look up context and action, check argument count"). -/
def ResolvesTo (s : ScriptHost) (p : LineParts_t) (c : IScriptable) (ID : Nat) : Prop :=
  p.isValid = true ∧ mapFind s.m_clients p.strCtxt = some (some c) ∧
    mapFind c.m_ActionIDs p.strAct = some ID ∧
    ∃ vTypes, mapFind c.m_ActionArgs ID = some vTypes ∧ p.vArgs.length = vTypes.length

/-- Spec-level: the action named `act` of the context registered as "Board", as the
address of that context and the action ID, if there is such an action. -/
def boardAction (s : ScriptHost) (act : Str) : Option (Nat × Nat) :=
  match mapFind s.m_clients "Board".toList with
  | some (some b) => (mapFind b.m_ActionIDs act).map (fun ID => (b.addr, ID))
  | _ => none

/-- Spec-level: the calls made to issue the action `act` to the context "Board". -/
def boardCalls (s : ScriptHost) (act : Str) : List Event :=
  match boardAction s act with
  | some (a, ID) => [Event.ProcessAction a ID []]
  | none => []

/-- Spec-level: the line at the cursor is the action `ID`, with the argument tokens
`vArgs`, of the registered component `c`, which is not the engine; the line is either
still to be resolved (the resolution at hand is for another line, or the engine is
idle) or is the line the resolution at hand is for. -/
def WaitsOn (s : ScriptHost) (c : IScriptable) (ID : Nat) (vArgs : List Str) : Prop :=
  s.m_script.length < 2 ^ 32 ∧ c.addr ≠ s.this ∧
  ∃ line p, s.m_script.get? s.m_iLine = some line ∧ GetLineParts line = .ok p ∧
    ResolvesTo s p c ID ∧ p.vArgs = vArgs ∧
    ((s.lineState.iLine ≠ s.m_iLine ∨ s.m_state = .Idle) ∨
      (s.lineState = linestate_t.mk true p.strCtxt ID p.vArgs s.m_iLine (some c) ∧
        s.m_state ≠ .Idle))

/-- Spec-level text operation: "split at every comma". -/
def splitAtEveryComma (text : Str) : List Str := text.splitOn ','

/-- Spec-level text operation: the pieces without a final empty piece. -/
def dropFinalEmpty (pieces : List Str) : List Str :=
  if pieces.getLast? = some [] then pieces.dropLast else pieces

/-- Re-serialisation: the tokens joined by ",". -/
def joinComma : List Str → Str
  | [] => []
  | [t] => t
  | t :: t2 :: ts => t ++ ',' :: joinComma (t2 :: ts)

/-- Re-serialisation of a parsed line as `Context::Action(tok1,...,tokn)`. -/
def serialise (p : LineParts_t) : Str :=
  p.strCtxt ++ "::".toList ++ p.strAct ++ "(".toList ++ joinComma p.vArgs ++ ")".toList

/-- The comma loop of `GetLineParts` as a recursion over the text (proof device). -/
def splitArgs : Str → List Str
  | [] => []
  | c :: cs =>
    if c = ',' then [] :: splitArgs cs
    else
      match splitArgs cs with
      | [] => [[c]]
      | t :: ts => (c :: t) :: ts

/-- Spec-level: the line at the cursor is the action `ID`, with the argument tokens
`vArgs`, of the registered context `c` (a component or the engine itself); the line is
either still to be resolved or is the line the resolution at hand is for. -/
def AtLine (s : ScriptHost) (c : IScriptable) (ID : Nat) (vArgs : List Str) : Prop :=
  s.m_script.length < 2 ^ 32 ∧
  ∃ line p, s.m_script.get? s.m_iLine = some line ∧ GetLineParts line = .ok p ∧
    ResolvesTo s p c ID ∧ p.vArgs = vArgs ∧
    ((s.lineState.iLine ≠ s.m_iLine ∨ s.m_state = .Idle) ∨
      (s.lineState = linestate_t.mk true p.strCtxt ID p.vArgs s.m_iLine (some c) ∧
        s.m_state ≠ .Idle))

/-- The three-line script of the scenario, each line addressed to the engine's own
context. -/
def builtinScript : List Str :=
  ["ScriptHost::SetQuitOnTimeout(0)".toList, "ScriptHost::Log(hello)".toList,
    "ScriptHost::WaitMs(50)".toList]

/-- The engine at the address `this` after `_Init`, idle, with `builtinScript` loaded
and the event frequency `freq`. -/
def builtinStart (this freq : Nat) : ScriptHost :=
  { _Init (statics this) with m_script := builtinScript, m_uiAVRFreq := freq }

/-- The first `n` ticks of a run whose ticks are 10 ms of simulated time apart: tick
`k + 1` is at `t0 + 10000 * k` microseconds, with the components answering `env k`. -/
def everyTenMs (env : Nat → Clients) (t0 : Nat) (n : Nat) : List (Clients × Int) :=
  (List.range n).map (fun k => (env k, ((t0 + 10000 * k : Nat) : Int)))

/-- The value of a digit of a number in base 10 or 16. -/
def digitVal (c : Char) : Nat :=
  if c.isDigit then c.toNat - 48
  else if 97 ≤ c.toNat then c.toNat - 87
  else c.toNat - 55

/-- The number a run of digits denotes in the base `b`. -/
def digitsVal (b : Nat) (ds : List Char) : Nat :=
  ds.foldl (fun a c => b * a + digitVal c) 0

/-- `std::stoul(str)`, base 10, with a 64-bit `unsigned long`: leading white space is
skipped, an optional sign and the longest run of digits are read, what follows is
ignored; no digit at all throws `std::invalid_argument`, a magnitude beyond
`ULONG_MAX` throws `std::out_of_range`; with a minus sign the value is negated as an
`unsigned long`. -/
def stoul (str : Str) : Except Exn Nat :=
  let s1 := str.dropWhile isspace
  let neg := s1.head? = some '-'
  let s2 := if s1.head? = some '-' ∨ s1.head? = some '+' then s1.tail else s1
  let digits := s2.takeWhile Char.isDigit
  if digits = [] then .error .invalid_argument
  else
    let n : Nat := digitsVal 10 digits
    if SIZE_MOD ≤ n then .error .out_of_range
    else .ok (if neg then (SIZE_MOD - n) % SIZE_MOD else n)

/-- A hexadecimal digit. -/
def isHexDigit (c : Char) : Bool :=
  c.isDigit || (97 ≤ c.toNat && c.toNat ≤ 102) || (65 ≤ c.toNat && c.toNat ≤ 70)

/-- The mantissa of a floating-point text: digits with at most one decimal point and
at least one digit.  The result is the digits, the number of digits after the point,
and the text that follows; `none` when there is no digit. -/
def readMantissa (isDig : Char → Bool) (s : Str) : Option (List Char × Nat × Str) :=
  let ip := s.takeWhile isDig
  match s.dropWhile isDig with
  | '.' :: r2 =>
    let fp := r2.takeWhile isDig
    if ip = [] ∧ fp = [] then none else some (ip ++ fp, fp.length, r2.dropWhile isDig)
  | r => if ip = [] then none else some (ip, 0, r)

/-- The exponent part of a floating-point text: the marker (`e` or `p`, either case), an
optional sign and at least one decimal digit; 0 when there is no complete exponent
part. -/
def readExponent (marker : Char) (rest : Str) : Int :=
  match rest with
  | c :: r =>
    if c.toLower = marker then
      let r2 := if r.head? = some '-' ∨ r.head? = some '+' then r.tail else r
      let ds := r2.takeWhile Char.isDigit
      if ds = [] then 0
      else if r.head? = some '-' then -(digitsVal 10 ds : Int) else (digitsVal 10 ds : Int)
    else 0
  | [] => 0

/-- The number `m * b ^ e` is, in magnitude, at least the least number that rounds
beyond `FLT_MAX`, which is `2 ^ 128 - 2 ^ 103`. -/
def floatOverflows (m b : Nat) (e : Int) : Bool :=
  if 0 ≤ e then decide (2 ^ 128 - 2 ^ 103 ≤ m * b ^ e.toNat)
  else decide ((2 ^ 128 - 2 ^ 103) * b ^ (-e).toNat ≤ m)

/-- The number `m * b ^ e` is not zero and is, in magnitude, below `FLT_MIN`, which is
`2 ^ (-126)`. -/
def floatUnderflows (m b : Nat) (e : Int) : Bool :=
  if 0 ≤ e then false
  else decide (m ≠ 0 ∧ m * 2 ^ 126 < b ^ (-e).toNat)

/-- The range check of `strtof` on the number `m * b ^ e` read from `str`: overflow is
an error; for a result that underflows, whether it is an error is left to the C library
by the C standard, and is what `tiny` answers for the text. -/
def floatRange (tiny : Str → Bool) (str : Str) (m b : Nat) (e : Int) : Except Exn Unit :=
  if floatOverflows m b e then .error .out_of_range
  else if floatUnderflows m b e && tiny str then .error .out_of_range
  else .ok ()

/-- `std::stof(str)`: leading white space is skipped and an optional sign is read; then
`inf` or `nan` (either case), a hexadecimal number after `0x`, or a decimal number, each
with an optional exponent part; what follows is ignored.  No number at all throws
`std::invalid_argument`, a number out of the range of `float` throws
`std::out_of_range`.  The value itself is not used by the engine and is not part of the
result. -/
def stof (tiny : Str → Bool) (str : Str) : Except Exn Unit :=
  let s1 := str.dropWhile isspace
  let s2 := if s1.head? = some '-' ∨ s1.head? = some '+' then s1.tail else s1
  let low := (s2.take 3).map Char.toLower
  if low = "inf".toList ∨ low = "nan".toList then .ok ()
  else
    let hex :=
      if (s2.take 2).map Char.toLower = "0x".toList then readMantissa isHexDigit (s2.drop 2)
      else none
    match hex with
    | some (ds, nfrac, rest) =>
      floatRange tiny str (digitsVal 16 ds) 2 (readExponent 'p' rest - 4 * (nfrac : Int))
    | none =>
      match readMantissa Char.isDigit s2 with
      | some (ds, nfrac, rest) =>
        floatRange tiny str (digitsVal 10 ds) 10 (readExponent 'e' rest - (nfrac : Int))
      | none => .error .invalid_argument

/-- `ScriptHost::CheckArg`: the conversion is tried and its value dropped; the `catch`
of `std::exception` turns either exception of the conversion into `false`. -/
def CheckArg (tiny : Str → Bool) (type : ArgType) (val : Str) : Bool :=
  match type with
  | .Int =>
    match stoi val with
    | .ok _ => true
    | .error _ => false
  | .Float =>
    match stof tiny val with
    | .ok _ => true
    | .error _ => false
  | .Bool =>
    match stoi val with
    | .ok _ => true
    | .error _ => false
  | .String => true
  | .uint32 =>
    match stoul val with
    | .ok _ => true
    | .error _ => false

end ScriptHost

/-- One line written by `fcnErr` (line 233): the message, the line number and the text
of the line. -/
structure Report where
  sMsg : Str
  iLine : Int
  strLine : Str
  deriving DecidableEq, Repr

namespace ScriptHost

/-- The lambda `fcnErr` of `ValidateScript`: the line number is an `int`, and is
converted to `size_t` for `m_script.at(iLine)`. -/
def fcnErr (s : ScriptHost) (sMsg : Str) (iLine : Int) : Except Exn Report := do
  let strLine ← vecAt s.m_script (toU64 iLine)
  pure { sMsg := sMsg, iLine := iLine, strLine := strLine }

/-- `std::to_string` of an unsigned number. -/
def to_string (n : Nat) : Str := (Nat.repr n).toList

/-- The loop over `j` of `ValidateScript` (lines 274-282) from the position `j` on, over
the argument types still to be checked; `acc` is `bClean` and the lines written so
far.  `names` is the table `GetArgTypeNames()` of the header `IScriptable.h`, which is
not among the sources: a name for each argument type. -/
def checkArgs (tiny : Str → Bool) (names : ArgType → Str) (s : ScriptHost) (i : Nat)
    (vArgs : List Str) : List ArgType → Nat → Bool × List Report →
    Except Exn (Bool × List Report)
  | [], _, acc => pure acc
  | t :: ts, j, acc => do
    let v ← vecAt vArgs j
    if !CheckArg tiny t v then
      let r ← fcnErr s
        ("Conversion error, expected \"".toList ++ names t ++
          "\" but could not convert \"".toList ++ v ++ "\"".toList) (toI32 i)
      checkArgs tiny names s i vArgs ts (j + 1) (false, acc.2 ++ [r])
    else checkArgs tiny names s i vArgs ts (j + 1) acc

/-- The body of the loop over the lines of `ValidateScript` (lines 236-283) for the line
`i`; `acc` is `bClean` and the lines written so far by `fcnErr`.  The action ID goes
through an `int` and back to the `unsigned` key of `m_ActionArgs`, which changes no
`unsigned` value. -/
def validateLine (tiny : Str → Bool) (names : ArgType → Str) (s : ScriptHost)
    (acc : Bool × List Report) (i : Nat) : Except Exn (Bool × List Report) := do
  let strLine ← vecAt s.m_script i
  let sLine ← GetLineParts strLine
  let strCtxt := sLine.strCtxt
  if !sLine.isValid then
    let r ← fcnErr s
      "Parse error: Line is not of the form Context::Action([arg1,arg2,...])".toList (toI32 i)
    pure (false, acc.2 ++ [r])
  else
    match mapFind s.m_clients strCtxt with
    | none =>
      let r ← fcnErr s ("Unknown context ".toList ++ strCtxt) (toI32 i)
      pure (false, acc.2 ++ [r])
    | some none => .error .null_dereference
    | some (some c) =>
      match mapFind c.m_ActionIDs sLine.strAct with
      | none =>
        let r ← fcnErr s
          ("Unknown action ".toList ++ strCtxt ++ "::".toList ++ sLine.strAct) (toI32 i)
        pure (false, acc.2 ++ [r])
      | some ID =>
        let vArgTypes ← mapAt c.m_ActionArgs ID
        if vArgTypes.length ≠ sLine.vArgs.length then
          let r ← fcnErr s
            ("Argument count mismatch, expected ".toList ++ to_string vArgTypes.length)
            (toI32 i)
          pure (false, acc.2 ++ [r])
        else checkArgs tiny names s i sLine.vArgs vArgTypes 0 acc

/-- `ScriptHost::ValidateScript`: the value returned and the lines written by `fcnErr`,
in order.  The other output (the banner lines, the lists of available contexts and
actions) is left out. -/
def ValidateScript (tiny : Str → Bool) (names : ArgType → Str) (s : ScriptHost) :
    Except Exn (Bool × List Report) :=
  (List.range s.m_script.length).foldlM (validateLine tiny names s) (true, [])

/-- Spec-level: the line passes validation - it "parses (GetLineParts valid), names a
registered context, names an action registered in that context, has exactly as many
argument tokens as the action declares argument types, and every token passes CheckArg
against the declared type at its position". -/
def LineOK (tiny : Str → Bool) (s : ScriptHost) (line : Str) : Prop :=
  ∃ p c ID vTypes, GetLineParts line = .ok p ∧ p.isValid = true ∧
    mapFind s.m_clients p.strCtxt = some (some c) ∧
    mapFind c.m_ActionIDs p.strAct = some ID ∧
    mapFind c.m_ActionArgs ID = some vTypes ∧ p.vArgs.length = vTypes.length ∧
    ∀ j t v, vTypes.get? j = some t → p.vArgs.get? j = some v → CheckArg tiny t v = true

/-- The registry is as registration leaves it: no context is registered with a null
pointer, and every registered action ID has its list of argument types (`RegisterAction`
records both). -/
def RegistryOK (s : ScriptHost) : Prop :=
  ∀ name e, mapFind s.m_clients name = some e →
    ∃ c, e = some c ∧
      ∀ act ID, mapFind c.m_ActionIDs act = some ID →
        ∃ vTypes, mapFind c.m_ActionArgs ID = some vTypes

/-- The check behind `RegistryOK`, as a computation over the entries of the registry. -/
def registryCheck (s : ScriptHost) : Bool :=
  s.m_clients.all fun e =>
    match e.2 with
    | some c => c.m_ActionIDs.all fun a => (mapFind c.m_ActionArgs a.2).isSome
    | none => false

/-- For the examples: names for the five argument types. -/
def demoNames : ArgType → Str
  | .Int => "int".toList
  | .Float => "float".toList
  | .Bool => "bool".toList
  | .String => "string".toList
  | .uint32 => "uint32".toList

/-- For the examples: a script with two lines that fail validation, the second with an
argument too many. -/
def mismatchScript : List Str :=
  ["Dev::Move(1)".toList, "Dev::Move(x)".toList, "Dev::Move(1,2)".toList,
    "Dev::Stall()".toList]

/-- Spec-level: the effective names `N`, `N1`, `N2`, ... of the components that
request the name `N`, in registration order. -/
def effName (N : Str) (j : Nat) : Str :=
  if j = 0 then N else N ++ to_string j

/-- The flag `m_bRegistered` set, as `AddScriptable_C` does. -/
def markRegistered (o : IScriptable) : IScriptable :=
  { o with m_bRegistered := true }

/-- A write through a pointer to the object at the address `a`: every copy of that
object the tables hold is the object after the write. -/
def writeObj (a : Nat) (f : IScriptable → IScriptable) (s : ScriptHost) : ScriptHost :=
  { s with
    m_clients := s.m_clients.map fun e =>
      (e.1, e.2.map fun o => if o.addr = a then f o else o)
    m_mMenuBase2Client := s.m_mMenuBase2Client.map fun e =>
      (e.1, e.2.map fun o => if o.addr = a then f o else o)
    lineState := { s.lineState with
      pClient := s.lineState.pClient.map fun o => if o.addr = a then f o else o } }

/-- Modelled from the spec: `IScriptable::SetName` of the header `IScriptable.h` ("a
name (mutable only to resolve collisions)"). -/
def SetName (strName : Str) (o : IScriptable) : IScriptable :=
  { o with m_strName := strName }

/-- The comparison `m_clients.at(name) == src` of two pointers; `src` is not null. -/
def samePtr (p : Option IScriptable) (src : IScriptable) : Bool :=
  match p with
  | some o => decide (o.addr = src.addr)
  | none => false

/-- `ScriptHost::AddSubmenu`; `GetName()` is the member `m_strName`. -/
def AddSubmenu (src : IScriptable) (s : ScriptHost) : ScriptHost :=
  let strName := src.m_strName
  if s.m_bMenuCreated then s
  else if mapFind s.m_mMenuIDs strName = none then
    let ids := mapSet s.m_mMenuIDs strName 0
    let uiBase := (100 * ids.length) % UINT_MOD
    { s with
      m_mMenuIDs := ids
      m_mMenuBase2Client := mapSet s.m_mMenuBase2Client uiBase (some src)
      m_mClient2MenuBase := mapSet s.m_mClient2MenuBase strName uiBase }
  else s

/-- `ScriptHost::AddMenuEntry`; a violated `Expects` ends the program. -/
def AddMenuEntry (strName : Str) (uiID : Nat) (src : IScriptable) (s : ScriptHost) :
    Except Exn ScriptHost :=
  if ¬ uiID < 100 then .error .contract_violation
  else do
    let strClient := src.m_strName
    let uiBase ← mapAt s.m_mClient2MenuBase strClient
    let entries := (mapFind s.m_mClientEntries strClient).getD []
    pure { s with
      m_mClientEntries := mapSet s.m_mClientEntries strClient
        (entries ++ [(strName, toI32 ((uiBase + uiID) % UINT_MOD))]) }

/-- `ScriptHost::MenuCB`. -/
def MenuCB (iID : Int) (s : ScriptHost) : ScriptHost :=
  { s with m_uiQueuedMenu := toU32 iID }

/-- `ScriptHost::DispatchMenuCB`.  For a base no component owns, `operator[]` yields a
null pointer, which is then dereferenced. -/
def DispatchMenuCB (s : ScriptHost) : Except Exn ScriptHost :=
  if s.m_uiQueuedMenu ≠ 0 then
    let iID := s.m_uiQueuedMenu
    let s := { s with m_uiQueuedMenu := 0 }
    match mapFind s.m_mMenuBase2Client (iID - iID % 100) with
    | some (some pClient) =>
      pure { s with calls := s.calls ++ [Event.ProcessMenu pClient.addr (iID % 100)] }
    | _ => .error .null_dereference
  else pure s

/-- The text `AddScriptable` writes to `std::cerr` (line 632). -/
def tooManyDuplicates : Str :=
  "# ScriptHost: More than 20 duplicate identifiers. You should do something about that.\n".toList

/-- The loop `while (i<20)` of `AddScriptable` (lines 614-631) with `20 - i` rounds
left, and the line after it.  The result is the state and the object `src` points to. -/
def suffixLoop (strName : Str) (src : IScriptable) (s : ScriptHost) :
    Nat → Nat → ScriptHost × IScriptable
  | 0, _ => ({ s with calls := s.calls ++ [Event.cerr tooManyDuplicates] }, src)
  | left + 1, i =>
    let strNew := strName ++ to_string (i + 1)
    match mapFind s.m_clients strNew with
    | none =>
      let s1 := writeObj src.addr (SetName strNew)
        { s with m_clients := mapSet s.m_clients strNew (some src) }
      (AddSubmenu (SetName strNew src) s1, SetName strNew src)
    | some p =>
      if samePtr p src then (s, src)
      else suffixLoop strName src s left (i + 1)

/-- `ScriptHost::AddScriptable`: the state and the object `src` points to after the
call. -/
def AddScriptable (strName : Str) (src : IScriptable) (s : ScriptHost) :
    ScriptHost × IScriptable :=
  match mapFind s.m_clients strName with
  | none => (AddSubmenu src { s with m_clients := mapSet s.m_clients strName (some src) }, src)
  | some p =>
    if !samePtr p src then suffixLoop strName src s 20 0
    else (s, src)

/-- `ScriptHost::AddScriptable_C`. -/
def AddScriptable_C (src : IScriptable) (s : ScriptHost) : ScriptHost × IScriptable :=
  let r := AddScriptable src.m_strName src s
  (writeObj src.addr markRegistered r.1, markRegistered r.2)

/-- The components of a list registered one after the other with `AddScriptable_C`: the
state, and each component as it is when its own registration returns. -/
def registerAll : List IScriptable → ScriptHost → ScriptHost × List IScriptable
  | [], s => (s, [])
  | c :: cs, s =>
    let r := AddScriptable_C c s
    let rest := registerAll cs r.1
    (rest.1, r.2 :: rest.2)

/-- For the examples: a component at the address `a` that requests the name `name` and
has no action. -/
def plainObject (a : Nat) (name : Str) : IScriptable :=
  { addr := a, m_strName := name, m_ActionIDs := [], m_ActionArgs := [],
    m_bRegistered := false }

/-- For the examples: the engine after `_Init` with a component that requested the
name `Board1` registered. -/
def withBoard1 : ScriptHost :=
  (registerAll [plainObject 19 "Board1".toList] (_Init (statics 1))).1

/-- For the examples: the engine after `_Init` with 21 components registered that all
requested the name `Board`, at the addresses 100 to 120: the names `Board`, `Board1`,
..., `Board20` are taken. -/
def fullBoards : ScriptHost :=
  (registerAll ((List.range 21).map fun i => plainObject (100 + i) "Board".toList)
    (_Init (statics 1))).1

/-- The names `N`, `N1`, ..., `N20` are all registered, to components other than the
one at the address `a` (as a computation over the 21 names). -/
def allTaken (N : Str) (a : Nat) (s : ScriptHost) : Bool :=
  (List.range 21).all fun i =>
    match mapFind s.m_clients (effName N i) with
    | some (some o) => decide (o.addr ≠ a)
    | _ => false

/-- Spec-level: the call `AddScriptable_C(c)` made in the state `s` registered the
component under the effective name `E`, a name that was free; `r` is the state and the
component after the call.  The registry has one entry more, and when no menu is created
yet and `E` has no menu, the component has the next menu base. -/
def RegisteredAs (s : ScriptHost) (c : IScriptable) (E : Str)
    (r : ScriptHost × IScriptable) : Prop :=
  mapFind s.m_clients E = none ∧ r.2.m_strName = E ∧ r.2.addr = c.addr ∧
  r.1.m_clients.length = s.m_clients.length + 1 ∧
  (∀ k, mapFind s.m_clients k ≠ none → mapFind r.1.m_clients k ≠ none) ∧
  mapFind r.1.m_clients E ≠ none ∧
  r.1.m_bMenuCreated = s.m_bMenuCreated ∧
  (s.m_bMenuCreated = false → mapFind s.m_mMenuIDs E = none →
    100 * (s.m_mMenuIDs.length + 1) < 2 ^ 32 →
    r.1.m_mMenuIDs = mapSet s.m_mMenuIDs E 0 ∧
    r.1.m_mClient2MenuBase
      = mapSet s.m_mClient2MenuBase E (100 * (s.m_mMenuIDs.length + 1)) ∧
    (∃ o, mapFind r.1.m_mMenuBase2Client (100 * (s.m_mMenuIDs.length + 1)) = some (some o) ∧
      o.addr = c.addr) ∧
    (∀ key o, key ≠ 100 * (s.m_mMenuIDs.length + 1) →
      mapFind s.m_mMenuBase2Client key = some (some o) →
      ∃ o', mapFind r.1.m_mMenuBase2Client key = some (some o') ∧ o'.addr = o.addr))

/-- For the examples: the engine after `_Init` with two components registered that
both requested the name `Board`, at the addresses 20 and 21. -/
def twoBoards : ScriptHost :=
  (registerAll [plainObject 20 "Board".toList, plainObject 21 "Board".toList]
    (_Init (statics 1))).1

/-- The order `operator<` of `std::string`: lexicographic, character by character. -/
def strLt : Str → Str → Bool
  | [], [] => false
  | [], _ :: _ => true
  | _ :: _, [] => false
  | a :: as, b :: bs =>
    if a.toNat < b.toNat then true
    else if a = b then strLt as bs
    else false

/-- `std::set<std::string>::insert` on the elements in increasing order. -/
def setInsert (x : Str) : List Str → List Str
  | [] => [x]
  | y :: ys =>
    if x = y then y :: ys
    else if strLt x y then x :: y :: ys
    else y :: setInsert x ys

/-- The text `strArgFmt` that `SetupAutocomplete` builds for one action (lines 437-450):
the action name and `(`; then, when there are argument types, each type name followed by
`", "` and the character at the position `size() - 2` overwritten with `)`, else `)`
appended. -/
def argFmt (names : ArgType → Str) (strAct : Str) (types : List ArgType) : Str :=
  let strArgFmt := strAct ++ ['(']
  if types.length > 0 then
    let strArgFmt := types.foldl (fun acc t => acc ++ (names t ++ ", ".toList)) strArgFmt
    strArgFmt.set (strArgFmt.length - 2) ')'
  else strArgFmt ++ [')']

/-- The body of the inner loop of `SetupAutocomplete` for the action `act` of the object
`o` registered as `strName`.  `m_ActionArgs[ID]` adds an empty list to the object when
the ID has none. -/
def addAutocomplete (names : ArgType → Str) (strName : Str) (o : IScriptable)
    (s : ScriptHost) (act : Str × Nat) : ScriptHost :=
  let s1 :=
    if mapFind o.m_ActionArgs act.2 = none then
      writeObj o.addr (fun x => { x with m_ActionArgs := mapSet x.m_ActionArgs act.2 [] }) s
    else s
  { s1 with
    m_strGLAutoC :=
      setInsert
        (strName ++ "::".toList ++ argFmt names act.1 ((mapFind o.m_ActionArgs act.2).getD []))
        s1.m_strGLAutoC }

/-- `ScriptHost::SetupAutocomplete`; `names` is the table `GetArgTypeNames()`. -/
def SetupAutocomplete (names : ArgType → Str) (s : ScriptHost) : Except Exn ScriptHost :=
  s.m_clients.foldlM
    (fun st c =>
      match c.2 with
      | none => .error .null_dereference
      | some o => pure (o.m_ActionIDs.foldl (addAutocomplete names c.1 o) st))
    { s with m_bIsTerminalEnabled := true }

/-- `std::set::upper_bound(strCmd)` as the elements from that position on: the first
element greater than `strCmd` and what follows it. -/
def upper_bound (strCmd : Str) (set : List Str) : List Str :=
  set.dropWhile fun e => !strLt strCmd e

/-- The loop of `OnAutoComplete_C` (lines 781-784) with `pNext` at the head of the
elements left.  The condition reads `*pNext` before it compares `pNext` with `end()`:
with no element left it dereferences `end()`. -/
def collectMatches (strCmd : Str) : List Str → List Str → Except Exn (List Str)
  | [], _ => .error .end_dereference
  | e :: rest, strMatches =>
    if strCmd.isPrefixOf e then collectMatches strCmd rest (setInsert e strMatches)
    else pure strMatches

/-- `ScriptHost::OnAutoComplete_C`. -/
def OnAutoComplete_C (strCmd : Str) (s : ScriptHost) : Except Exn (List Str) :=
  match upper_bound strCmd s.m_strGLAutoC with
  | [] => pure []
  | e :: rest => collectMatches strCmd (e :: rest) []

/-- For the examples: the engine after `_Init` with the component `Dev` registered. -/
def withDev : ScriptHost :=
  (registerAll [devObject] (_Init (statics 1))).1

/-- The loop of `LoadScript` (lines 115-122) over the lines `getline` delivers from
the file: a line that is empty or starts with `#` is skipped, any other line is
pushed to the back of `m_script`. -/
def loadLines : List Str → List Str → List Str
  | [], m_script => m_script
  | strLn :: fileIn, m_script =>
    if strLn.isEmpty || strLn.head? == some '#' then loadLines fileIn m_script
    else loadLines fileIn (m_script ++ [strLn])

/-- `ScriptHost::LoadScript` on a file whose lines, as `getline` delivers them, are
`fileIn` (no line at all when the file cannot be opened).  The message written to
`std::cout` is not part of the state. -/
def LoadScript (fileIn : List Str) (s : ScriptHost) : ScriptHost :=
  let m_script := loadLines fileIn s.m_script
  { s with m_script := m_script, m_iLine := 0, m_scriptGL := m_script }

/-- `ScriptHost::OnCommand_C`. -/
def OnCommand_C (strCmd : Str) (s : ScriptHost) : ScriptHost :=
  if strCmd.isEmpty then s
  else { s with m_script := s.m_script ++ [strCmd] }

/-- Lines 303-306 of `KeyCB`: `if (strCmd.size()>0) { strCmd.pop_back(); }`. -/
def popCmd (s : ScriptHost) : ScriptHost :=
  if s.m_strCmd.length > 0 then { s with m_strCmd := s.m_strCmd.dropLast } else s

/-- `ScriptHost::KeyCB`.  The escape case falls through into the delete case.  In the
return case the flag `m_bCanAcceptInput` is cleared before and set after the append;
only the value it is left with is kept here. -/
def KeyCB (key : Char) (s : ScriptHost) : Except Exn ScriptHost :=
  if !s.m_bCanAcceptInput then pure s
  else if key.toNat = 0x1b then pure (popCmd { s with m_strCmd := [] })
  else if key.toNat = 0x7F ∨ key.toNat = 0x08 then pure (popCmd s)
  else if key.toNat = 0x0d then
    pure { s with
      m_eCmdStatus := .TermIdle
      m_script := s.m_script ++ [s.m_strCmd]
      m_bCanAcceptInput := true }
  else if key.toNat = 0x9 then
    match upper_bound s.m_strCmd s.m_strGLAutoC with
    | [] => pure s
    | pNext :: _ =>
      match findChar '(' pNext with
      | some posTrim => do
        let cut ← substr pNext 0 (add64 posTrim 1)
        pure { s with m_strCmd := cut }
      | none => pure { s with m_strCmd := pNext }
  else pure { s with m_strCmd := s.m_strCmd ++ [key] }

/-- For the examples: the engine with the component `Dev` after `SetupAutocomplete`,
accepting input, with `strCmd` in the edit buffer. -/
def atPrompt (strCmd : Str) : ScriptHost :=
  match SetupAutocomplete demoNames withDev with
  | .ok s => { s with m_strCmd := strCmd, m_bCanAcceptInput := true }
  | .error _ => withDev

/-- For the examples: the engine with the components `Dev` and `Board`, an empty script
and the line `strCmd` entered through `OnCommand_C`. -/
def entered (strCmd : Str) : ScriptHost :=
  OnCommand_C strCmd (demo [] 16000000)

/-- For the examples: the first `n` ticks, 10 ms apart and the first at `t0`
microseconds, of the engine whose script is the one line `ScriptHost::WaitMs(50)`; the
cursor, the baseline `m_uiWaitMs` and the time `m_uiCurrentMs` they end with. -/
def waitRun (t0 n : Nat) : Except Exn (Nat × Nat × Nat) :=
  (runTicks (everyTenMs (fun _ => always .Finished) t0 n)
      (demo ["ScriptHost::WaitMs(50)".toList] 16000000)).map
    fun s => (s.m_iLine, s.m_uiWaitMs, s.m_uiCurrentMs)

end ScriptHost

/-! ## Arithmetic on `size_t` -/

theorem sub64_of_le (a b : Nat) (hb : b ≤ a) (ha : a < 2 ^ 64) : sub64 a b = a - b := by
  unfold sub64 SIZE_MOD
  omega

theorem add64_of_lt (a b : Nat) (h : a + b < 2 ^ 64) : add64 a b = a + b := by
  unfold add64 SIZE_MOD
  omega

/-! ## `find` -/

theorem find_lt (pat s : Str) (i : Nat) (h : find pat s = some i) :
    i + pat.length ≤ s.length := by
  induction s generalizing i with
  | nil =>
    simp only [find] at h
    split at h
    · next hp => simp_all
    · simp at h
  | cons c cs ih =>
    simp only [find] at h
    split at h
    · next hp =>
      have h1 := List.isPrefixOf_iff_prefix.mp hp
      have h2 := h1.length_le
      simp only [Option.some.injEq] at h
      omega
    · cases hf : find pat cs with
      | none => simp [hf] at h
      | some j =>
        simp only [hf, Option.map_some', Option.some.injEq] at h
        have := ih j hf
        simp only [List.length_cons]
        omega

theorem find_some_at (pat s : Str) (i : Nat) (h : find pat s = some i) :
    pat <+: s.drop i := by
  induction s generalizing i with
  | nil =>
    simp only [find] at h
    split at h
    · next hp => simp [hp]
    · simp at h
  | cons c cs ih =>
    simp only [find] at h
    split at h
    · next hp =>
      simp only [Option.some.injEq] at h
      subst h
      simpa using List.isPrefixOf_iff_prefix.mp hp
    · cases hf : find pat cs with
      | none => simp [hf] at h
      | some j =>
        simp only [hf, Option.map_some', Option.some.injEq] at h
        subst h
        simpa using ih j hf

theorem find_first (pat s : Str) (i : Nat) (h : find pat s = some i) :
    ∀ j, j < i → ¬ pat <+: s.drop j := by
  induction s generalizing i with
  | nil =>
    simp only [find] at h
    split at h
    · simp only [Option.some.injEq] at h
      omega
    · cases h
  | cons c cs ih =>
    simp only [find] at h
    split at h
    · simp only [Option.some.injEq] at h
      omega
    · next hp =>
      cases hf : find pat cs with
      | none => simp [hf] at h
      | some k =>
        simp only [hf, Option.map_some', Option.some.injEq] at h
        subst h
        intro j hj
        cases j with
        | zero =>
          intro hpre
          exact hp (List.isPrefixOf_iff_prefix.mpr hpre)
        | succ j => simpa using ih k hf j (by omega)

theorem findChar_first (ch : Char) (s : Str) (i : Nat) (h : findChar ch s = some i) :
    ∀ j, j < i → s.get? j ≠ some ch := by
  induction s generalizing i with
  | nil => simp [findChar] at h
  | cons c cs ih =>
    simp only [findChar] at h
    split at h
    · simp only [Option.some.injEq] at h
      omega
    · next hc =>
      cases hf : findChar ch cs with
      | none => simp [hf] at h
      | some k =>
        simp only [hf, Option.map_some', Option.some.injEq] at h
        subst h
        intro j hj
        cases j with
        | zero => simpa using hc
        | succ j => simpa using ih k hf j (by omega)

theorem find_none_of_absent (pat s : Str) (h : ¬ pat <:+: s) : find pat s = none := by
  induction s with
  | nil =>
    simp only [find]
    split
    · next hp => exact absurd (hp ▸ List.nil_infix) h
    · rfl
  | cons c cs ih =>
    simp only [find]
    split
    · next hp => exact absurd (List.isPrefixOf_iff_prefix.mp hp).isInfix h
    · have : ¬ pat <:+: cs := fun hi => h (hi.trans (List.suffix_cons c cs).isInfix)
      simp [ih this]

theorem findChar_lt (ch : Char) (s : Str) (i : Nat) (h : findChar ch s = some i) :
    s.get? i = some ch := by
  induction s generalizing i with
  | nil => simp [findChar] at h
  | cons c cs ih =>
    simp only [findChar] at h
    split at h
    · next hc =>
      simp only [Option.some.injEq] at h
      subst h
      simp [hc]
    · cases hf : findChar ch cs with
      | none => simp [hf] at h
      | some j =>
        simp only [hf, Option.map_some', Option.some.injEq] at h
        subst h
        simpa using ih j hf

theorem findChar_none_of_not_mem (ch : Char) (s : Str) (h : ch ∉ s) : findChar ch s = none := by
  induction s with
  | nil => rfl
  | cons c cs ih =>
    simp only [List.mem_cons, not_or] at h
    simp only [findChar]
    rw [if_neg (fun hc => h.1 hc.symm), ih h.2]
    rfl

open ScriptHost

/-! ## The comma loop -/

theorem getline_rest_length (s tok r : Str) (h : getline ',' s = (tok, some r)) :
    r.length < s.length := by
  induction s generalizing tok with
  | nil => simp [getline] at h
  | cons c cs ih =>
    simp only [getline] at h
    split at h
    · simp only [Prod.mk.injEq, Option.some.injEq] at h
      simp [← h.2]
    · simp only [Prod.mk.injEq] at h
      have := ih (getline ',' cs).1 (Prod.ext rfl h.2)
      simp only [List.length_cons]
      omega

theorem splitArgs_cons_ne (c : Char) (cs : Str) (hc : c ≠ ',') :
    splitArgs (c :: cs) =
      match splitArgs cs with
      | [] => [[c]]
      | t :: ts => (c :: t) :: ts := by
  rw [splitArgs, if_neg hc]

theorem getline_cons_ne (c : Char) (cs : Str) (hc : c ≠ ',') :
    getline ',' (c :: cs) = (c :: (getline ',' cs).1, (getline ',' cs).2) := by
  rw [getline, if_neg hc]

theorem splitArgs_getline (c : Char) (cs : Str) :
    splitArgs (c :: cs) =
      match getline ',' (c :: cs) with
      | (tok, none) => [tok]
      | (tok, some r) => tok :: splitArgs r := by
  induction cs generalizing c with
  | nil =>
    by_cases hc : c = ','
    · simp [splitArgs, getline, hc]
    · simp [splitArgs, getline, hc]
  | cons d ds ih =>
    by_cases hc : c = ','
    · simp [splitArgs, getline, hc]
    · rw [splitArgs_cons_ne c _ hc, ih d, getline_cons_ne c _ hc]
      rcases hg : getline ',' (d :: ds) with ⟨tok, _ | r⟩ <;> simp

theorem readArgs_eq_splitArgs (fuel : Nat) (s : Str) (h : s.length < fuel) :
    readArgs fuel s = splitArgs s := by
  induction fuel generalizing s with
  | zero => omega
  | succ f ih =>
    cases s with
    | nil => simp [readArgs, splitArgs]
    | cons c cs =>
      rw [splitArgs_getline, readArgs, if_neg (by simp)]
      rcases hg : getline ',' (c :: cs) with ⟨tok, _ | r⟩
      · simp
      · have hr := getline_rest_length _ _ _ hg
        simp only [List.length_cons] at h hr
        simp [ih r (by omega)]

theorem dropFinalEmpty_cons (t : Str) (l : List Str) (hl : l ≠ []) :
    dropFinalEmpty (t :: l) = t :: dropFinalEmpty l := by
  cases l with
  | nil => exact absurd rfl hl
  | cons u us =>
    unfold dropFinalEmpty
    rw [List.getLast?_cons_cons]
    split <;> simp

theorem splitArgs_eq (s : Str) : splitArgs s = dropFinalEmpty (splitAtEveryComma s) := by
  unfold splitAtEveryComma List.splitOn
  induction s with
  | nil => simp [splitArgs, dropFinalEmpty]
  | cons c cs ih =>
    rw [List.splitOnP_cons, splitArgs]
    have hne := List.splitOnP_ne_nil (fun x => x == ',') cs
    by_cases hc : c = ','
    · simp only [hc, beq_self_eq_true, if_true]
      rw [dropFinalEmpty_cons _ _ hne, ih]
    · have hb : (c == ',') = false := by simpa using hc
      simp only [hc, if_false, hb, Bool.false_eq_true]
      rw [ih]
      rcases hs : List.splitOnP (fun x => x == ',') cs with _ | ⟨t, ts⟩
      · exact absurd hs hne
      · cases ts with
        | nil =>
          by_cases ht : t = []
          · simp [dropFinalEmpty, ht, List.modifyHead]
          · simp [dropFinalEmpty, ht, List.modifyHead]
        | cons u us =>
          rw [dropFinalEmpty_cons t (u :: us) (by simp)]
          simp only [List.modifyHead]
          rw [dropFinalEmpty_cons (c :: t) (u :: us) (by simp)]

theorem readArgs_eq (s : Str) :
    readArgs (s.length + 1) s = dropFinalEmpty (splitAtEveryComma s) := by
  rw [readArgs_eq_splitArgs _ _ (Nat.lt_succ_self _), splitArgs_eq]

/-! ## `GetLineParts` -/

theorem findChar_bound (ch : Char) (s : Str) (i : Nat) (h : findChar ch s = some i) :
    i < s.length := by
  have := findChar_lt ch s i h
  exact (List.get?_eq_some.mp this).1

theorem find_colons_get (s : Str) (i : Nat) (h : find "::".toList s = some i) :
    s.get? i = some ':' ∧ s.get? (i + 1) = some ':' := by
  obtain ⟨t, ht⟩ := find_some_at _ _ _ h
  have h0 : (s.drop i).get? 0 = some ':' := by rw [← ht]; rfl
  have h1 : (s.drop i).get? 1 = some ':' := by rw [← ht]; rfl
  simp only [List.get?_eq_getElem?, List.getElem?_drop] at h0 h1 ⊢
  exact ⟨by simpa using h0, h1⟩

/-- Whatever the order of the three separators, `GetLineParts` returns (no `substr`
throws) and marks the line valid as soon as all three occur. -/
theorem GetLineParts_of_found (line : Str) (i j k : Nat)
    (hi : find "::".toList line = some i) (hj : findChar '(' line = some j)
    (hk : findChar ')' line = some k) :
    GetLineParts line = .ok
      { isValid := true
        strCtxt := line.take i
        strAct := (line.drop (add64 i 2)).take (sub64 (sub64 j i) 2)
        vArgs := dropFinalEmpty (splitAtEveryComma
          ((line.drop (add64 j 1)).take (sub64 (sub64 k j) 1))) } := by
  have h1 : i + 2 ≤ line.length := by simpa using find_lt _ _ _ hi
  have h2 := findChar_bound _ _ _ hj
  have e1 : ¬ (add64 i 2 > line.length) := by unfold add64 SIZE_MOD; omega
  have e2 : ¬ (add64 j 1 > line.length) := by unfold add64 SIZE_MOD; omega
  simp only [GetLineParts, hi, hj, hk, substr, e1, e2, if_false, bind, Except.bind, pure,
    Except.pure, readArgs_eq]
  simp

theorem GetLineParts_of_none (line : Str)
    (h : find "::".toList line = none ∨ findChar '(' line = none ∨ findChar ')' line = none) :
    GetLineParts line = .ok LineParts_t.default := by
  unfold GetLineParts
  split
  · next h1 h2 h3 =>
    rcases h with h | h | h
    · rw [h] at h1; cases h1
    · rw [h] at h2; cases h2
    · rw [h] at h3; cases h3
  · rfl

/-- `GetLineParts` never throws. -/
theorem GetLineParts_total (line : Str) : ∃ p, GetLineParts line = .ok p := by
  rcases hi : find "::".toList line with _ | i
  · exact ⟨_, GetLineParts_of_none line (Or.inl hi)⟩
  rcases hj : findChar '(' line with _ | j
  · exact ⟨_, GetLineParts_of_none line (Or.inr (Or.inl hj))⟩
  rcases hk : findChar ')' line with _ | k
  · exact ⟨_, GetLineParts_of_none line (Or.inr (Or.inr hk))⟩
  exact ⟨_, GetLineParts_of_found line i j k hi hj hk⟩

theorem positions_arith (i j k len : Nat) (hij : i + 2 ≤ j) (hjk : j < k) (hk : k < len)
    (hlen : len < 2 ^ 64) :
    add64 i 2 = i + 2 ∧ add64 j 1 = j + 1 ∧ sub64 (sub64 j i) 2 = j - (i + 2) ∧
      sub64 (sub64 k j) 1 = k - (j + 1) := by
  have a1 : add64 i 2 = i + 2 := add64_of_lt _ _ (by omega)
  have a2 : add64 j 1 = j + 1 := add64_of_lt _ _ (by omega)
  have s1 : sub64 j i = j - i := sub64_of_le _ _ (by omega) (by omega)
  have s2 : sub64 (j - i) 2 = j - i - 2 := sub64_of_le _ _ (by omega) (by omega)
  have s3 : sub64 k j = k - j := sub64_of_le _ _ (by omega) (by omega)
  have s4 : sub64 (k - j) 1 = k - j - 1 := sub64_of_le _ _ (by omega) (by omega)
  rw [a1, a2, s1, s2, s3, s4]
  exact ⟨rfl, rfl, by omega, by omega⟩

/-- C1 (as amended): for a line shorter than `2 ^ 64` whose first "::" (at `i`) comes
before its first '(' (at `j`) which comes before its first ')' (at `k`),
`GetLineParts` returns a valid result; the context name is the text before the "::",
the action name the text between the "::" and the '(', and the argument tokens are the
text between '(' and ')' split at every comma, every piece verbatim, except that a
final empty piece (empty argument text, or text ending in a comma) is not a token. -/
theorem GetLineParts_ordered (line : Str) (i j k : Nat) (hlen : line.length < 2 ^ 64)
    (hi : find "::".toList line = some i) (hj : findChar '(' line = some j)
    (hk : findChar ')' line = some k) (hij : i < j) (hjk : j < k) :
    GetLineParts line = .ok
      { isValid := true
        strCtxt := line.take i
        strAct := (line.drop (i + 2)).take (j - (i + 2))
        vArgs := dropFinalEmpty (splitAtEveryComma
          ((line.drop (j + 1)).take (k - (j + 1)))) } := by
  have hk2 := findChar_bound _ _ _ hk
  have hj2 := findChar_lt _ _ _ hj
  have hc := (find_colons_get line i hi).2
  have hne : j ≠ i + 1 := by
    intro h
    rw [h, hc] at hj2
    exact absurd hj2 (by decide)
  obtain ⟨a1, a2, a3, a4⟩ := positions_arith i j k line.length (by omega) hjk hk2 hlen
  rw [GetLineParts_of_found line i j k hi hj hk, a1, a2, a3, a4]

/-- Witness of `GetLineParts_ordered`: the line `Ctx::Act(a, b)`. -/
theorem GetLineParts_ordered_witness :
    GetLineParts "Ctx::Act(a, b)".toList = .ok
      { isValid := true
        strCtxt := "Ctx::Act(a, b)".toList.take 3
        strAct := ("Ctx::Act(a, b)".toList.drop (3 + 2)).take (8 - (3 + 2))
        vArgs := dropFinalEmpty (splitAtEveryComma
          (("Ctx::Act(a, b)".toList.drop (8 + 1)).take (13 - (8 + 1)))) } :=
  GetLineParts_ordered "Ctx::Act(a, b)".toList 3 8 13 (by decide) (by decide) (by decide)
    (by decide) (by decide) (by decide)

/-- C1 as stated fails: in `Ctx::Act(x,)` the separators are in order, the text
between the parentheses is `x,`, which split at every comma is `x` and the empty
piece, but `GetLineParts` returns the single token `x`. -/
theorem GetLineParts_not_every_comma :
    find "::".toList "Ctx::Act(x,)".toList = some 3 ∧
    findChar '(' "Ctx::Act(x,)".toList = some 8 ∧
    findChar ')' "Ctx::Act(x,)".toList = some 11 ∧
    splitAtEveryComma (("Ctx::Act(x,)".toList.drop (8 + 1)).take (11 - (8 + 1)))
      = ["x".toList, []] ∧
    GetLineParts "Ctx::Act(x,)".toList = .ok
      { isValid := true, strCtxt := "Ctx".toList, strAct := "Act".toList,
        vArgs := ["x".toList] } ∧
    GetLineParts "Ctx::Act(x,)".toList ≠ .ok
      { isValid := true
        strCtxt := "Ctx::Act(x,)".toList.take 3
        strAct := ("Ctx::Act(x,)".toList.drop (3 + 2)).take (8 - (3 + 2))
        vArgs := splitAtEveryComma
          (("Ctx::Act(x,)".toList.drop (8 + 1)).take (11 - (8 + 1))) } := by
  decide

/-- C2: a line that contains no "::", or no '(', or no ')' gives a result whose
validity flag is false and whose context name, action name and token list are
empty. -/
theorem GetLineParts_missing (line : Str)
    (h : ¬ "::".toList <:+: line ∨ '(' ∉ line ∨ ')' ∉ line) :
    GetLineParts line = .ok { isValid := false, strCtxt := [], strAct := [], vArgs := [] } := by
  rw [GetLineParts_of_none line ?_]
  · rfl
  · rcases h with h | h | h
    · exact Or.inl (find_none_of_absent _ _ h)
    · exact Or.inr (Or.inl (findChar_none_of_not_mem _ _ h))
    · exact Or.inr (Or.inr (findChar_none_of_not_mem _ _ h))

/-- Witness of `GetLineParts_missing`: the line `Log(hello)` has no "::". -/
theorem GetLineParts_missing_witness :
    GetLineParts "Log(hello)".toList
      = .ok { isValid := false, strCtxt := [], strAct := [], vArgs := [] } :=
  GetLineParts_missing "Log(hello)".toList (Or.inl (by decide))

/-- C3 fails on the code: with the first '(' before the first "::" (the line
`Log(ScriptHost::hello)`), and with the first ')' before the first '(' (the line
`)::(`), `GetLineParts` marks the line valid and populates the fields. -/
theorem GetLineParts_unordered_valid :
    GetLineParts "Log(ScriptHost::hello)".toList = .ok
      { isValid := true, strCtxt := "Log(ScriptHost".toList, strAct := "hello)".toList,
        vArgs := ["ScriptHost::hello".toList] } ∧
    GetLineParts ")::(".toList = .ok
      { isValid := true, strCtxt := ")".toList, strAct := [], vArgs := [] } := by
  decide

/-! ## The round trip -/

theorem find_cons_hit (pat : Str) (c : Char) (cs : Str)
    (h : pat.isPrefixOf (c :: cs) = true) : find pat (c :: cs) = some 0 := by
  rw [find, if_pos h]

theorem find_cons_miss (pat : Str) (c : Char) (cs : Str)
    (h : pat.isPrefixOf (c :: cs) = false) :
    find pat (c :: cs) = (find pat cs).map (· + 1) := by
  rw [find, if_neg (by simp [h])]

theorem findChar_cons_ne (ch c : Char) (cs : Str) (h : c ≠ ch) :
    findChar ch (c :: cs) = (findChar ch cs).map (· + 1) := by
  rw [findChar, if_neg h]

theorem find_colons_append (pre post : Str) (h : ':' ∉ pre) :
    find "::".toList (pre ++ ':' :: ':' :: post) = some pre.length := by
  induction pre with
  | nil => exact find_cons_hit _ _ _ (by simp [List.isPrefixOf])
  | cons c cs ih =>
    simp only [List.mem_cons, not_or] at h
    have hc : c ≠ ':' := fun e => h.1 e.symm
    have hp : List.isPrefixOf "::".toList (c :: (cs ++ ':' :: ':' :: post)) = false := by
      show List.isPrefixOf [':', ':'] (c :: (cs ++ ':' :: ':' :: post)) = false
      simp [List.isPrefixOf, Ne.symm hc]
    rw [List.cons_append, find_cons_miss _ _ _ hp, ih h.2]
    rfl

theorem findChar_append (ch : Char) (pre post : Str) (h : ch ∉ pre) :
    findChar ch (pre ++ ch :: post) = some pre.length := by
  induction pre with
  | nil => simp [findChar]
  | cons c cs ih =>
    simp only [List.mem_cons, not_or] at h
    rw [List.cons_append, findChar_cons_ne _ _ _ (fun e => h.1 e.symm), ih h.2]
    rfl

theorem splitArgs_single (t : Str) (ht : t ≠ []) (hc : ∀ c ∈ t, c ≠ ',') :
    splitArgs t = [t] := by
  induction t with
  | nil => exact absurd rfl ht
  | cons c cs ih =>
    rw [splitArgs_cons_ne c cs (hc c (List.mem_cons_self _ _))]
    cases cs with
    | nil => rfl
    | cons d ds =>
      rw [ih (by simp) (fun x hx => hc x (List.mem_cons_of_mem _ hx))]

theorem splitArgs_append_comma (t rest : Str) (hc : ∀ c ∈ t, c ≠ ',') :
    splitArgs (t ++ ',' :: rest) = t :: splitArgs rest := by
  induction t with
  | nil => simp [splitArgs]
  | cons c cs ih =>
    rw [List.cons_append, splitArgs_cons_ne c _ (hc c (List.mem_cons_self _ _)),
      ih (fun x hx => hc x (List.mem_cons_of_mem _ hx))]

theorem splitArgs_joinComma (toks : List Str) (hc : ∀ t ∈ toks, ∀ c ∈ t, c ≠ ',')
    (hlast : toks.getLast? ≠ some []) : splitArgs (joinComma toks) = toks := by
  induction toks with
  | nil => rfl
  | cons t ts ih =>
    cases ts with
    | nil =>
      have ht : t ≠ [] := by
        intro e
        exact hlast (by simp [e])
      simpa [joinComma] using splitArgs_single t ht (hc t (List.mem_cons_self _ _))
    | cons u us =>
      rw [joinComma, splitArgs_append_comma t _ (hc t (List.mem_cons_self _ _)),
        ih (fun x hx => hc x (List.mem_cons_of_mem _ hx))
          (by rwa [List.getLast?_cons_cons] at hlast)]

theorem not_mem_joinComma (ch : Char) (hch : ch ≠ ',') (toks : List Str)
    (h : ∀ t ∈ toks, ch ∉ t) : ch ∉ joinComma toks := by
  induction toks with
  | nil => simp [joinComma]
  | cons t ts ih =>
    cases ts with
    | nil => simpa [joinComma] using h t (List.mem_cons_self _ _)
    | cons u us =>
      rw [joinComma]
      simp only [List.mem_append, List.mem_cons, not_or]
      exact ⟨h t (List.mem_cons_self _ _), hch,
        ih (fun x hx => h x (List.mem_cons_of_mem _ hx))⟩

/-- C4 (as amended): for every line `L = Context::Action(tok1,...,tokn)` shorter than
`2 ^ 64`, with context and action free of ':', '(' and ')', every token free of ',',
'(' and ')', `L` ending at its ')', and the last token - if there is any - not empty,
`GetLineParts L` is valid, the recovered context, action and tokens are the original
ones, and re-serialising the result gives back exactly `L`. -/
theorem GetLineParts_roundtrip (ctx act : Str) (toks : List Str)
    (hctx : ∀ c ∈ ctx, c ≠ ':' ∧ c ≠ '(' ∧ c ≠ ')')
    (hact : ∀ c ∈ act, c ≠ ':' ∧ c ≠ '(' ∧ c ≠ ')')
    (htok : ∀ t ∈ toks, ∀ c ∈ t, c ≠ ',' ∧ c ≠ '(' ∧ c ≠ ')')
    (hlast : toks.getLast? ≠ some [])
    (hlen : (ctx ++ "::".toList ++ act ++ "(".toList ++ joinComma toks ++ ")".toList).length
      < 2 ^ 64) :
    ∃ p, GetLineParts (ctx ++ "::".toList ++ act ++ "(".toList ++ joinComma toks ++ ")".toList)
        = .ok p ∧
      p.isValid = true ∧ p.strCtxt = ctx ∧ p.strAct = act ∧ p.vArgs = toks ∧
      serialise p = ctx ++ "::".toList ++ act ++ "(".toList ++ joinComma toks ++ ")".toList := by
  have hL : ctx ++ "::".toList ++ act ++ "(".toList ++ joinComma toks ++ ")".toList
      = ctx ++ ':' :: ':' :: (act ++ '(' :: (joinComma toks ++ [')'])) := by
    show ctx ++ [':', ':'] ++ act ++ ['('] ++ joinComma toks ++ [')'] = _
    simp
  have hL2 : ctx ++ ':' :: ':' :: (act ++ '(' :: (joinComma toks ++ [')']))
      = (ctx ++ ':' :: ':' :: act) ++ '(' :: (joinComma toks ++ [')']) := by simp
  have hL3 : ctx ++ ':' :: ':' :: (act ++ '(' :: (joinComma toks ++ [')']))
      = (ctx ++ ':' :: ':' :: (act ++ '(' :: joinComma toks)) ++ ')' :: [] := by simp
  rw [hL] at hlen ⊢
  have c1 : ':' ∉ ctx := fun h => (hctx _ h).1 rfl
  have c2 : '(' ∉ ctx ++ ':' :: ':' :: act := by
    simp only [List.mem_append, List.mem_cons, not_or]
    exact ⟨fun h => (hctx _ h).2.1 rfl, by decide, by decide, fun h => (hact _ h).2.1 rfl⟩
  have c3 : ')' ∉ ctx ++ ':' :: ':' :: (act ++ '(' :: joinComma toks) := by
    simp only [List.mem_append, List.mem_cons, not_or]
    refine ⟨fun h => (hctx _ h).2.2 rfl, by decide, by decide, fun h => (hact _ h).2.2 rfl,
      by decide, ?_⟩
    exact not_mem_joinComma ')' (by decide) toks (fun t ht h => (htok t ht _ h).2.2 rfl)
  have hi := find_colons_append ctx (act ++ '(' :: (joinComma toks ++ [')'])) c1
  have hj := findChar_append '(' _ (joinComma toks ++ [')']) c2
  have hk := findChar_append ')' _ [] c3
  rw [← hL2] at hj
  rw [← hL3] at hk
  have hp := GetLineParts_of_found _ _ _ _ hi hj hk
  obtain ⟨a1, a2, a3, a4⟩ := positions_arith ctx.length (ctx ++ ':' :: ':' :: act).length
    (ctx ++ ':' :: ':' :: (act ++ '(' :: joinComma toks)).length _
    (by simp only [List.length_append, List.length_cons]; omega)
    (by simp only [List.length_append, List.length_cons]; omega)
    (by simp only [List.length_append, List.length_cons, List.length_nil]; omega) hlen
  rw [a1, a2, a3, a4] at hp
  have f1 : (ctx ++ ':' :: ':' :: (act ++ '(' :: (joinComma toks ++ [')']))).take ctx.length
      = ctx := by simp
  have f2 : ((ctx ++ ':' :: ':' :: (act ++ '(' :: (joinComma toks ++ [')']))).drop
      (ctx.length + 2)).take ((ctx ++ ':' :: ':' :: act).length - (ctx.length + 2)) = act := by
    have e : (ctx ++ ':' :: ':' :: act).length - (ctx.length + 2) = act.length := by
      simp only [List.length_append, List.length_cons]; omega
    have d : (ctx ++ ':' :: ':' :: (act ++ '(' :: (joinComma toks ++ [')']))).drop
        (ctx.length + 2) = act ++ '(' :: (joinComma toks ++ [')']) := by
      rw [List.drop_append]; rfl
    simp only [e, d, List.take_left']
  have f3 : ((ctx ++ ':' :: ':' :: (act ++ '(' :: (joinComma toks ++ [')']))).drop
      ((ctx ++ ':' :: ':' :: act).length + 1)).take
        ((ctx ++ ':' :: ':' :: (act ++ '(' :: joinComma toks)).length
          - ((ctx ++ ':' :: ':' :: act).length + 1)) = joinComma toks := by
    have e : (ctx ++ ':' :: ':' :: (act ++ '(' :: joinComma toks)).length
        - ((ctx ++ ':' :: ':' :: act).length + 1) = (joinComma toks).length := by
      simp only [List.length_append, List.length_cons]; omega
    have d : (ctx ++ ':' :: ':' :: (act ++ '(' :: (joinComma toks ++ [')']))).drop
        ((ctx ++ ':' :: ':' :: act).length + 1) = joinComma toks ++ [')'] := by
      rw [hL2, List.drop_append]; rfl
    simp only [e, d, List.take_left']
  have f4 : dropFinalEmpty (splitAtEveryComma (joinComma toks)) = toks := by
    rw [← splitArgs_eq]
    exact splitArgs_joinComma toks (fun t ht c hc => (htok t ht c hc).1) hlast
  rw [f1, f2, f3, f4] at hp
  refine ⟨_, hp, rfl, rfl, rfl, rfl, ?_⟩
  show ctx ++ [':', ':'] ++ act ++ ['('] ++ joinComma toks ++ [')'] = _
  simp

/-- Witness of `GetLineParts_roundtrip`: the line `Board::Move(1, 2,z)`. -/
theorem GetLineParts_roundtrip_witness :
    ∃ p, GetLineParts ("Board".toList ++ "::".toList ++ "Move".toList ++ "(".toList
        ++ joinComma ["1".toList, " 2".toList, "z".toList] ++ ")".toList) = .ok p ∧
      p.isValid = true ∧ p.strCtxt = "Board".toList ∧ p.strAct = "Move".toList ∧
      p.vArgs = ["1".toList, " 2".toList, "z".toList] ∧
      serialise p = "Board".toList ++ "::".toList ++ "Move".toList ++ "(".toList
        ++ joinComma ["1".toList, " 2".toList, "z".toList] ++ ")".toList :=
  GetLineParts_roundtrip "Board".toList "Move".toList ["1".toList, " 2".toList, "z".toList]
    (by decide) (by decide) (by decide) (by decide) (by decide)

/-- C4 as stated fails: the line `Board::Move(1,2,)` has the shape
`Context::Action(tok1,tok2,tok3)` with the tokens `1`, `2` and the empty token;
`GetLineParts` is valid on it but returns two tokens, and re-serialising the result
gives `Board::Move(1,2)`, not the line. -/
theorem GetLineParts_roundtrip_fails :
    "Board".toList ++ "::".toList ++ "Move".toList ++ "(".toList
        ++ joinComma ["1".toList, "2".toList, []] ++ ")".toList = "Board::Move(1,2,)".toList ∧
    GetLineParts "Board::Move(1,2,)".toList = .ok
      { isValid := true, strCtxt := "Board".toList, strAct := "Move".toList,
        vArgs := ["1".toList, "2".toList] } ∧
    serialise (LineParts_t.mk true "Board".toList "Move".toList ["1".toList, "2".toList])
      = "Board::Move(1,2)".toList ∧
    ¬ ∃ p, GetLineParts "Board::Move(1,2,)".toList = .ok p ∧
      serialise p = "Board::Move(1,2,)".toList := by
  refine ⟨by decide, by decide, by decide, ?_⟩
  rintro ⟨p, hp, hs⟩
  have h : GetLineParts "Board::Move(1,2,)".toList = .ok
      { isValid := true, strCtxt := "Board".toList, strAct := "Move".toList,
        vArgs := ["1".toList, "2".toList] } := by decide
  rw [h] at hp
  cases hp
  exact absurd hs (by decide)


/-! ## The tick: frame lemmas -/

theorem ParseLine_frame (i : Nat) (s s1 : ScriptHost) (h : ParseLine i s = .ok s1) :
    s1 = { s with lineState := s1.lineState } := by
  unfold ParseLine at h
  simp only [bind, Except.bind, pure, Except.pure] at h
  repeat' split at h
  all_goals first
    | (cases h; rfl)
    | cases h

theorem resolveStep_frame (s s1 : ScriptHost) (h : resolveStep s = .ok s1) :
    s1 = { s with lineState := s1.lineState, m_state := s1.m_state } := by
  unfold resolveStep at h
  split at h
  · have := ParseLine_frame _ _ _ h
    rw [this]
  · cases h
    rfl

theorem ProcessAction_frame (ID : Nat) (vArgs : List Str) (s s2 : ScriptHost) (r : LineStatus)
    (h : ProcessAction ID vArgs s = .ok (r, s2)) :
    s2 = { s with
      m_iTimeoutCycles := s2.m_iTimeoutCycles
      m_iTimeoutCount := s2.m_iTimeoutCount
      m_bQuitOnTimeout := s2.m_bQuitOnTimeout
      m_uiWaitMs := s2.m_uiWaitMs } := by
  unfold ProcessAction at h
  simp only [bind, Except.bind, pure, Except.pure] at h
  repeat' split at h
  all_goals first
    | (cases h; rfl)
    | cases h

theorem ProcessAction_not_finished (ID : Nat) (vArgs : List Str) (s s2 : ScriptHost)
    (r : LineStatus) (h : ProcessAction ID vArgs s = .ok (r, s2)) (hr : r ≠ .Finished) :
    s2.m_iTimeoutCycles = s.m_iTimeoutCycles ∧ s2.m_iTimeoutCount = s.m_iTimeoutCount ∧
      s2.m_bQuitOnTimeout = s.m_bQuitOnTimeout := by
  unfold ProcessAction at h
  simp only [bind, Except.bind, pure, Except.pure] at h
  repeat' split at h
  all_goals first
    | (cases h; exact absurd rfl hr)
    | (cases h; exact ⟨rfl, rfl, rfl⟩)
    | cases h

theorem callAction_frame (env : Clients) (c : IScriptable) (ID : Nat) (vArgs : List Str)
    (s s2 : ScriptHost) (r : LineStatus) (h : callAction env c ID vArgs s = .ok (r, s2)) :
    s2 = { s with
      calls := s.calls ++ [Event.ProcessAction c.addr ID vArgs]
      m_iTimeoutCycles := s2.m_iTimeoutCycles
      m_iTimeoutCount := s2.m_iTimeoutCount
      m_bQuitOnTimeout := s2.m_bQuitOnTimeout
      m_uiWaitMs := s2.m_uiWaitMs } := by
  unfold callAction at h
  simp only at h
  split at h
  · have := ProcessAction_frame _ _ _ _ _ h
    rw [this]
  · cases h
    rfl

theorem callAction_not_finished (env : Clients) (c : IScriptable) (ID : Nat)
    (vArgs : List Str) (s s2 : ScriptHost) (r : LineStatus)
    (h : callAction env c ID vArgs s = .ok (r, s2)) (hr : r ≠ .Finished) :
    s2.m_iTimeoutCycles = s.m_iTimeoutCycles ∧ s2.m_iTimeoutCount = s.m_iTimeoutCount ∧
      s2.m_bQuitOnTimeout = s.m_bQuitOnTimeout := by
  unfold callAction at h
  simp only at h
  split at h
  · have := ProcessAction_not_finished _ _ _ _ _ h hr
    exact this
  · cases h
    exact ⟨rfl, rfl, rfl⟩

theorem callAction_component (env : Clients) (c : IScriptable) (ID : Nat) (vArgs : List Str)
    (s : ScriptHost) (hc : c.addr ≠ s.this) :
    callAction env c ID vArgs s = .ok (env c.addr ID vArgs,
      { s with calls := s.calls ++ [Event.ProcessAction c.addr ID vArgs] }) := by
  unfold callAction
  simp only
  rw [if_neg hc]
  rfl

/-! ## The tick: the three ways through `OnMachineCycle` -/

theorem vecAt_of_lt {α : Type} (v : List α) (i : Nat) (h : i < v.length) :
    vecAt v i = .ok (v.get ⟨i, h⟩) := by
  unfold vecAt
  rw [List.get?_eq_get h]

theorem vecAt_of_get? {α : Type} (v : List α) (i : Nat) (a : α) (h : v.get? i = some a) :
    vecAt v i = .ok a := by
  unfold vecAt
  rw [h]

theorem OnMachineCycle_done (env : Clients) (iGuestUs : Int) (s : ScriptHost)
    (h : s.m_script.length ≤ s.m_iLine) :
    OnMachineCycle env iGuestUs s = .ok (setClock iGuestUs s) := by
  unfold OnMachineCycle
  simp only [setClock, ge_iff_le, h, if_true, pure, Except.pure]

theorem OnMachineCycle_invalid (env : Clients) (iGuestUs : Int) (s s1 : ScriptHost)
    (hcur : s.m_iLine < s.m_script.length)
    (hres : resolveStep (setClock iGuestUs s) = .ok s1)
    (hv : s1.lineState.isValid = false) :
    OnMachineCycle env iGuestUs s = .ok
      { s1 with
        m_state := .Error
        m_iLine := s.m_script.length % UINT_MOD
        m_eCmdStatus := .TermSyntax } := by
  have hget : vecAt (setClock iGuestUs s).m_script (setClock iGuestUs s).m_iLine
      = .ok (s.m_script.get ⟨s.m_iLine, hcur⟩) := by
    exact vecAt_of_lt _ _ hcur
  have hn : ¬ ((setClock iGuestUs s).m_iLine ≥ (setClock iGuestUs s).m_script.length) := by
    simp only [setClock]; omega
  unfold OnMachineCycle
  simp only [hn, if_false, hget, hres, bind, Except.bind, hv, pure, Except.pure]
  simp [setClock]

theorem OnMachineCycle_valid (env : Clients) (iGuestUs : Int) (s s1 s2 : ScriptHost)
    (c : IScriptable) (r : LineStatus)
    (hcur : s.m_iLine < s.m_script.length)
    (hres : resolveStep (setClock iGuestUs s) = .ok s1)
    (hv : s1.lineState.isValid = true) (hp : s1.lineState.pClient = some c)
    (hcall : callAction env c s1.lineState.iActID s1.lineState.vArgs s1 = .ok (r, s2)) :
    OnMachineCycle env iGuestUs s =
      (switchResult env s.m_script.length r s2) >>= fun r2 =>
        pure (if r2.1 then r2.2 else finishIfDone s.m_script.length r2.2) := by
  have hget : vecAt (setClock iGuestUs s).m_script (setClock iGuestUs s).m_iLine
      = .ok (s.m_script.get ⟨s.m_iLine, hcur⟩) := by
    exact vecAt_of_lt _ _ hcur
  have hn : ¬ ((setClock iGuestUs s).m_iLine ≥ (setClock iGuestUs s).m_script.length) := by
    simp only [setClock]; omega
  unfold OnMachineCycle
  simp only [hn, if_false, hget, hres, bind, Except.bind, hv, pure, Except.pure, if_true, hp,
    hcall]
  have e : (setClock iGuestUs s).m_script.length = s.m_script.length := rfl
  rw [e]
  cases switchResult env s.m_script.length r s2 with
  | error e => rfl
  | ok r2 => cases h : r2.1 <;> simp [h]

/-! ## Resolution -/

theorem ParseLine_fails (i : Nat) (s : ScriptHost) (line : Str) (p : LineParts_t)
    (hline : s.m_script.get? i = some line) (hp : GetLineParts line = .ok p)
    (hfail : ResolutionFails s p) :
    ∃ s1, ParseLine i s = .ok s1 ∧ s1.lineState.isValid = false := by
  have hget := vecAt_of_get? _ _ _ hline
  unfold ParseLine
  simp only [hget, hp, bind, Except.bind, pure, Except.pure]
  rcases hfail with h | h | h | ⟨c, hc, h | ⟨ID, vTypes, h1, h2, h3⟩⟩
  · simp [h]
  · cases hv : p.isValid <;> simp [h]
  · cases hv : p.isValid <;> simp [h]
  · cases hv : p.isValid <;> simp [hc, h]
  · cases hv : p.isValid <;> simp [hc, h1, h2, h3, mapAt]

theorem ParseLine_resolves (i : Nat) (s : ScriptHost) (line : Str) (p : LineParts_t)
    (c : IScriptable) (ID : Nat)
    (hline : s.m_script.get? i = some line) (hp : GetLineParts line = .ok p)
    (hres : ResolvesTo s p c ID) :
    ParseLine i s = .ok
      { s with lineState :=
          { isValid := true, strCtxt := p.strCtxt, iActID := ID, vArgs := p.vArgs,
            iLine := i, pClient := some c } } := by
  have hget := vecAt_of_get? _ _ _ hline
  obtain ⟨h0, h1, h2, vTypes, h3, h4⟩ := hres
  unfold ParseLine
  simp only [hget, hp, bind, Except.bind, pure, Except.pure]
  simp [h0, h1, h2, h3, h4, mapAt]

/-- C5: on every tick on which the line at the cursor has to be resolved (the
resolution at hand is for another line, or the engine is idle) and resolution fails,
`OnMachineCycle` returns with the state `Error`, the cursor at the script length and the
command status `TermSyntax`, and makes no call at all (no `ProcessAction`, no shutdown
request); in particular the one-line script `Unknown::DoThing()`, run from the idle
state with no context `Unknown` registered, is in state `Error` after the first tick. -/
theorem OnMachineCycle_resolution_failure (env : Clients) (iGuestUs : Int) (s : ScriptHost)
    (line : Str) (p : LineParts_t)
    (hsize : s.m_script.length < 2 ^ 32)
    (hline : s.m_script.get? s.m_iLine = some line)
    (hneed : s.lineState.iLine ≠ s.m_iLine ∨ s.m_state = .Idle)
    (hp : GetLineParts line = .ok p) (hfail : ResolutionFails s p) :
    (∃ s', OnMachineCycle env iGuestUs s = .ok s' ∧ s'.m_state = .Error ∧
      s'.m_iLine = s.m_script.length ∧ s'.m_eCmdStatus = .TermSyntax ∧
      s'.calls = s.calls) ∧
    (∀ s0 : ScriptHost, s0.m_script = ["Unknown::DoThing()".toList] → s0.m_iLine = 0 →
      s0.m_state = .Idle → mapFind s0.m_clients "Unknown".toList = none →
      ∃ s', OnMachineCycle env iGuestUs s0 = .ok s' ∧ s'.m_state = .Error) := by
  have key : ∀ (t : ScriptHost) (l : Str) (q : LineParts_t),
      t.m_script.length < 2 ^ 32 → t.m_script.get? t.m_iLine = some l →
      (t.lineState.iLine ≠ t.m_iLine ∨ t.m_state = .Idle) →
      GetLineParts l = .ok q → ResolutionFails t q →
      ∃ s', OnMachineCycle env iGuestUs t = .ok s' ∧ s'.m_state = .Error ∧
        s'.m_iLine = t.m_script.length ∧ s'.m_eCmdStatus = .TermSyntax ∧
        s'.calls = t.calls := by
    intro t l q hsz hl hn hq hf
    have hcur : t.m_iLine < t.m_script.length := (List.get?_eq_some.mp hl).1
    obtain ⟨s1, h1, h2⟩ := ParseLine_fails t.m_iLine
      { setClock iGuestUs t with m_state := .Running } l q hl hq hf
    have hres : resolveStep (setClock iGuestUs t) = .ok s1 := by
      unfold resolveStep
      rw [if_pos (by simpa [setClock] using hn)]
      exact h1
    have hfr := ParseLine_frame _ _ _ h1
    refine ⟨_, OnMachineCycle_invalid env iGuestUs t s1 hcur hres h2, rfl, ?_, rfl, ?_⟩
    · exact Nat.mod_eq_of_lt hsz
    · rw [hfr]
      rfl
  refine ⟨key s line p hsize hline hneed hp hfail, ?_⟩
  intro s0 hs hl hi hu
  obtain ⟨s', h, he, _⟩ := key s0 "Unknown::DoThing()".toList
    { isValid := true, strCtxt := "Unknown".toList, strAct := "DoThing".toList, vArgs := [] }
    (by rw [hs]; decide) (by rw [hs, hl]; rfl) (Or.inr hi) (by decide)
    (Or.inr (Or.inl hu))
  exact ⟨s', h, he⟩

/-- Witness of `OnMachineCycle_resolution_failure`: the engine with the script
`Unknown::DoThing()` on its first tick. -/
theorem OnMachineCycle_resolution_failure_witness :
    (∃ s', OnMachineCycle (always .Finished) 0 (demo ["Unknown::DoThing()".toList] 1000)
        = .ok s' ∧ s'.m_state = .Error ∧
      s'.m_iLine = (demo ["Unknown::DoThing()".toList] 1000).m_script.length ∧
      s'.m_eCmdStatus = .TermSyntax ∧
      s'.calls = (demo ["Unknown::DoThing()".toList] 1000).calls) ∧
    (∀ s0 : ScriptHost, s0.m_script = ["Unknown::DoThing()".toList] → s0.m_iLine = 0 →
      s0.m_state = .Idle → mapFind s0.m_clients "Unknown".toList = none →
      ∃ s', OnMachineCycle (always .Finished) 0 s0 = .ok s' ∧ s'.m_state = .Error) :=
  OnMachineCycle_resolution_failure (always .Finished) 0
    (demo ["Unknown::DoThing()".toList] 1000) "Unknown::DoThing()".toList
    { isValid := true, strCtxt := "Unknown".toList, strAct := "DoThing".toList, vArgs := [] }
    (by decide) (by decide) (Or.inr (by decide)) (by decide) (Or.inr (Or.inl (by decide)))

/-! ## The outcomes of the resolved action -/

theorem prelude_fields (env : Clients) (iGuestUs : Int) (s s1 s2 : ScriptHost)
    (c : IScriptable) (ID : Nat) (vArgs : List Str) (r : LineStatus)
    (hres : resolveStep (setClock iGuestUs s) = .ok s1)
    (hcall : callAction env c ID vArgs s1 = .ok (r, s2)) :
    s2.m_iLine = s.m_iLine ∧ s2.m_script = s.m_script ∧ s2.m_clients = s.m_clients ∧
    s2.this = s.this ∧ s2.m_bIsExecHold = s.m_bIsExecHold ∧
    s2.calls = s.calls ++ [Event.ProcessAction c.addr ID vArgs] ∧
    s2.m_state = s1.m_state ∧ s2.m_eCmdStatus = s.m_eCmdStatus ∧
    s2.m_bCanAcceptInput = s.m_bCanAcceptInput := by
  have h1 := resolveStep_frame _ _ hres
  have h2 := callAction_frame _ _ _ _ _ _ _ hcall
  rw [h2, h1]
  exact ⟨rfl, rfl, rfl, rfl, rfl, rfl, rfl, rfl, rfl⟩

theorem boardAction_congr (s t : ScriptHost) (act : Str) (h : t.m_clients = s.m_clients) :
    boardAction t act = boardAction s act := by
  unfold boardAction
  rw [h]

theorem boardCalls_congr (s t : ScriptHost) (act : Str) (h : t.m_clients = s.m_clients) :
    boardCalls t act = boardCalls s act := by
  unfold boardCalls
  rw [boardAction_congr s t act h]

theorem BoardIsComponent_congr (s t : ScriptHost) (h : t.m_clients = s.m_clients)
    (h2 : t.this = s.this) (hb : BoardIsComponent s) : BoardIsComponent t := by
  intro b
  rw [h, h2]
  exact hb b

theorem callBoard_component (env : Clients) (act : Str) (t : ScriptHost)
    (h : BoardIsComponent t) :
    callBoard env act t = .ok
      (match boardAction t act with
        | some _ => some { t with calls := t.calls ++ boardCalls t act }
        | none => none) := by
  unfold callBoard boardCalls boardAction
  rcases hb : mapFind t.m_clients "Board".toList with _ | b
  · rfl
  · obtain ⟨c, hc, hne⟩ := h b hb
    subst hc
    rcases ha : mapFind c.m_ActionIDs act with _ | ID
    · simp only [ha, pure, Except.pure, Option.map_none']
    · simp only [ha, callAction_component env c ID [] t hne, bind, Except.bind, pure,
        Except.pure, Option.map_some']

theorem switchResult_finished (env : Clients) (len : Nat) (t : ScriptHost)
    (hb : BoardIsComponent t) :
    switchResult env len .Finished t = .ok (false,
      { t with
        m_bIsExecHold := false
        calls := t.calls ++ (if t.m_bIsExecHold then boardCalls t "Resume".toList else [])
        m_iLine := (t.m_iLine + 1) % UINT_MOD
        m_iTimeoutCount := 0
        m_eCmdStatus := .TermSuccess }) := by
  cases hh : t.m_bIsExecHold
  · simp only [switchResult, hh, bind, Except.bind, pure, Except.pure, Bool.false_eq_true,
      if_false, List.append_nil]
  · have hb2 : BoardIsComponent { t with m_bIsExecHold := false } :=
      BoardIsComponent_congr t _ rfl rfl hb
    have ba : boardAction { t with m_bIsExecHold := false } "Resume".toList
        = boardAction t "Resume".toList := boardAction_congr t _ _ rfl
    have bc : boardCalls { t with m_bIsExecHold := false } "Resume".toList
        = boardCalls t "Resume".toList := boardCalls_congr t _ _ rfl
    simp only [switchResult, hh, if_true, callBoard_component env _ _ hb2, ba, bc, bind,
      Except.bind, pure, Except.pure]
    rcases hra : boardAction t "Resume".toList with _ | x
    · have bn : boardCalls t "Resume".toList = [] := by simp only [boardCalls, hra]
      simp only [Option.getD, bn, List.append_nil]
    · simp only [Option.getD]

/-- C6: on every tick on which the resolved action returns `Finished` (the script
shorter than `2 ^ 32` lines, and the context "Board", if registered, a component other
than the engine), `OnMachineCycle` advances the cursor by exactly one, resets the
timeout counter to 0, sets the command status to `TermSuccess` and leaves the
execution-hold flag cleared; when a hold was pending, the `Resume` action the context
"Board" has registered is called, after the action of the line, and nothing else is
called; if the cursor thereby equals the script length the state becomes `Finished` and
input acceptance is re-enabled. -/
theorem OnMachineCycle_finished (env : Clients) (iGuestUs : Int) (s s1 s2 : ScriptHost)
    (c : IScriptable)
    (hsize : s.m_script.length < 2 ^ 32)
    (hcur : s.m_iLine < s.m_script.length)
    (hres : resolveStep (setClock iGuestUs s) = .ok s1)
    (hv : s1.lineState.isValid = true) (hp : s1.lineState.pClient = some c)
    (hcall : callAction env c s1.lineState.iActID s1.lineState.vArgs s1
      = .ok (LineStatus.Finished, s2))
    (hboard : BoardIsComponent s) :
    ∃ s', OnMachineCycle env iGuestUs s = .ok s' ∧
      s'.m_iLine = s.m_iLine + 1 ∧ s'.m_iTimeoutCount = 0 ∧
      s'.m_eCmdStatus = .TermSuccess ∧ s'.m_bIsExecHold = false ∧
      s'.calls = s.calls ++ [Event.ProcessAction c.addr s1.lineState.iActID s1.lineState.vArgs]
        ++ (if s.m_bIsExecHold then boardCalls s "Resume".toList else []) ∧
      (s.m_iLine + 1 = s.m_script.length →
        s'.m_state = .Finished ∧ s'.m_bCanAcceptInput = true) := by
  obtain ⟨f1, f2, f3, f4, f5, f6, f7, f8, f9⟩ := prelude_fields _ _ _ _ _ _ _ _ _ hres hcall
  have hmod : (s.m_iLine + 1) % UINT_MOD = s.m_iLine + 1 :=
    Nat.mod_eq_of_lt (by unfold UINT_MOD; omega)
  rw [OnMachineCycle_valid env iGuestUs s s1 s2 c _ hcur hres hv hp hcall,
    switchResult_finished env _ s2 (BoardIsComponent_congr s s2 f3 f4 hboard)]
  refine ⟨_, rfl, ?_⟩
  simp only [finishIfDone, f1, f5, f6, hmod, boardCalls_congr s s2 _ f3, Bool.false_eq_true,
    if_false]
  refine ⟨?_, ?_, ?_, ?_, ?_, ?_⟩
  · split <;> rfl
  · split <;> rfl
  · split <;> rfl
  · split <;> rfl
  · split <;> rfl
  · intro h
    rw [if_pos h]
    exact ⟨rfl, rfl⟩

theorem demo_BoardIsComponent (script : List Str) (freq : Nat) (hold : Bool) (quit : Bool)
    (cycles : Int) :
    BoardIsComponent { demo script freq with
      m_bIsExecHold := hold, m_bQuitOnTimeout := quit, m_iTimeoutCycles := cycles } := by
  intro b h
  have e : mapFind ({ demo script freq with
      m_bIsExecHold := hold, m_bQuitOnTimeout := quit, m_iTimeoutCycles := cycles }).m_clients
      "Board".toList = some (some boardObject) := by rfl
  rw [e] at h
  cases h
  refine ⟨_, rfl, ?_⟩
  show ¬ ((9 : Nat) = 1)
  decide

/-- Witness of `OnMachineCycle_finished`: the one-line script `Dev::Stall()` with a hold
pending; `Dev` answers `Finished`, and `Board::Resume()` is called. -/
theorem OnMachineCycle_finished_witness :
    ∃ s', OnMachineCycle (always .Finished) 0
        { demo stallScript 1000 with
          m_bIsExecHold := true, m_bQuitOnTimeout := false, m_iTimeoutCycles := -1 } = .ok s' ∧
      s'.m_iLine = 0 + 1 ∧ s'.m_iTimeoutCount = 0 ∧
      s'.m_eCmdStatus = .TermSuccess ∧ s'.m_bIsExecHold = false ∧
      s'.calls = [] ++ [Event.ProcessAction 7 0 []]
        ++ (if true then boardCalls { demo stallScript 1000 with
          m_bIsExecHold := true, m_bQuitOnTimeout := false, m_iTimeoutCycles := -1 }
            "Resume".toList else []) ∧
      (0 + 1 = 1 → s'.m_state = .Finished ∧ s'.m_bCanAcceptInput = true) :=
  OnMachineCycle_finished (always .Finished) 0
    { demo stallScript 1000 with
      m_bIsExecHold := true, m_bQuitOnTimeout := false, m_iTimeoutCycles := -1 }
    (atStall { demo stallScript 1000 with
      m_bIsExecHold := true, m_bQuitOnTimeout := false, m_iTimeoutCycles := -1 })
    (afterStall { demo stallScript 1000 with
      m_bIsExecHold := true, m_bQuitOnTimeout := false, m_iTimeoutCycles := -1 })
    devObject (by decide) (by decide) (by decide) (by decide) (by decide) (by decide)
    (demo_BoardIsComponent stallScript 1000 true false (-1))

/-! ### Error and Unhandled -/

theorem callAction_deterministic (env env2 : Clients) (c : IScriptable) (ID : Nat)
    (vArgs : List Str) (s s2 s2' : ScriptHost) (r r2 : LineStatus)
    (h : callAction env c ID vArgs s = .ok (r, s2))
    (h2 : callAction env2 c ID vArgs s = .ok (r2, s2')) : s2' = s2 := by
  unfold callAction at h h2
  simp only at h h2
  split at h
  · next hc =>
    rw [if_pos hc, h] at h2
    cases h2
    rfl
  · next hc =>
    rw [if_neg hc] at h2
    cases h
    cases h2
    rfl

theorem runTicks_done (ticks : List (Clients × Int)) (s : ScriptHost)
    (h : s.m_script.length ≤ s.m_iLine) :
    ∃ s', runTicks ticks s = .ok s' ∧ s' = { s with m_uiCurrentMs := s'.m_uiCurrentMs } := by
  induction ticks generalizing s with
  | nil => exact ⟨s, rfl, rfl⟩
  | cons t rest ih =>
    obtain ⟨env, us⟩ := t
    obtain ⟨s', h1, h2⟩ := ih (setClock us s) h
    refine ⟨s', ?_, ?_⟩
    · simp only [runTicks, OnMachineCycle_done env us s h, bind, Except.bind]
      exact h1
    · rw [h2]
      rfl

theorem switchResult_error (env : Clients) (len : Nat) (t : ScriptHost) (r : LineStatus)
    (hr : r = .Error ∨ r = .Unhandled) :
    switchResult env len r t = .ok (true,
      { t with
        m_state := .Error
        m_iLine := len % UINT_MOD
        m_eCmdStatus := .TermFailed
        calls := t.calls ++ [Event.qemu_system_shutdown_request SHUTDOWN_CAUSE_HOST_SIGNAL] }) := by
  rcases hr with h | h <;> subst h <;> rfl

/-- C7: on every tick on which the resolved action returns `Error` or `Unhandled` (the
script shorter than `2 ^ 32` lines), `OnMachineCycle` sets the state to `Error`, the
cursor to the script length and the command status to `TermFailed`, and requests host
termination right after the call of the action; whichever of the two the action
answers, the resulting state is the same; and every later sequence of ticks changes
nothing but the simulated clock - no call is made. -/
theorem OnMachineCycle_error (env : Clients) (iGuestUs : Int) (s s1 s2 : ScriptHost)
    (c : IScriptable) (r : LineStatus)
    (hsize : s.m_script.length < 2 ^ 32)
    (hcur : s.m_iLine < s.m_script.length)
    (hres : resolveStep (setClock iGuestUs s) = .ok s1)
    (hv : s1.lineState.isValid = true) (hp : s1.lineState.pClient = some c)
    (hcall : callAction env c s1.lineState.iActID s1.lineState.vArgs s1 = .ok (r, s2))
    (hr : r = .Error ∨ r = .Unhandled) :
    ∃ s', OnMachineCycle env iGuestUs s = .ok s' ∧
      s'.m_state = .Error ∧ s'.m_iLine = s.m_script.length ∧
      s'.m_eCmdStatus = .TermFailed ∧
      s'.calls = s.calls ++
        [Event.ProcessAction c.addr s1.lineState.iActID s1.lineState.vArgs,
          Event.qemu_system_shutdown_request SHUTDOWN_CAUSE_HOST_SIGNAL] ∧
      (∀ (env2 : Clients) (r2 : LineStatus) (s2' : ScriptHost),
        callAction env2 c s1.lineState.iActID s1.lineState.vArgs s1 = .ok (r2, s2') →
        (r2 = .Error ∨ r2 = .Unhandled) → OnMachineCycle env2 iGuestUs s = .ok s') ∧
      (∀ ticks : List (Clients × Int), ∃ s'', runTicks ticks s' = .ok s'' ∧
        s'' = { s' with m_uiCurrentMs := s''.m_uiCurrentMs }) := by
  obtain ⟨f1, f2, f3, f4, f5, f6, f7, f8, f9⟩ := prelude_fields _ _ _ _ _ _ _ _ _ hres hcall
  have hmod : s.m_script.length % UINT_MOD = s.m_script.length := Nat.mod_eq_of_lt hsize
  rw [OnMachineCycle_valid env iGuestUs s s1 s2 c _ hcur hres hv hp hcall,
    switchResult_error env _ s2 r hr]
  simp only [bind, Except.bind, pure, Except.pure, if_true]
  refine ⟨_, rfl, rfl, hmod, rfl, ?_, ?_, ?_⟩
  · simp only [f6, List.append_assoc, List.singleton_append]
  · intro env2 r2 s2' hcall2 hr2
    have e := callAction_deterministic env env2 c _ _ s1 s2 s2' r r2 hcall hcall2
    subst e
    rw [OnMachineCycle_valid env2 iGuestUs s s1 s2' c _ hcur hres hv hp hcall2,
      switchResult_error env2 _ s2' r2 hr2]
    simp only [bind, Except.bind, pure, Except.pure, if_true]
  · intro ticks
    exact runTicks_done ticks _ (by simp only [if_true, hmod, f2, le_refl])

/-- Witness of `OnMachineCycle_error`: the one-line script `Dev::Stall()`, `Dev`
answering `Unhandled`. -/
theorem OnMachineCycle_error_witness :
    ∃ s', OnMachineCycle (always .Unhandled) 0 (demo stallScript 1000) = .ok s' ∧
      s'.m_state = .Error ∧ s'.m_iLine = (demo stallScript 1000).m_script.length ∧
      s'.m_eCmdStatus = .TermFailed ∧
      s'.calls = (demo stallScript 1000).calls ++
        [Event.ProcessAction devObject.addr (atStall (demo stallScript 1000)).lineState.iActID
          (atStall (demo stallScript 1000)).lineState.vArgs,
          Event.qemu_system_shutdown_request SHUTDOWN_CAUSE_HOST_SIGNAL] ∧
      (∀ (env2 : Clients) (r2 : LineStatus) (s2' : ScriptHost),
        callAction env2 devObject (atStall (demo stallScript 1000)).lineState.iActID
          (atStall (demo stallScript 1000)).lineState.vArgs (atStall (demo stallScript 1000))
          = .ok (r2, s2') →
        (r2 = .Error ∨ r2 = .Unhandled) →
        OnMachineCycle env2 0 (demo stallScript 1000) = .ok s') ∧
      (∀ ticks : List (Clients × Int), ∃ s'', runTicks ticks s' = .ok s'' ∧
        s'' = { s' with m_uiCurrentMs := s''.m_uiCurrentMs }) :=
  OnMachineCycle_error (always .Unhandled) 0 (demo stallScript 1000)
    (atStall (demo stallScript 1000)) (afterStall (demo stallScript 1000)) devObject
    .Unhandled (by decide) (by decide) (by decide) (by decide) (by decide) (by decide)
    (Or.inr rfl)

/-! ### Waiting and Timeout -/

theorem wrapI32_of_range (i : Int) (h0 : -2147483648 ≤ i) (h1 : i ≤ 2147483647) :
    wrapI32 i = i := by
  unfold wrapI32 toI32 toU32 UINT_MOD
  have e : ((2 ^ 32 : Nat) : Int) = 4294967296 := by norm_num
  rw [e]
  have hm : 0 ≤ i % 4294967296 := Int.emod_nonneg _ (by norm_num)
  have hm2 : i % 4294967296 < 4294967296 := Int.emod_lt_of_pos _ (by norm_num)
  have hn : ((i % 4294967296).toNat : Int) = i % 4294967296 := Int.toNat_of_nonneg hm
  have hlt : (i % 4294967296).toNat < 4294967296 := by omega
  have hmod : (i % 4294967296).toNat % 2 ^ 32 = (i % 4294967296).toNat :=
    Nat.mod_eq_of_lt (by norm_num; exact hlt)
  rw [hmod]
  split
  · next h => rw [hn]; norm_num at h; omega
  · next h => rw [hn]; norm_num at h; omega

theorem caseTimeout_quit (len : Nat) (t : ScriptHost) (h : t.m_bQuitOnTimeout = true) :
    caseTimeout len t = (true,
      { t with
        m_state := .Timeout
        m_iLine := len % UINT_MOD
        calls := t.calls ++ [Event.qemu_system_shutdown_request SHUTDOWN_CAUSE_HOST_SIGNAL] }) := by
  simp only [caseTimeout, h, if_true]

theorem caseTimeout_skip (len : Nat) (t : ScriptHost) (h : t.m_bQuitOnTimeout = false) :
    caseTimeout len t = (false,
      { t with
        m_state := .Timeout
        m_iLine := (t.m_iLine + 1) % UINT_MOD
        m_iTimeoutCount := 0
        m_eCmdStatus := .TermTimedOut }) := by
  simp only [caseTimeout, h, Bool.false_eq_true, if_false]

theorem caseWaiting_unset (len : Nat) (t : ScriptHost) (h : t.m_iTimeoutCycles < 0) :
    caseWaiting len t = (false, { t with m_eCmdStatus := .TermWaiting }) := by
  simp only [caseWaiting, h, if_true]

theorem caseWaiting_within (len : Nat) (t : ScriptHost) (h0 : 0 ≤ t.m_iTimeoutCycles)
    (hc : 0 ≤ t.m_iTimeoutCount ∧ t.m_iTimeoutCount < 2147483647)
    (h1 : t.m_iTimeoutCount + 1 ≤ t.m_iTimeoutCycles) :
    caseWaiting len t = (false,
      { t with m_iTimeoutCount := t.m_iTimeoutCount + 1, m_eCmdStatus := .TermWaiting }) := by
  have hw := wrapI32_of_range (t.m_iTimeoutCount + 1) (by omega) (by omega)
  simp only [caseWaiting, not_lt.mpr h0, if_false, hw, h1, if_true]

theorem caseWaiting_exceeded (len : Nat) (t : ScriptHost) (h0 : 0 ≤ t.m_iTimeoutCycles)
    (hc : 0 ≤ t.m_iTimeoutCount ∧ t.m_iTimeoutCount < 2147483647)
    (h1 : t.m_iTimeoutCycles < t.m_iTimeoutCount + 1) :
    caseWaiting len t = caseTimeout len
      { t with m_iTimeoutCount := t.m_iTimeoutCount + 1, m_state := .Timeout } := by
  have hw := wrapI32_of_range (t.m_iTimeoutCount + 1) (by omega) (by omega)
  simp only [caseWaiting, not_lt.mpr h0, if_false, hw, not_le.mpr h1]

theorem prelude_timeout_fields (env : Clients) (iGuestUs : Int) (s s1 s2 : ScriptHost)
    (c : IScriptable) (ID : Nat) (vArgs : List Str) (r : LineStatus)
    (hres : resolveStep (setClock iGuestUs s) = .ok s1)
    (hcall : callAction env c ID vArgs s1 = .ok (r, s2)) (hr : r ≠ .Finished) :
    s2.m_iTimeoutCycles = s.m_iTimeoutCycles ∧ s2.m_iTimeoutCount = s.m_iTimeoutCount ∧
      s2.m_bQuitOnTimeout = s.m_bQuitOnTimeout := by
  obtain ⟨h1, h2, h3⟩ := callAction_not_finished _ _ _ _ _ _ _ hcall hr
  have h := resolveStep_frame _ _ hres
  rw [h1, h2, h3, h]
  exact ⟨rfl, rfl, rfl⟩

theorem finishIfDone_of_lt (len : Nat) (t : ScriptHost) (h : t.m_iLine < len) :
    finishIfDone len t = t := by
  unfold finishIfDone
  rw [if_neg (by omega)]

theorem OnMachineCycle_waiting_tick (env : Clients) (iGuestUs : Int) (s s1 s2 : ScriptHost)
    (c : IScriptable)
    (hsize : s.m_script.length < 2 ^ 32)
    (hcur : s.m_iLine < s.m_script.length)
    (hres : resolveStep (setClock iGuestUs s) = .ok s1)
    (hv : s1.lineState.isValid = true) (hp : s1.lineState.pClient = some c)
    (hcall : callAction env c s1.lineState.iActID s1.lineState.vArgs s1
      = .ok (LineStatus.Waiting, s2))
    (hcount : 0 ≤ s.m_iTimeoutCount ∧ s.m_iTimeoutCount < 2147483647) :
    ∃ s', OnMachineCycle env iGuestUs s = .ok s' ∧
      ((s'.m_iLine = s.m_iLine ∧ s'.m_eCmdStatus = .TermWaiting) ↔
        (s.m_iTimeoutCycles < 0 ∨ s.m_iTimeoutCount + 1 ≤ s.m_iTimeoutCycles)) ∧
      (s.m_iTimeoutCycles < 0 → s'.m_iTimeoutCount = s.m_iTimeoutCount) ∧
      (0 ≤ s.m_iTimeoutCycles → s.m_iTimeoutCount + 1 ≤ s.m_iTimeoutCycles →
        s'.m_iTimeoutCount = s.m_iTimeoutCount + 1) ∧
      (0 ≤ s.m_iTimeoutCycles → s.m_iTimeoutCycles < s.m_iTimeoutCount + 1 →
        (s.m_bQuitOnTimeout = true → s'.m_state = .Timeout ∧ s'.m_iLine = s.m_script.length) ∧
        (s.m_bQuitOnTimeout = false → s'.m_iLine = s.m_iLine + 1 ∧
          s'.m_eCmdStatus = .TermTimedOut ∧ s'.m_iTimeoutCount = 0)) := by
  obtain ⟨f1, f2, f3, f4, f5, f6, f7, f8, f9⟩ := prelude_fields _ _ _ _ _ _ _ _ _ hres hcall
  obtain ⟨g1, g2, g3⟩ := prelude_timeout_fields _ _ _ _ _ _ _ _ _ hres hcall (by decide)
  have hmod : (s.m_iLine + 1) % UINT_MOD = s.m_iLine + 1 :=
    Nat.mod_eq_of_lt (by unfold UINT_MOD; omega)
  have hmod2 : s.m_script.length % UINT_MOD = s.m_script.length := Nat.mod_eq_of_lt hsize
  rw [OnMachineCycle_valid env iGuestUs s s1 s2 c _ hcur hres hv hp hcall]
  have hsw : switchResult env s.m_script.length .Waiting s2
      = .ok (caseWaiting s.m_script.length s2) := rfl
  rw [hsw]
  simp only [bind, Except.bind, pure, Except.pure]
  by_cases hu : s.m_iTimeoutCycles < 0
  · rw [caseWaiting_unset _ s2 (by rw [g1]; exact hu)]
    simp only [Bool.false_eq_true, if_false]
    rw [finishIfDone_of_lt _ _ (by simpa [f1] using hcur)]
    refine ⟨_, rfl, ?_, ?_, ?_, ?_⟩
    · simp only [f1, true_and, hu, true_or]
    · intro _; exact g2
    · intro h0; omega
    · intro h0; omega
  · have h0 : 0 ≤ s.m_iTimeoutCycles := not_lt.mp hu
    by_cases hle : s.m_iTimeoutCount + 1 ≤ s.m_iTimeoutCycles
    · rw [caseWaiting_within _ s2 (by rw [g1]; exact h0) (by rw [g2]; exact hcount)
        (by rw [g1, g2]; exact hle)]
      simp only [Bool.false_eq_true, if_false]
      rw [finishIfDone_of_lt _ _ (by simpa [f1] using hcur)]
      refine ⟨_, rfl, ?_, ?_, ?_, ?_⟩
      · simp only [f1, true_and, hle, or_true]
      · intro h; omega
      · intro _ _; simp only [g2]
      · intro _ h; omega
    · have hgt : s.m_iTimeoutCycles < s.m_iTimeoutCount + 1 := not_le.mp hle
      rw [caseWaiting_exceeded _ s2 (by rw [g1]; exact h0) (by rw [g2]; exact hcount)
        (by rw [g1, g2]; exact hgt)]
      cases hq : s.m_bQuitOnTimeout
      · rw [caseTimeout_skip _ _ (by simp only [g3, hq])]
        simp only [Bool.false_eq_true, if_false, f1, hmod]
        refine ⟨_, rfl, ?_, ?_, ?_, ?_⟩
        · constructor
          · intro h
            have := h.1
            simp only [finishIfDone] at this
            split at this <;> simp at this
          · intro h; omega
        · intro h; omega
        · intro _ h; omega
        · intro _ _
          refine ⟨fun h => absurd h (by decide), fun _ => ?_⟩
          simp only [finishIfDone]
          split <;> exact ⟨rfl, rfl, rfl⟩
      · rw [caseTimeout_quit _ _ (by simp only [g3, hq])]
        simp only [if_true, hmod2]
        refine ⟨_, rfl, ?_, ?_, ?_, ?_⟩
        · constructor
          · intro h
            have := h.1
            simp only at this
            omega
          · intro h; omega
        · intro h; omega
        · intro _ h; omega
        · intro _ _
          exact ⟨fun _ => ⟨rfl, rfl⟩, fun h => absurd h (by decide)⟩

/-! ### Runs of waiting ticks -/

theorem WaitsOn_resolve (iGuestUs : Int) (s : ScriptHost) (c : IScriptable) (ID : Nat)
    (vArgs : List Str) (h : WaitsOn s c ID vArgs) :
    ∃ s1, resolveStep (setClock iGuestUs s) = .ok s1 ∧ s1.lineState.isValid = true ∧
      s1.lineState.pClient = some c ∧ s1.lineState.iActID = ID ∧
      s1.lineState.vArgs = vArgs ∧ s1.lineState.iLine = s.m_iLine ∧ s1.m_state ≠ .Idle ∧
      WaitsOn s1 c ID vArgs := by
  obtain ⟨hsize, hc, line, p, hline, hp, hr, hargs, hst⟩ := h
  rcases hst with hfresh | ⟨hls, hstate⟩
  · have hparse := ParseLine_resolves s.m_iLine
      { setClock iGuestUs s with m_state := .Running } line p c ID hline hp hr
    refine ⟨{ ({ setClock iGuestUs s with m_state := .Running } : ScriptHost) with
        lineState := linestate_t.mk true p.strCtxt ID p.vArgs s.m_iLine (some c) },
      ?_, rfl, rfl, rfl, hargs, rfl, fun h => State.noConfusion h, ?_⟩
    · unfold resolveStep
      rw [if_pos (by simpa [setClock] using hfresh)]
      exact hparse
    · exact ⟨hsize, hc, line, p, hline, hp, hr, hargs,
        Or.inr ⟨rfl, fun h => State.noConfusion h⟩⟩
  · refine ⟨setClock iGuestUs s, ?_, ?_, ?_, ?_, ?_, ?_, hstate, ?_⟩
    · unfold resolveStep
      rw [if_neg]
      · rfl
      · simp only [setClock, hls, not_or, not_not, true_and]
        exact hstate
    · simp only [setClock, hls]
    · simp only [setClock, hls]
    · simp only [setClock, hls]
    · simp only [setClock, hls, hargs]
    · simp only [setClock, hls]
    · exact ⟨hsize, hc, line, p, hline, hp, hr, hargs, Or.inr ⟨hls, hstate⟩⟩

theorem WaitsOn_cursor (s : ScriptHost) (c : IScriptable) (ID : Nat) (vArgs : List Str)
    (h : WaitsOn s c ID vArgs) : s.m_iLine < s.m_script.length := by
  obtain ⟨_, _, line, p, hline, _⟩ := h
  exact (List.get?_eq_some.mp hline).1

theorem WaitsOn_kept (s1 : ScriptHost) (c : IScriptable) (ID : Nat) (vArgs : List Str)
    (calls : List Event) (count : Int) (h : WaitsOn s1 c ID vArgs) :
    WaitsOn { s1 with calls := calls, m_iTimeoutCount := count, m_eCmdStatus := .TermWaiting }
      c ID vArgs := h

theorem waiting_step_kept (env : Clients) (iGuestUs : Int) (s : ScriptHost) (c : IScriptable)
    (ID : Nat) (vArgs : List Str) (h : WaitsOn s c ID vArgs)
    (hw : env c.addr ID vArgs = .Waiting)
    (hcond : s.m_iTimeoutCycles < 0 ∨
      (0 ≤ s.m_iTimeoutCount ∧ s.m_iTimeoutCount + 1 ≤ s.m_iTimeoutCycles ∧
        s.m_iTimeoutCycles ≤ 2147483647)) :
    ∃ s', OnMachineCycle env iGuestUs s = .ok s' ∧ WaitsOn s' c ID vArgs ∧
      s'.m_iLine = s.m_iLine ∧ s'.m_script = s.m_script ∧
      s'.m_iTimeoutCycles = s.m_iTimeoutCycles ∧ s'.m_bQuitOnTimeout = s.m_bQuitOnTimeout ∧
      s'.m_iTimeoutCount
        = (if s.m_iTimeoutCycles < 0 then s.m_iTimeoutCount else s.m_iTimeoutCount + 1) ∧
      s'.calls = s.calls ++ [Event.ProcessAction c.addr ID vArgs] ∧
      s'.m_eCmdStatus = .TermWaiting := by
  have hcur := WaitsOn_cursor s c ID vArgs h
  obtain ⟨s1, hres, hv, hp, hid, hargs, hil, hst, hw1⟩ := WaitsOn_resolve iGuestUs s c ID vArgs h
  have hfr := resolveStep_frame _ _ hres
  have hthis : c.addr ≠ s1.this := by rw [hfr]; exact h.2.1
  have hcall := callAction_component env c ID vArgs s1 hthis
  rw [hw] at hcall
  rw [← hid, ← hargs] at hcall
  rw [OnMachineCycle_valid env iGuestUs s s1 _ c _ hcur hres hv hp hcall]
  have hsw : ∀ t, switchResult env s.m_script.length .Waiting t
      = .ok (caseWaiting s.m_script.length t) := fun _ => rfl
  rw [hsw]
  simp only [bind, Except.bind, pure, Except.pure]
  have e1 : s1.m_iTimeoutCycles = s.m_iTimeoutCycles := by rw [hfr]; rfl
  have e2 : s1.m_iTimeoutCount = s.m_iTimeoutCount := by rw [hfr]; rfl
  have e3 : s1.m_iLine = s.m_iLine := by rw [hfr]; rfl
  have e4 : s1.m_script = s.m_script := by rw [hfr]; rfl
  have e5 : s1.m_bQuitOnTimeout = s.m_bQuitOnTimeout := by rw [hfr]; rfl
  have e6 : s1.calls = s.calls := by rw [hfr]; rfl
  rcases hcond with hu | ⟨h0, h1, h2⟩
  · rw [caseWaiting_unset _ _ (by simpa [e1] using hu)]
    simp only [Bool.false_eq_true, if_false]
    rw [finishIfDone_of_lt _ _ (by simpa [e3] using hcur)]
    refine ⟨_, rfl, ?_, e3, e4, e1, e5, ?_, ?_, rfl⟩
    · exact WaitsOn_kept s1 c ID vArgs _ s1.m_iTimeoutCount hw1
    · simp only [hu, if_true, e2]
    · simp only [e6, hid, hargs]
  · rw [caseWaiting_within _ _ (by simp only [e1]; omega) (by simp only [e2]; omega)
      (by simp only [e1, e2]; omega)]
    simp only [Bool.false_eq_true, if_false]
    rw [finishIfDone_of_lt _ _ (by simpa [e3] using hcur)]
    refine ⟨_, rfl, ?_, e3, e4, e1, e5, ?_, ?_, rfl⟩
    · exact WaitsOn_kept s1 c ID vArgs _ _ hw1
    · have : ¬ s.m_iTimeoutCycles < 0 := by omega
      simp only [this, if_false, e2]
    · simp only [e6, hid, hargs]

theorem runTicks_append (a b : List (Clients × Int)) (s : ScriptHost) :
    runTicks (a ++ b) s = runTicks a s >>= runTicks b := by
  induction a generalizing s with
  | nil => rfl
  | cons t rest ih =>
    obtain ⟨env, us⟩ := t
    simp only [List.cons_append, runTicks, bind, Except.bind]
    cases OnMachineCycle env us s with
    | error e => rfl
    | ok s1 => exact ih s1

theorem runTicks_waiting (c : IScriptable) (ID : Nat) (vArgs : List Str)
    (ticks : List (Clients × Int)) (s : ScriptHost) (h : WaitsOn s c ID vArgs)
    (hw : ∀ t ∈ ticks, t.1 c.addr ID vArgs = .Waiting)
    (hcond : s.m_iTimeoutCycles < 0 ∨
      (0 ≤ s.m_iTimeoutCount ∧ s.m_iTimeoutCount + ticks.length ≤ s.m_iTimeoutCycles ∧
        s.m_iTimeoutCycles ≤ 2147483647)) :
    ∃ s', runTicks ticks s = .ok s' ∧ WaitsOn s' c ID vArgs ∧
      s'.m_iLine = s.m_iLine ∧ s'.m_script = s.m_script ∧
      s'.m_iTimeoutCycles = s.m_iTimeoutCycles ∧ s'.m_bQuitOnTimeout = s.m_bQuitOnTimeout ∧
      s'.m_iTimeoutCount
        = (if s.m_iTimeoutCycles < 0 then s.m_iTimeoutCount
            else s.m_iTimeoutCount + ticks.length) ∧
      s'.calls = s.calls ++ List.replicate ticks.length (Event.ProcessAction c.addr ID vArgs) ∧
      (ticks ≠ [] → s'.m_eCmdStatus = .TermWaiting) := by
  induction ticks generalizing s with
  | nil =>
    refine ⟨s, rfl, h, rfl, rfl, rfl, rfl, ?_, ?_, fun hne => absurd rfl hne⟩
    · split <;> simp
    · simp
  | cons t rest ih =>
    obtain ⟨env, us⟩ := t
    have hw0 : env c.addr ID vArgs = .Waiting := hw (env, us) (List.mem_cons_self _ _)
    have hlen : ((env, us) :: rest).length = rest.length + 1 := rfl
    rw [hlen] at hcond
    obtain ⟨s1, h1, hW, a1, a2, a3, a4, a5, a6, a7⟩ :=
      waiting_step_kept env us s c ID vArgs h hw0 (by
        rcases hcond with hu | ⟨h0, h1, h2⟩
        · exact Or.inl hu
        · right
          push_cast at h1
          omega)
    obtain ⟨s2, h2, hW2, b1, b2, b3, b4, b5, b6, b7⟩ := ih s1 hW
      (fun x hx => hw x (List.mem_cons_of_mem _ hx)) (by
        rcases hcond with hu | ⟨h0, h1, h2⟩
        · left
          rw [a3]
          exact hu
        · right
          have hn : ¬ s.m_iTimeoutCycles < 0 := by omega
          rw [a5, a3, if_neg hn]
          push_cast at h1
          omega)
    refine ⟨s2, ?_, hW2, b1.trans a1, b2.trans a2, b3.trans a3, b4.trans a4, ?_, ?_, ?_⟩
    · simp only [runTicks, h1, bind, Except.bind]
      exact h2
    · rw [b5, a3, a5]
      by_cases hu : s.m_iTimeoutCycles < 0
      · simp only [hu, if_true]
      · simp only [hu, if_false, hlen]
        push_cast
        omega
    · rw [b6, a6, hlen, List.replicate_succ, List.append_assoc]
      rfl
    · intro _
      by_cases hr : rest = []
      · subst hr
        simp only [runTicks, pure, Except.pure] at h2
        cases h2
        exact a7
      · exact b7 hr

theorem ProcessAction_SetTimeoutMs_100 (t : ScriptHost) (ht : t.m_uiAVRFreq = 1000) :
    ProcessAction ActSetTimeoutMs ["100".toList] t
      = .ok (.Finished, { t with m_iTimeoutCycles := 100, m_iTimeoutCount := 0 }) := by
  unfold ProcessAction
  rw [ht]
  rfl

theorem waiting_then_timeout (t : ScriptHost) (c : IScriptable) (ID : Nat) (vArgs : List Str)
    (ticks : List (Clients × Int)) (n : Nat) (h : WaitsOn t c ID vArgs)
    (hcyc : t.m_iTimeoutCycles = n) (hn : (n : Int) < 2147483647) (hcnt : t.m_iTimeoutCount = 0)
    (hw : ∀ x ∈ ticks, x.1 c.addr ID vArgs = .Waiting) (hlen : ticks.length = n + 1) :
    ∃ t', runTicks ticks t = .ok t' ∧
      (t.m_bQuitOnTimeout = true → t'.m_state = .Timeout ∧ t'.m_iLine = t.m_script.length) ∧
      (t.m_bQuitOnTimeout = false → t'.m_iLine = t.m_iLine + 1 ∧
        t'.m_eCmdStatus = .TermTimedOut ∧ t'.m_iTimeoutCount = 0) := by
  have hsplit : ticks = ticks.take n ++ ticks.drop n := (List.take_append_drop n ticks).symm
  have hd : (ticks.drop n).length = 1 := by rw [List.length_drop, hlen]; omega
  obtain ⟨last, hlast⟩ := List.length_eq_one.mp hd
  have htl : (ticks.take n).length = n := by rw [List.length_take, hlen]; omega
  obtain ⟨t1, r1, hW, a1, a2, a3, a4, a5, a6, a7⟩ := runTicks_waiting c ID vArgs (ticks.take n) t h
    (fun x hx => hw x (List.mem_of_mem_take hx))
    (Or.inr ⟨by omega, by rw [htl, hcyc, hcnt]; omega, by omega⟩)
  have hn0 : ¬ t.m_iTimeoutCycles < 0 := by omega
  rw [if_neg hn0, htl, hcnt] at a5
  obtain ⟨env, us⟩ := last
  have hwl : env c.addr ID vArgs = .Waiting :=
    hw (env, us) (by rw [hsplit, hlast]; simp)
  obtain ⟨u1, hres, hv, hp, hid, hargs, _, _, _⟩ := WaitsOn_resolve us t1 c ID vArgs hW
  have hfr := resolveStep_frame _ _ hres
  have hthis : c.addr ≠ u1.this := by rw [hfr]; exact hW.2.1
  have hcall := callAction_component env c ID vArgs u1 hthis
  rw [hwl, ← hid, ← hargs] at hcall
  obtain ⟨t', htick, _, _, _, hD⟩ := OnMachineCycle_waiting_tick env us t1 u1 _ c hW.1
    (WaitsOn_cursor _ _ _ _ hW) hres hv hp hcall (by rw [a5]; omega)
  obtain ⟨hq, hs⟩ := hD (by rw [a3]; omega) (by rw [a3, a5, hcyc]; omega)
  refine ⟨t', ?_, ?_, ?_⟩
  · rw [hsplit, runTicks_append, r1, hlast]
    simp only [bind, Except.bind, runTicks, htick, pure, Except.pure]
  · intro h1
    have := hq (by rw [a4]; exact h1)
    rw [a2] at this
    exact this
  · intro h1
    have := hs (by rw [a4]; exact h1)
    rw [a1] at this
    exact this

/-- C8 (as amended): on every tick on which the resolved action returns `Waiting` (the
script shorter than `2 ^ 32` lines, the counter within `0 .. INT_MAX - 1`), the line is
kept - cursor unchanged, status `TermWaiting` - exactly when the timeout-in-cycles is
negative (unset) or the incremented counter does not exceed it; the timeout counter is
incremented only when the timeout-in-cycles is not negative, and is left as it is when
the timeout is unset; otherwise the tick goes on as for `Timeout`.  `SetTimeoutMs(100)`
at frequency 1000 sets 100 cycles and the counter to 0; from there a line of a component
that answers `Waiting` on every tick is kept with status `TermWaiting` for each of the
next 100 ticks and times out on the tick after them; with the timeout unset it is kept
on every tick, whatever their number. -/
theorem OnMachineCycle_waiting (env : Clients) (iGuestUs : Int) (s s1 s2 : ScriptHost)
    (c : IScriptable)
    (hsize : s.m_script.length < 2 ^ 32)
    (hcur : s.m_iLine < s.m_script.length)
    (hres : resolveStep (setClock iGuestUs s) = .ok s1)
    (hv : s1.lineState.isValid = true) (hp : s1.lineState.pClient = some c)
    (hcall : callAction env c s1.lineState.iActID s1.lineState.vArgs s1
      = .ok (LineStatus.Waiting, s2))
    (hcount : 0 ≤ s.m_iTimeoutCount ∧ s.m_iTimeoutCount < 2147483647) :
    (∃ s', OnMachineCycle env iGuestUs s = .ok s' ∧
      ((s'.m_iLine = s.m_iLine ∧ s'.m_eCmdStatus = .TermWaiting) ↔
        (s.m_iTimeoutCycles < 0 ∨ s.m_iTimeoutCount + 1 ≤ s.m_iTimeoutCycles)) ∧
      (s.m_iTimeoutCycles < 0 → s'.m_iTimeoutCount = s.m_iTimeoutCount) ∧
      (0 ≤ s.m_iTimeoutCycles → s.m_iTimeoutCount + 1 ≤ s.m_iTimeoutCycles →
        s'.m_iTimeoutCount = s.m_iTimeoutCount + 1) ∧
      (0 ≤ s.m_iTimeoutCycles → s.m_iTimeoutCycles < s.m_iTimeoutCount + 1 →
        (s.m_bQuitOnTimeout = true → s'.m_state = .Timeout ∧ s'.m_iLine = s.m_script.length) ∧
        (s.m_bQuitOnTimeout = false → s'.m_iLine = s.m_iLine + 1 ∧
          s'.m_eCmdStatus = .TermTimedOut ∧ s'.m_iTimeoutCount = 0))) ∧
    (∀ t : ScriptHost, t.m_uiAVRFreq = 1000 →
      ProcessAction ActSetTimeoutMs ["100".toList] t
        = .ok (.Finished, { t with m_iTimeoutCycles := 100, m_iTimeoutCount := 0 })) ∧
    (∀ (t : ScriptHost) (d : IScriptable) (ID : Nat) (vArgs : List Str)
        (ticks : List (Clients × Int)),
      WaitsOn t d ID vArgs → t.m_iTimeoutCycles = 100 → t.m_iTimeoutCount = 0 →
      (∀ x ∈ ticks, x.1 d.addr ID vArgs = .Waiting) →
      (ticks.length ≤ 100 → ∃ t', runTicks ticks t = .ok t' ∧ t'.m_iLine = t.m_iLine ∧
        (ticks ≠ [] → t'.m_eCmdStatus = .TermWaiting) ∧
        t'.calls = t.calls ++ List.replicate ticks.length (Event.ProcessAction d.addr ID vArgs)) ∧
      (ticks.length = 101 → ∃ t', runTicks ticks t = .ok t' ∧
        (t.m_bQuitOnTimeout = true → t'.m_state = .Timeout ∧ t'.m_iLine = t.m_script.length) ∧
        (t.m_bQuitOnTimeout = false → t'.m_iLine = t.m_iLine + 1 ∧
          t'.m_eCmdStatus = .TermTimedOut ∧ t'.m_iTimeoutCount = 0))) ∧
    (∀ (t : ScriptHost) (d : IScriptable) (ID : Nat) (vArgs : List Str)
        (ticks : List (Clients × Int)),
      WaitsOn t d ID vArgs → t.m_iTimeoutCycles < 0 →
      (∀ x ∈ ticks, x.1 d.addr ID vArgs = .Waiting) →
      ∃ t', runTicks ticks t = .ok t' ∧ t'.m_iLine = t.m_iLine ∧
        (ticks ≠ [] → t'.m_eCmdStatus = .TermWaiting) ∧
        t'.m_iTimeoutCount = t.m_iTimeoutCount ∧
        t'.calls = t.calls ++ List.replicate ticks.length (Event.ProcessAction d.addr ID vArgs)) := by
  refine ⟨OnMachineCycle_waiting_tick env iGuestUs s s1 s2 c hsize hcur hres hv hp hcall hcount,
    ProcessAction_SetTimeoutMs_100, ?_, ?_⟩
  · intro t d ID vArgs ticks hW hcyc hcnt hw
    constructor
    · intro hlen
      obtain ⟨t', r, _, a1, _, _, _, _, a6, a7⟩ := runTicks_waiting d ID vArgs ticks t hW hw
        (Or.inr ⟨by omega, by rw [hcyc, hcnt]; omega, by omega⟩)
      exact ⟨t', r, a1, a7, a6⟩
    · intro hlen
      exact waiting_then_timeout t d ID vArgs ticks 100 hW hcyc (by norm_num) hcnt hw hlen
  · intro t d ID vArgs ticks hW hcyc hw
    obtain ⟨t', r, _, a1, _, _, _, a5, a6, a7⟩ := runTicks_waiting d ID vArgs ticks t hW hw
      (Or.inl hcyc)
    rw [if_pos hcyc] at a5
    exact ⟨t', r, a1, a7, a5, a6⟩

/-- Witness of `OnMachineCycle_waiting`: the one-line script `Dev::Stall()` with a
timeout of 5 cycles, `Dev` answering `Waiting`. -/
theorem OnMachineCycle_waiting_witness :
    ∃ s', OnMachineCycle (always .Waiting) 0
        { demo stallScript 1000 with
          m_bIsExecHold := false, m_bQuitOnTimeout := false, m_iTimeoutCycles := 5 } = .ok s' ∧
      ((s'.m_iLine = 0 ∧ s'.m_eCmdStatus = .TermWaiting) ↔
        ((5 : Int) < 0 ∨ (0 : Int) + 1 ≤ 5)) ∧
      ((5 : Int) < 0 → s'.m_iTimeoutCount = 0) ∧
      ((0 : Int) ≤ 5 → (0 : Int) + 1 ≤ 5 → s'.m_iTimeoutCount = 0 + 1) ∧
      ((0 : Int) ≤ 5 → (5 : Int) < 0 + 1 →
        (false = true → s'.m_state = .Timeout ∧ s'.m_iLine = 1) ∧
        (false = false → s'.m_iLine = 0 + 1 ∧
          s'.m_eCmdStatus = .TermTimedOut ∧ s'.m_iTimeoutCount = 0)) :=
  (OnMachineCycle_waiting (always .Waiting) 0
    { demo stallScript 1000 with
      m_bIsExecHold := false, m_bQuitOnTimeout := false, m_iTimeoutCycles := 5 }
    (atStall { demo stallScript 1000 with
      m_bIsExecHold := false, m_bQuitOnTimeout := false, m_iTimeoutCycles := 5 })
    (afterStall { demo stallScript 1000 with
      m_bIsExecHold := false, m_bQuitOnTimeout := false, m_iTimeoutCycles := 5 })
    devObject (by decide) (by decide) (by decide) (by decide) (by decide) (by decide)
    (by decide)).1

/-- The scenario of C8 end to end: the script `ScriptHost::SetTimeoutMs(100)`,
`Dev::Stall()` at frequency 1000.  The first tick executes `SetTimeoutMs(100)`; on any
further ticks on which `Dev` answers `Waiting`, up to 100 of them keep the line with
status `TermWaiting`, and the 101st skips it with status `TermTimedOut`. -/
theorem demo_timeout_scenario :
    OnMachineCycle (always .Waiting) 0 (demo timeoutScript 1000) = .ok demoAfterSetTimeout ∧
    demoAfterSetTimeout.m_iTimeoutCycles = 100 ∧ demoAfterSetTimeout.m_iLine = 1 ∧
    ∀ ticks : List (Clients × Int), (∀ x ∈ ticks, x.1 7 0 [] = .Waiting) →
      (ticks.length ≤ 100 → ∃ t', runTicks ticks demoAfterSetTimeout = .ok t' ∧ t'.m_iLine = 1 ∧
        (ticks ≠ [] → t'.m_eCmdStatus = .TermWaiting)) ∧
      (ticks.length = 101 → ∃ t', runTicks ticks demoAfterSetTimeout = .ok t' ∧
        t'.m_iLine = 2 ∧ t'.m_eCmdStatus = .TermTimedOut) := by
  have hW : WaitsOn demoAfterSetTimeout devObject 0 [] :=
    ⟨by decide, by decide, "Dev::Stall()".toList,
      { isValid := true, strCtxt := "Dev".toList, strAct := "Stall".toList, vArgs := [] },
      by decide, by decide, ⟨by decide, by decide, by decide, [], by decide, by decide⟩,
      rfl, Or.inl (Or.inl (by decide))⟩
  refine ⟨by decide, by decide, by decide, ?_⟩
  intro ticks hw
  have key := waiting_then_timeout demoAfterSetTimeout devObject 0 [] ticks 100 hW (by decide)
    (by norm_num) (by decide) hw
  obtain ⟨t', r, _, a1, _, _, _, _, _, a7⟩ := runTicks_waiting devObject 0 [] (ticks.take 100)
    demoAfterSetTimeout hW (fun x hx => hw x (List.mem_of_mem_take hx))
    (Or.inr ⟨by decide, by
      have : (ticks.take 100).length ≤ 100 := by rw [List.length_take]; omega
      have e : demoAfterSetTimeout.m_iTimeoutCount = 0 := by decide
      have e2 : demoAfterSetTimeout.m_iTimeoutCycles = 100 := by decide
      rw [e, e2]
      omega, by decide⟩)
  constructor
  · intro hlen
    rw [List.take_of_length_le hlen] at r a7
    exact ⟨t', r, a1, a7⟩
  · intro hlen
    obtain ⟨u, hu, _, hs⟩ := key hlen
    obtain ⟨b1, b2, _⟩ := hs (by decide)
    exact ⟨u, hu, b1, b2⟩

/-- C8 as stated fails: with the timeout unset (`m_iTimeoutCycles = -1`, the initial
value) a tick on which the action returns `Waiting` keeps the line with status
`TermWaiting` but does not increment the timeout counter: it is 0 before and 0
after. -/
theorem waiting_counter_not_incremented :
    (demo stallScript 1000).m_iTimeoutCycles = -1 ∧
    (demo stallScript 1000).m_iTimeoutCount = 0 ∧
    (OnMachineCycle (always .Waiting) 0 (demo stallScript 1000)).map
      (fun s => (s.m_iTimeoutCount, s.m_iLine, s.m_eCmdStatus))
      = .ok (0, 0, TermStatus.TermWaiting) ∧
    (OnMachineCycle (always .Waiting) 0 (demo stallScript 1000)).map
      (fun s => s.m_iTimeoutCount) ≠ .ok ((demo stallScript 1000).m_iTimeoutCount + 1) := by
  decide

/-! ### Timeout with quit-on-timeout set -/

theorem switchResult_timeout (env : Clients) (len : Nat) (t : ScriptHost) (r : LineStatus)
    (htime : r = .Timeout ∨
      (r = .Waiting ∧ 0 ≤ t.m_iTimeoutCycles ∧ t.m_iTimeoutCycles < t.m_iTimeoutCount + 1 ∧
        0 ≤ t.m_iTimeoutCount ∧ t.m_iTimeoutCount < 2147483647)) :
    ∃ count, switchResult env len r t
      = .ok (caseTimeout len { t with m_iTimeoutCount := count, m_state := .Timeout }) := by
  rcases htime with h | ⟨h, h0, h1, h2, h3⟩
  · subst h
    exact ⟨t.m_iTimeoutCount, rfl⟩
  · subst h
    refine ⟨t.m_iTimeoutCount + 1, ?_⟩
    show Except.ok (caseWaiting len t) = _
    rw [caseWaiting_exceeded len t h0 ⟨h2, h3⟩ h1]

/-- C9 (as amended): on every tick on which the current line times out (the action
returns `Timeout`, or it returns `Waiting` and the incremented counter exceeds a
non-negative timeout-in-cycles) while quit-on-timeout is set, `OnMachineCycle` moves the
cursor to the script length and requests host termination right after the call of the
action; the state after the tick is `Timeout`. -/
theorem OnMachineCycle_timeout_quit (env : Clients) (iGuestUs : Int) (s s1 s2 : ScriptHost)
    (c : IScriptable) (r : LineStatus)
    (hsize : s.m_script.length < 2 ^ 32)
    (hcur : s.m_iLine < s.m_script.length)
    (hres : resolveStep (setClock iGuestUs s) = .ok s1)
    (hv : s1.lineState.isValid = true) (hp : s1.lineState.pClient = some c)
    (hcall : callAction env c s1.lineState.iActID s1.lineState.vArgs s1 = .ok (r, s2))
    (hquit : s.m_bQuitOnTimeout = true)
    (htime : r = .Timeout ∨
      (r = .Waiting ∧ 0 ≤ s.m_iTimeoutCycles ∧ s.m_iTimeoutCycles < s.m_iTimeoutCount + 1 ∧
        0 ≤ s.m_iTimeoutCount ∧ s.m_iTimeoutCount < 2147483647)) :
    ∃ s', OnMachineCycle env iGuestUs s = .ok s' ∧
      s'.m_iLine = s.m_script.length ∧ s'.m_state = .Timeout ∧
      s'.calls = s.calls ++
        [Event.ProcessAction c.addr s1.lineState.iActID s1.lineState.vArgs,
          Event.qemu_system_shutdown_request SHUTDOWN_CAUSE_HOST_SIGNAL] := by
  obtain ⟨f1, f2, f3, f4, f5, f6, f7, f8, f9⟩ := prelude_fields _ _ _ _ _ _ _ _ _ hres hcall
  have hrf : r ≠ .Finished := by
    rcases htime with h | h
    · rw [h]; decide
    · rw [h.1]; decide
  obtain ⟨g1, g2, g3⟩ := prelude_timeout_fields _ _ _ _ _ _ _ _ _ hres hcall hrf
  have hmod2 : s.m_script.length % UINT_MOD = s.m_script.length := Nat.mod_eq_of_lt hsize
  obtain ⟨count, hsw⟩ := switchResult_timeout env s.m_script.length s2 r
    (by rw [g1, g2]; exact htime)
  rw [OnMachineCycle_valid env iGuestUs s s1 s2 c _ hcur hres hv hp hcall, hsw,
    caseTimeout_quit _ _ (by simp only [g3, hquit])]
  simp only [bind, Except.bind, pure, Except.pure, if_true]
  refine ⟨_, rfl, hmod2, rfl, ?_⟩
  simp only [f6, List.append_assoc, List.singleton_append]

/-- Witness of `OnMachineCycle_timeout_quit`: the one-line script `Dev::Stall()` with
quit-on-timeout set, `Dev` answering `Timeout`. -/
theorem OnMachineCycle_timeout_quit_witness :
    ∃ s', OnMachineCycle (always .Timeout) 0
        { demo stallScript 1000 with
          m_bIsExecHold := false, m_bQuitOnTimeout := true, m_iTimeoutCycles := -1 } = .ok s' ∧
      s'.m_iLine = 1 ∧ s'.m_state = .Timeout ∧
      s'.calls = [] ++
        [Event.ProcessAction 7 0 [],
          Event.qemu_system_shutdown_request SHUTDOWN_CAUSE_HOST_SIGNAL] :=
  OnMachineCycle_timeout_quit (always .Timeout) 0
    { demo stallScript 1000 with
      m_bIsExecHold := false, m_bQuitOnTimeout := true, m_iTimeoutCycles := -1 }
    (atStall { demo stallScript 1000 with
      m_bIsExecHold := false, m_bQuitOnTimeout := true, m_iTimeoutCycles := -1 })
    (afterStall { demo stallScript 1000 with
      m_bIsExecHold := false, m_bQuitOnTimeout := true, m_iTimeoutCycles := -1 })
    devObject .Timeout (by decide) (by decide) (by decide) (by decide) (by decide) (by decide)
    (by decide) (Or.inl rfl)

/-- C9 as stated fails: with quit-on-timeout set and the action of the one-line script
`Dev::Stall()` answering `Timeout`, the tick ends with the state `Timeout`, not `Error`,
and the command status is still `TermIdle`, not `TermFailed`. -/
theorem timeout_quit_not_error :
    (OnMachineCycle (always .Timeout) 0
        { demo stallScript 1000 with
          m_bIsExecHold := false, m_bQuitOnTimeout := true, m_iTimeoutCycles := -1 }).map
      (fun s => (s.m_state, s.m_eCmdStatus, s.m_iLine))
      = .ok (State.Timeout, TermStatus.TermIdle, 1) ∧
    (OnMachineCycle (always .Timeout) 0
        { demo stallScript 1000 with
          m_bIsExecHold := false, m_bQuitOnTimeout := true, m_iTimeoutCycles := -1 }).map
      (fun s => s.m_state) ≠ .ok State.Error ∧
    (OnMachineCycle (always .Timeout) 0
        { demo stallScript 1000 with
          m_bIsExecHold := false, m_bQuitOnTimeout := true, m_iTimeoutCycles := -1 }).map
      (fun s => s.m_eCmdStatus) ≠ .ok TermStatus.TermFailed := by
  decide

/-! ### Timeout with quit-on-timeout not set -/

theorem ParseLine_iLine (i : Nat) (s s1 : ScriptHost) (h : ParseLine i s = .ok s1)
    (hv : s1.lineState.isValid = true) : s1.lineState.iLine = i := by
  unfold ParseLine at h
  simp only [bind, Except.bind, pure, Except.pure] at h
  repeat' split at h
  all_goals first
    | (cases h; rfl)
    | (cases h; exact absurd hv (by simp))
    | cases h

theorem resolveStep_iLine (s s1 : ScriptHost) (h : resolveStep s = .ok s1)
    (hv : s1.lineState.isValid = true) : s1.lineState.iLine = s.m_iLine := by
  unfold resolveStep at h
  split at h
  · exact ParseLine_iLine _ _ _ h hv
  · next hc =>
    cases h
    simp only [not_or, not_not] at hc
    exact hc.1

theorem caseTimeout_calls (len : Nat) (t : ScriptHost) :
    ∃ more, (caseTimeout len t).2.calls = t.calls ++ more := by
  unfold caseTimeout
  simp only
  split
  · exact ⟨_, rfl⟩
  · exact ⟨[], by simp⟩

theorem caseWaiting_calls (len : Nat) (t : ScriptHost) :
    ∃ more, (caseWaiting len t).2.calls = t.calls ++ more := by
  unfold caseWaiting
  simp only
  split
  · exact ⟨[], by simp⟩
  · split
    · exact ⟨[], by simp⟩
    · exact caseTimeout_calls len _

theorem switchResult_calls (env : Clients) (len : Nat) (r : LineStatus) (t : ScriptHost)
    (hb : BoardIsComponent t) :
    ∃ x, switchResult env len r t = .ok x ∧ ∃ more, x.2.calls = t.calls ++ more := by
  cases r with
  | Finished => exact ⟨_, switchResult_finished env len t hb, _, rfl⟩
  | Error => exact ⟨_, switchResult_error env len t _ (Or.inl rfl), _, rfl⟩
  | Unhandled => exact ⟨_, switchResult_error env len t _ (Or.inr rfl), _, rfl⟩
  | Waiting => exact ⟨_, rfl, caseWaiting_calls len t⟩
  | Timeout => exact ⟨_, rfl, caseTimeout_calls len t⟩
  | HoldExec =>
    simp only [switchResult, callBoard_component env _ t hb, bind, Except.bind, pure,
      Except.pure]
    refine ⟨_, rfl, ?_⟩
    rcases boardAction t "Pause".toList with _ | x
    · exact caseWaiting_calls len t
    · obtain ⟨more, hm⟩ := caseWaiting_calls len
        { ({ t with calls := t.calls ++ boardCalls t "Pause".toList } : ScriptHost) with
          m_bIsExecHold := true }
      exact ⟨_, by rw [hm, List.append_assoc]⟩

theorem finishIfDone_calls (len : Nat) (t : ScriptHost) : (finishIfDone len t).calls = t.calls := by
  unfold finishIfDone
  split <;> rfl

theorem ResolvesTo_congr (s t : ScriptHost) (p : LineParts_t) (c : IScriptable) (ID : Nat)
    (h : t.m_clients = s.m_clients) (hr : ResolvesTo s p c ID) : ResolvesTo t p c ID := by
  unfold ResolvesTo at hr ⊢
  rw [h]
  exact hr

theorem finishIfDone_frame (len : Nat) (t : ScriptHost) :
    finishIfDone len t = { t with
      m_bCanAcceptInput := (finishIfDone len t).m_bCanAcceptInput
      m_state := (finishIfDone len t).m_state } := by
  unfold finishIfDone
  split <;> rfl

theorem next_tick_executes (env : Clients) (iGuestUs : Int) (x : ScriptHost) (line : Str)
    (p : LineParts_t) (d : IScriptable) (ID : Nat) (r : LineStatus) (u2 : ScriptHost)
    (hfresh : x.lineState.iLine ≠ x.m_iLine)
    (hline : x.m_script.get? x.m_iLine = some line) (hp : GetLineParts line = .ok p)
    (hr : ResolvesTo x p d ID) (hb : BoardIsComponent x)
    (hcall : callAction env d ID p.vArgs
      { setClock iGuestUs x with
        m_state := .Running
        lineState := linestate_t.mk true p.strCtxt ID p.vArgs x.m_iLine (some d) }
      = .ok (r, u2)) :
    ∃ s'', OnMachineCycle env iGuestUs x = .ok s'' ∧
      ∃ more, s''.calls = x.calls ++ Event.ProcessAction d.addr ID p.vArgs :: more := by
  have hcur : x.m_iLine < x.m_script.length := (List.get?_eq_some.mp hline).1
  have hparse := ParseLine_resolves x.m_iLine
    { setClock iGuestUs x with m_state := .Running } line p d ID hline hp hr
  have hres : resolveStep (setClock iGuestUs x) = .ok
      { ({ setClock iGuestUs x with m_state := .Running } : ScriptHost) with
        lineState := linestate_t.mk true p.strCtxt ID p.vArgs x.m_iLine (some d) } := by
    unfold resolveStep
    rw [if_pos (Or.inl (by simpa [setClock] using hfresh))]
    exact hparse
  have hfr := callAction_frame _ _ _ _ _ _ _ hcall
  have hb2 : BoardIsComponent u2 :=
    BoardIsComponent_congr x u2 (by rw [hfr]; rfl) (by rw [hfr]; rfl) hb
  have hc2 : u2.calls = x.calls ++ [Event.ProcessAction d.addr ID p.vArgs] := by
    rw [hfr]; rfl
  obtain ⟨y, hy, more, hm⟩ := switchResult_calls env x.m_script.length r u2 hb2
  rw [OnMachineCycle_valid env iGuestUs x _ u2 d r hcur hres rfl rfl hcall, hy]
  simp only [bind, Except.bind, pure, Except.pure]
  refine ⟨_, rfl, more, ?_⟩
  split
  · rw [hm, hc2, List.append_assoc]
    rfl
  · rw [finishIfDone_calls, hm, hc2, List.append_assoc]
    rfl

theorem switchResult_times_out (env : Clients) (len : Nat) (t : ScriptHost) (r : LineStatus)
    (hb : BoardIsComponent t)
    (htime : r = .Timeout ∨
      ((r = .Waiting ∨ r = .HoldExec) ∧ 0 ≤ t.m_iTimeoutCycles ∧
        t.m_iTimeoutCycles < t.m_iTimeoutCount + 1 ∧
        0 ≤ t.m_iTimeoutCount ∧ t.m_iTimeoutCount < 2147483647)) :
    ∃ count hold, switchResult env len r t
      = .ok (caseTimeout len
        { t with
          m_iTimeoutCount := count
          m_state := .Timeout
          m_bIsExecHold := hold
          calls := t.calls ++ (if r = .HoldExec then boardCalls t "Pause".toList else []) }) := by
  rcases htime with h | ⟨h | h, h0, h1, h2, h3⟩
  · subst h
    refine ⟨t.m_iTimeoutCount, t.m_bIsExecHold, ?_⟩
    simp only [if_neg (show ¬ (LineStatus.Timeout = LineStatus.HoldExec) by decide),
      List.append_nil]
    rfl
  · subst h
    refine ⟨t.m_iTimeoutCount + 1, t.m_bIsExecHold, ?_⟩
    simp only [if_neg (show ¬ (LineStatus.Waiting = LineStatus.HoldExec) by decide),
      List.append_nil]
    show Except.ok (caseWaiting len t) = _
    rw [caseWaiting_exceeded len t h0 ⟨h2, h3⟩ h1]
  · subst h
    simp only [switchResult, callBoard_component env _ t hb, bind, Except.bind, pure,
      Except.pure, if_true]
    rcases hba : boardAction t "Pause".toList with _ | x
    · refine ⟨t.m_iTimeoutCount + 1, t.m_bIsExecHold, ?_⟩
      have hc : boardCalls t "Pause".toList = [] := by
        unfold boardCalls
        rw [hba]
      simp only [hc, List.append_nil]
      rw [caseWaiting_exceeded len t h0 ⟨h2, h3⟩ h1]
    · refine ⟨t.m_iTimeoutCount + 1, true, ?_⟩
      simp only
      exact congrArg Except.ok (caseWaiting_exceeded len
        { ({ t with calls := t.calls ++ boardCalls t "Pause".toList } : ScriptHost) with
          m_bIsExecHold := true } h0 ⟨h2, h3⟩ h1)

theorem next_tick_fails (env : Clients) (iGuestUs : Int) (x : ScriptHost) (line : Str)
    (p : LineParts_t) (hsize : x.m_script.length < 2 ^ 32)
    (hfresh : x.lineState.iLine ≠ x.m_iLine)
    (hline : x.m_script.get? x.m_iLine = some line) (hp : GetLineParts line = .ok p)
    (hfail : ResolutionFails x p) :
    ∃ s'', OnMachineCycle env iGuestUs x = .ok s'' ∧ s''.m_state = .Error ∧
      s''.m_iLine = x.m_script.length ∧ s''.m_eCmdStatus = .TermSyntax ∧
      s''.calls = x.calls := by
  have hcur : x.m_iLine < x.m_script.length := (List.get?_eq_some.mp hline).1
  obtain ⟨s1, h1, h2⟩ := ParseLine_fails x.m_iLine
    { setClock iGuestUs x with m_state := .Running } line p hline hp hfail
  have hres : resolveStep (setClock iGuestUs x) = .ok s1 := by
    unfold resolveStep
    rw [if_pos (Or.inl (by simpa [setClock] using hfresh))]
    exact h1
  have hfr := ParseLine_frame _ _ _ h1
  refine ⟨_, OnMachineCycle_invalid env iGuestUs x s1 hcur hres h2, rfl, ?_, rfl, ?_⟩
  · exact Nat.mod_eq_of_lt hsize
  · rw [hfr]
    rfl

/-- C10 (amended): on every tick on which the current line times out (the action returns
`Timeout`, or it returns `Waiting` or `HoldExec` and the incremented counter exceeds a
non-negative timeout-in-cycles) while quit-on-timeout is not set, `OnMachineCycle`
advances the cursor by exactly one, resets the timeout counter to 0, sets the command
status to `TermTimedOut` and makes no call but that of the action and, for `HoldExec`,
the `Pause` of the board (no termination request).  If a further line exists, the next
tick - whatever the components answer and whatever the time - sets the state to
`Running` and resolves that line (`ParseLine` runs on it): when the line resolves, its
action is called on that tick (for an action of the engine itself, when that action
returns); when resolution fails, the tick makes no call and ends with the state `Error`,
the cursor at the script length and the status `TermSyntax`. -/
theorem OnMachineCycle_timeout_skip (env : Clients) (iGuestUs : Int) (s s1 s2 : ScriptHost)
    (c : IScriptable) (r : LineStatus)
    (hsize : s.m_script.length < 2 ^ 32)
    (hcur : s.m_iLine < s.m_script.length)
    (hres : resolveStep (setClock iGuestUs s) = .ok s1)
    (hv : s1.lineState.isValid = true) (hp : s1.lineState.pClient = some c)
    (hcall : callAction env c s1.lineState.iActID s1.lineState.vArgs s1 = .ok (r, s2))
    (hquit : s.m_bQuitOnTimeout = false)
    (htime : r = .Timeout ∨
      ((r = .Waiting ∨ r = .HoldExec) ∧ 0 ≤ s.m_iTimeoutCycles ∧
        s.m_iTimeoutCycles < s.m_iTimeoutCount + 1 ∧
        0 ≤ s.m_iTimeoutCount ∧ s.m_iTimeoutCount < 2147483647))
    (hboard : BoardIsComponent s) :
    ∃ s', OnMachineCycle env iGuestUs s = .ok s' ∧
      s'.m_iLine = s.m_iLine + 1 ∧ s'.m_iTimeoutCount = 0 ∧
      s'.m_eCmdStatus = .TermTimedOut ∧
      s'.calls = s.calls ++
        Event.ProcessAction c.addr s1.lineState.iActID s1.lineState.vArgs ::
          (if r = .HoldExec then boardCalls s "Pause".toList else []) ∧
      (s.m_iLine + 1 < s.m_script.length → ∀ (env' : Clients) (us' : Int),
        resolveStep (setClock us' s')
          = ParseLine (s.m_iLine + 1) { setClock us' s' with m_state := .Running } ∧
        ∀ (line : Str) (p : LineParts_t),
          s.m_script.get? (s.m_iLine + 1) = some line → GetLineParts line = .ok p →
          (∀ (d : IScriptable) (ID : Nat), ResolvesTo s p d ID →
            (d.addr = s.this → ∃ r' u2,
              callAction env' d ID p.vArgs
                { setClock us' s' with
                  m_state := .Running
                  lineState :=
                    linestate_t.mk true p.strCtxt ID p.vArgs (s.m_iLine + 1) (some d) }
                = .ok (r', u2)) →
            ∃ s'', OnMachineCycle env' us' s' = .ok s'' ∧
              ∃ more, s''.calls = s'.calls ++ Event.ProcessAction d.addr ID p.vArgs :: more) ∧
          (ResolutionFails s p →
            ∃ s'', OnMachineCycle env' us' s' = .ok s'' ∧ s''.m_state = .Error ∧
              s''.m_iLine = s.m_script.length ∧ s''.m_eCmdStatus = .TermSyntax ∧
              s''.calls = s'.calls)) := by
  obtain ⟨f1, f2, f3, f4, f5, f6, f7, f8, f9⟩ := prelude_fields _ _ _ _ _ _ _ _ _ hres hcall
  have hrf : r ≠ .Finished := by
    rcases htime with h | ⟨h | h, _⟩
    · rw [h]; decide
    · rw [h]; decide
    · rw [h]; decide
  obtain ⟨g1, g2, g3⟩ := prelude_timeout_fields _ _ _ _ _ _ _ _ _ hres hcall hrf
  have hmod : (s.m_iLine + 1) % UINT_MOD = s.m_iLine + 1 :=
    Nat.mod_eq_of_lt (by unfold UINT_MOD; omega)
  have hb2 : BoardIsComponent s2 := BoardIsComponent_congr s s2 f3 f4 hboard
  obtain ⟨count, hold, hsw⟩ := switchResult_times_out env s.m_script.length s2 r hb2
    (by rw [g1, g2]; exact htime)
  have hls : s2.lineState = s1.lineState := by
    rw [callAction_frame _ _ _ _ _ _ _ hcall]
  have hil : s1.lineState.iLine = s.m_iLine := resolveStep_iLine (setClock iGuestUs s) s1 hres hv
  rw [OnMachineCycle_valid env iGuestUs s s1 s2 c _ hcur hres hv hp hcall, hsw,
    caseTimeout_skip _ _ (by simp only [g3, hquit])]
  simp only [bind, Except.bind, pure, Except.pure, Bool.false_eq_true, if_false, f1, hmod]
  refine ⟨_, rfl, ?_, ?_, ?_, ?_, ?_⟩
  · rw [finishIfDone_frame]
  · rw [finishIfDone_frame]
  · rw [finishIfDone_frame]
  · rw [finishIfDone_frame]
    show s2.calls ++ _ = _
    rw [f6, boardCalls_congr s s2 _ f3, List.append_assoc]
    rfl
  · intro hnext env' us'
    rw [finishIfDone_of_lt _ _ (by simpa using hnext)]
    constructor
    · unfold resolveStep
      rw [if_pos (Or.inl (by
        simp only [setClock, hls, hil]
        omega))]
      rfl
    · intro line p hline hp'
      constructor
      · intro d ID hr' hret
        have hcall' : ∃ r' u2,
            callAction env' d ID p.vArgs
              { setClock us'
                  ({ s2 with
                    m_state := .Timeout
                    m_iLine := s.m_iLine + 1
                    m_iTimeoutCount := 0
                    m_eCmdStatus := .TermTimedOut
                    m_bIsExecHold := hold
                    calls := s2.calls ++
                      (if r = .HoldExec then boardCalls s2 "Pause".toList else []) } :
                    ScriptHost) with
                m_state := .Running
                lineState :=
                  linestate_t.mk true p.strCtxt ID p.vArgs (s.m_iLine + 1) (some d) }
              = .ok (r', u2) := by
          by_cases hd : d.addr = s.this
          · exact hret hd
          · exact ⟨_, _, callAction_component env' d ID p.vArgs _
              (by simpa [setClock, f4] using hd)⟩
        obtain ⟨r', u2, hc'⟩ := hcall'
        exact next_tick_executes env' us' _ line p d ID r' u2
          (by simp only [hls, hil]; omega) (by simpa [f2] using hline) hp'
          (ResolvesTo_congr s _ p d ID f3 hr') (BoardIsComponent_congr s _ f3 f4 hboard) hc'
      · intro hfail
        have hfail' : ResolutionFails
            ({ s2 with
              m_state := .Timeout
              m_iLine := s.m_iLine + 1
              m_iTimeoutCount := 0
              m_eCmdStatus := .TermTimedOut
              m_bIsExecHold := hold
              calls := s2.calls ++
                (if r = .HoldExec then boardCalls s2 "Pause".toList else []) } :
              ScriptHost) p := by
          unfold ResolutionFails at hfail ⊢
          simp only [f3]
          exact hfail
        have := next_tick_fails env' us' _ line p (by simpa [f2] using hsize)
          (by simp only [hls, hil]; omega) (by simpa [f2] using hline) hp' hfail'
        simpa [f2] using this

/-- Witness of `OnMachineCycle_timeout_skip`: the script `Dev::Stall()`, `Dev::Move(1)`
with quit-on-timeout not set, `Dev` answering `Timeout`: the first tick skips the first
line, and the second tick calls `Dev::Move(1)`. -/
theorem OnMachineCycle_timeout_skip_witness :
    ∃ s', OnMachineCycle (always .Timeout) 0 (demo twoLineScript 1000) = .ok s' ∧
      s'.m_iLine = 0 + 1 ∧ s'.m_iTimeoutCount = 0 ∧ s'.m_eCmdStatus = .TermTimedOut ∧
      s'.calls = [] ++ [Event.ProcessAction 7 0 []] ∧
      ∃ s'', OnMachineCycle (always .Timeout) 10000 s' = .ok s'' ∧
        ∃ more, s''.calls = s'.calls ++ Event.ProcessAction 7 1 ["1".toList] :: more := by
  obtain ⟨s', h, a, b, c, d, e⟩ := OnMachineCycle_timeout_skip (always .Timeout) 0
    (demo twoLineScript 1000) (atStall (demo twoLineScript 1000))
    (afterStall (demo twoLineScript 1000)) devObject .Timeout (by decide) (by decide)
    (by decide) (by decide) (by decide) (by decide) (by decide) (Or.inl rfl)
    (demo_BoardIsComponent twoLineScript 1000 false false (-1))
  have hx : OnMachineCycle (always .Timeout) 0 (demo twoLineScript 1000) = .ok demoSkipped := by
    decide
  rw [hx] at h
  cases h
  refine ⟨_, hx, a, b, c, d, ?_⟩
  exact ((e (by decide) (always .Timeout) 10000).2 "Dev::Move(1)".toList
    { isValid := true, strCtxt := "Dev".toList, strAct := "Move".toList, vArgs := ["1".toList] }
    (by decide) (by decide)).1 devObject 1
    ⟨by decide, by decide, by decide, [ArgType.Int], by decide, by decide⟩
    (fun h => absurd h (by decide))

/-- C10, as stated, fails: in the script `Dev::Stall()`, `Unknown::DoThing()` a further
line exists after the line that times out, and the next tick does not execute it: the
line does not resolve, no call is made, and the tick ends with the state `Error`, the
cursor at the script length and the status `TermSyntax`. -/
theorem timeout_skip_next_unresolved :
    (runTicks [(always .Timeout, 0)]
        (demo ["Dev::Stall()".toList, "Unknown::DoThing()".toList] 1000)).map
        (fun s => (s.m_iLine, s.m_eCmdStatus, s.m_bQuitOnTimeout, s.calls))
      = .ok (1, .TermTimedOut, false, [Event.ProcessAction 7 0 []]) ∧
    (runTicks [(always .Timeout, 0), (always .Timeout, 10000)]
        (demo ["Dev::Stall()".toList, "Unknown::DoThing()".toList] 1000)).map
        (fun s => (s.m_state, s.m_iLine, s.m_eCmdStatus, s.calls))
      = .ok (.Error, 2, .TermSyntax, [Event.ProcessAction 7 0 []]) := by
  decide

/-! ## The built-in actions of the engine -/

theorem toI32_of_lt (n : Nat) (h : n < 2 ^ 31) : toI32 n = (n : Int) := by
  unfold toI32 UINT_MOD
  have hm : n % 2 ^ 32 = n := Nat.mod_eq_of_lt (by omega)
  rw [hm, if_pos h]

theorem toU32_natCast (n : Nat) (h : n < 2 ^ 32) : toU32 (n : Int) = n := by
  unfold toU32 UINT_MOD
  have e : ((2 ^ 32 : Nat) : Int) = 4294967296 := by norm_num
  rw [e]
  omega

theorem SetTimeoutMs_general (s : ScriptHost) (arg : Str) (time_ms : Nat)
    (hstoi : stoi arg = .ok (time_ms : Int))
    (hfit : time_ms * (s.m_uiAVRFreq / 1000) < 2 ^ 31) :
    ProcessAction ActSetTimeoutMs [arg] s = .ok (.Finished,
      { s with
        m_iTimeoutCycles := ((time_ms * (s.m_uiAVRFreq / 1000) : Nat) : Int)
        m_iTimeoutCount := 0 }) := by
  have hv : vecAt [arg] 0 = .ok arg := rfl
  have key : toI32 (toU32 (time_ms : Int) * (s.m_uiAVRFreq / 1000))
      = ((time_ms * (s.m_uiAVRFreq / 1000) : Nat) : Int) := by
    rcases Nat.eq_zero_or_pos (s.m_uiAVRFreq / 1000) with h0 | hpos
    · rw [h0]
      simp [toI32]
    · have hle : time_ms ≤ time_ms * (s.m_uiAVRFreq / 1000) := Nat.le_mul_of_pos_right _ hpos
      rw [toU32_natCast _ (by omega), toI32_of_lt _ hfit]
  unfold ProcessAction
  simp only [if_true, hv, hstoi, bind, Except.bind, pure, Except.pure, key]

theorem AtLine_resolve (iGuestUs : Int) (s : ScriptHost) (c : IScriptable) (ID : Nat)
    (vArgs : List Str) (h : AtLine s c ID vArgs) :
    ∃ s1, resolveStep (setClock iGuestUs s) = .ok s1 ∧ s1.lineState.isValid = true ∧
      s1.lineState.pClient = some c ∧ s1.lineState.iActID = ID ∧
      s1.lineState.vArgs = vArgs ∧ s1.lineState.iLine = s.m_iLine ∧ s1.m_state ≠ .Idle ∧
      ((s.lineState.iLine ≠ s.m_iLine ∨ s.m_state = .Idle) → s1.m_state = .Running) ∧
      AtLine s1 c ID vArgs := by
  obtain ⟨hsize, line, p, hline, hp, hr, hargs, hst⟩ := h
  rcases hst with hfresh | ⟨hls, hstate⟩
  · have hparse := ParseLine_resolves s.m_iLine
      { setClock iGuestUs s with m_state := .Running } line p c ID hline hp hr
    refine ⟨{ ({ setClock iGuestUs s with m_state := .Running } : ScriptHost) with
        lineState := linestate_t.mk true p.strCtxt ID p.vArgs s.m_iLine (some c) },
      ?_, rfl, rfl, rfl, hargs, rfl, fun h => State.noConfusion h, fun _ => rfl, ?_⟩
    · unfold resolveStep
      rw [if_pos (by simpa [setClock] using hfresh)]
      exact hparse
    · exact ⟨hsize, line, p, hline, hp, hr, hargs,
        Or.inr ⟨rfl, fun h => State.noConfusion h⟩⟩
  · refine ⟨setClock iGuestUs s, ?_, ?_, ?_, ?_, ?_, ?_, hstate, ?_, ?_⟩
    · unfold resolveStep
      rw [if_neg]
      · rfl
      · simp only [setClock, hls, not_or, not_not, true_and]
        exact hstate
    · simp only [setClock, hls]
    · simp only [setClock, hls]
    · simp only [setClock, hls]
    · simp only [setClock, hls, hargs]
    · simp only [setClock, hls]
    · intro hf
      rcases hf with hf | hf
      · rw [hls] at hf
        exact absurd rfl hf
      · exact absurd hf hstate
    · exact ⟨hsize, line, p, hline, hp, hr, hargs, Or.inr ⟨hls, hstate⟩⟩

theorem AtLine_cursor (s : ScriptHost) (c : IScriptable) (ID : Nat) (vArgs : List Str)
    (h : AtLine s c ID vArgs) : s.m_iLine < s.m_script.length := by
  obtain ⟨_, line, p, hline, _⟩ := h
  exact (List.get?_eq_some.mp hline).1

theorem callAction_engine (env : Clients) (c : IScriptable) (ID : Nat) (vArgs : List Str)
    (s : ScriptHost) (hc : c.addr = s.this) :
    callAction env c ID vArgs s
      = ProcessAction ID vArgs
          { s with calls := s.calls ++ [Event.ProcessAction c.addr ID vArgs] } := by
  unfold callAction
  simp only
  rw [if_pos hc]

/-- A state without a context "Board". -/
theorem BoardIsComponent_of_none (s : ScriptHost)
    (h : mapFind s.m_clients "Board".toList = none) : BoardIsComponent s := by
  intro b hb
  rw [h] at hb
  cases hb

theorem switchResult_finished_nohold (env : Clients) (len : Nat) (t : ScriptHost)
    (ht : t.m_bIsExecHold = false) :
    switchResult env len .Finished t = .ok (false,
      { t with m_iLine := (t.m_iLine + 1) % UINT_MOD, m_iTimeoutCount := 0,
               m_eCmdStatus := .TermSuccess }) := by
  simp only [switchResult, ht, bind, Except.bind, pure, Except.pure, Bool.false_eq_true,
    if_false]

theorem engine_tick_finished (env : Clients) (iGuestUs : Int) (s : ScriptHost)
    (h : IScriptable) (ID : Nat) (vArgs : List Str)
    (hat : AtLine s h ID vArgs) (hh : h.addr = s.this)
    (hfresh : s.lineState.iLine ≠ s.m_iLine ∨ s.m_state = .Idle)
    (hhold : s.m_bIsExecHold = false)
    (hpa : ∀ t : ScriptHost, ∃ t', ProcessAction ID vArgs t = .ok (.Finished, t') ∧
      t'.m_iTimeoutCycles = t.m_iTimeoutCycles ∧ t'.m_uiWaitMs = t.m_uiWaitMs) :
    ∃ s', OnMachineCycle env iGuestUs s = .ok s' ∧
      s'.m_script = s.m_script ∧ s'.m_clients = s.m_clients ∧ s'.this = s.this ∧
      s'.m_iLine = s.m_iLine + 1 ∧ s'.lineState.iLine = s.m_iLine ∧
      s'.m_bIsExecHold = false ∧ s'.m_iTimeoutCycles = s.m_iTimeoutCycles ∧
      s'.m_uiWaitMs = s.m_uiWaitMs ∧ s'.m_eCmdStatus = .TermSuccess ∧
      s'.m_state = (if s.m_iLine + 1 = s.m_script.length then .Finished else .Running) := by
  have hcur := AtLine_cursor s h ID vArgs hat
  have hsize := hat.1
  obtain ⟨s1, hres, hv, hp, hid, hargs, hil, hst, hrun, _⟩ := AtLine_resolve iGuestUs s h ID vArgs hat
  have hfr := resolveStep_frame _ _ hres
  have hthis : h.addr = s1.this := by rw [hfr]; exact hh
  obtain ⟨s2, hq, q1, q2⟩ :=
    hpa { s1 with calls := s1.calls ++ [Event.ProcessAction h.addr ID vArgs] }
  have hcall := callAction_engine env h ID vArgs s1 hthis
  rw [hq, ← hid, ← hargs] at hcall
  obtain ⟨f1, f2, f3, f4, f5, f6, f7, f8, f9⟩ := prelude_fields _ _ _ _ _ _ _ _ _ hres hcall
  have hls : s2.lineState = s1.lineState := by
    rw [callAction_frame _ _ _ _ _ _ _ hcall]
  have hmod : (s.m_iLine + 1) % UINT_MOD = s.m_iLine + 1 :=
    Nat.mod_eq_of_lt (by unfold UINT_MOD; omega)
  have c1 : s2.m_iTimeoutCycles = s.m_iTimeoutCycles := by rw [q1, hfr]; rfl
  have c2 : s2.m_uiWaitMs = s.m_uiWaitMs := by rw [q2, hfr]; rfl
  rw [OnMachineCycle_valid env iGuestUs s s1 s2 h _ hcur hres hv hp hcall,
    switchResult_finished_nohold env _ s2 (by rw [f5]; exact hhold)]
  simp only [bind, Except.bind, pure, Except.pure, Bool.false_eq_true, if_false, f1, hmod]
  refine ⟨_, rfl, ?_, ?_, ?_, ?_, ?_, ?_, ?_, ?_, ?_, ?_⟩
  · rw [finishIfDone_frame]; exact f2
  · rw [finishIfDone_frame]; exact f3
  · rw [finishIfDone_frame]; exact f4
  · rw [finishIfDone_frame]
  · rw [finishIfDone_frame]; exact hls ▸ hil
  · rw [finishIfDone_frame]; exact f5.trans hhold
  · rw [finishIfDone_frame]; exact c1
  · rw [finishIfDone_frame]; exact c2
  · rw [finishIfDone_frame]
  · simp only [finishIfDone]
    split
    · rfl
    · exact f7.trans (hrun hfresh)

theorem ProcessAction_ActWait (t : ScriptHost) (d : Str) (D : Int) (hstoi : stoi d = .ok D) :
    ProcessAction ActWait [d] t =
      if toI64 (sub64 t.m_uiCurrentMs
          (if t.m_uiWaitMs = 0 then t.m_uiCurrentMs else t.m_uiWaitMs)) < D then
        .ok (.Waiting,
          { t with m_uiWaitMs := if t.m_uiWaitMs = 0 then t.m_uiCurrentMs else t.m_uiWaitMs })
      else .ok (.Finished, { t with m_uiWaitMs := 0 }) := by
  have hv : vecAt [d] 0 = .ok d := rfl
  have h0 : ¬ (ActWait = ActSetTimeoutMs) := by decide
  have h1 : ¬ (ActWait = ActSetQuitOnTimeout) := by decide
  have h2 : ¬ (ActWait = ActLog) := by decide
  unfold ProcessAction
  simp only [h0, h1, h2, if_false, if_true, hv, hstoi, bind, Except.bind, pure, Except.pure]
  by_cases hw : t.m_uiWaitMs = 0
  · simp only [hw, if_true]
  · simp only [hw, if_false]

theorem resolveStep_running (t s1 : ScriptHost) (h : resolveStep t = .ok s1)
    (hr : t.m_state = .Running) : s1.m_state = .Running := by
  unfold resolveStep at h
  split at h
  · rw [ParseLine_frame _ _ _ h]
  · cases h
    exact hr

theorem engine_tick_waiting (env : Clients) (iGuestUs : Int) (s : ScriptHost)
    (h : IScriptable) (d : Str) (D : Int) (base : Nat)
    (hat : AtLine s h ActWait [d]) (hh : h.addr = s.this) (hstoi : stoi d = .ok D)
    (hcyc : s.m_iTimeoutCycles < 0)
    (hbase : base = if s.m_uiWaitMs = 0 then toU64 (Int.tdiv iGuestUs 1000) else s.m_uiWaitMs)
    (hlt : toI64 (sub64 (toU64 (Int.tdiv iGuestUs 1000)) base) < D) :
    ∃ s', OnMachineCycle env iGuestUs s = .ok s' ∧ AtLine s' h ActWait [d] ∧
      s'.this = s.this ∧ s'.m_iLine = s.m_iLine ∧ s'.m_script = s.m_script ∧
      s'.m_bIsExecHold = s.m_bIsExecHold ∧ s'.m_iTimeoutCycles = s.m_iTimeoutCycles ∧
      s'.m_uiWaitMs = base ∧ s'.m_eCmdStatus = .TermWaiting ∧
      s'.lineState.iLine = s'.m_iLine ∧ s'.m_state ≠ .Idle ∧
      (s.m_state = .Running → s'.m_state = .Running) := by
  have hcur := AtLine_cursor s h _ _ hat
  obtain ⟨s1, hres, hv, hp, hid, hargs, hil, hst, hrun, hat1⟩ :=
    AtLine_resolve iGuestUs s h _ _ hat
  have hfr := resolveStep_frame _ _ hres
  have hthis : h.addr = s1.this := by rw [hfr]; exact hh
  have e1 : s1.m_uiWaitMs = s.m_uiWaitMs := by rw [hfr]; rfl
  have e2 : s1.m_uiCurrentMs = toU64 (Int.tdiv iGuestUs 1000) := by rw [hfr]; rfl
  have e3 : s1.m_iTimeoutCycles = s.m_iTimeoutCycles := by rw [hfr]; rfl
  have e4 : s1.m_iLine = s.m_iLine := by rw [hfr]; rfl
  have hcall := callAction_engine env h ActWait [d] s1 hthis
  rw [ProcessAction_ActWait _ d D hstoi] at hcall
  simp only [e1, e2, ← hbase, hlt, if_true] at hcall
  rw [← hid, ← hargs] at hcall
  rw [OnMachineCycle_valid env iGuestUs s s1 _ h _ hcur hres hv hp hcall]
  have hsw : ∀ t, switchResult env s.m_script.length .Waiting t
      = .ok (caseWaiting s.m_script.length t) := fun _ => rfl
  rw [hsw, caseWaiting_unset _ _ (by simpa [e3] using hcyc)]
  simp only [bind, Except.bind, pure, Except.pure, Bool.false_eq_true, if_false]
  rw [finishIfDone_of_lt _ _ (by simpa [e4] using hcur)]
  refine ⟨_, rfl, hat1, ?_, e4, ?_, ?_, e3, rfl, rfl, ?_, hst,
    fun hr => resolveStep_running (setClock iGuestUs s) s1 hres hr⟩
  · rw [hfr]; rfl
  · rw [hfr]; rfl
  · rw [hfr]; rfl
  · exact hil.trans e4.symm

theorem engine_tick_wait_done (env : Clients) (iGuestUs : Int) (s : ScriptHost)
    (h : IScriptable) (d : Str) (D : Int) (base : Nat)
    (hat : AtLine s h ActWait [d]) (hh : h.addr = s.this) (hstoi : stoi d = .ok D)
    (hhold : s.m_bIsExecHold = false)
    (hbase : base = if s.m_uiWaitMs = 0 then toU64 (Int.tdiv iGuestUs 1000) else s.m_uiWaitMs)
    (hge : ¬ toI64 (sub64 (toU64 (Int.tdiv iGuestUs 1000)) base) < D) :
    ∃ s', OnMachineCycle env iGuestUs s = .ok s' ∧
      s'.this = s.this ∧ s'.m_iLine = s.m_iLine + 1 ∧ s'.m_script = s.m_script ∧
      s'.m_uiWaitMs = 0 ∧ s'.m_eCmdStatus = .TermSuccess ∧
      (s.m_iLine + 1 = s.m_script.length → s'.m_state = .Finished) := by
  have hcur := AtLine_cursor s h _ _ hat
  have hsize := hat.1
  obtain ⟨s1, hres, hv, hp, hid, hargs, hil, hst, hrun, hat1⟩ :=
    AtLine_resolve iGuestUs s h _ _ hat
  have hfr := resolveStep_frame _ _ hres
  have hthis : h.addr = s1.this := by rw [hfr]; exact hh
  have e1 : s1.m_uiWaitMs = s.m_uiWaitMs := by rw [hfr]; rfl
  have e2 : s1.m_uiCurrentMs = toU64 (Int.tdiv iGuestUs 1000) := by rw [hfr]; rfl
  have e4 : s1.m_iLine = s.m_iLine := by rw [hfr]; rfl
  have e5 : s1.m_bIsExecHold = false := by rw [hfr]; exact hhold
  have hmod : (s.m_iLine + 1) % UINT_MOD = s.m_iLine + 1 :=
    Nat.mod_eq_of_lt (by unfold UINT_MOD; omega)
  have hcall := callAction_engine env h ActWait [d] s1 hthis
  rw [ProcessAction_ActWait _ d D hstoi] at hcall
  simp only [e1, e2, ← hbase, hge, if_false] at hcall
  rw [← hid, ← hargs] at hcall
  have hex : ∃ s2, callAction env h s1.lineState.iActID s1.lineState.vArgs s1
      = .ok (LineStatus.Finished, s2) ∧ s2.m_uiWaitMs = 0 := ⟨_, hcall, rfl⟩
  clear hcall
  obtain ⟨s2, hcall, hw0⟩ := hex
  obtain ⟨f1, f2, f3, f4, f5, f6, f7, f8, f9⟩ := prelude_fields _ _ _ _ _ _ _ _ _ hres hcall
  rw [OnMachineCycle_valid env iGuestUs s s1 s2 h _ hcur hres hv hp hcall,
    switchResult_finished_nohold env _ s2 (f5.trans hhold)]
  simp only [bind, Except.bind, pure, Except.pure, Bool.false_eq_true, if_false, f1, hmod]
  refine ⟨_, rfl, ?_, ?_, ?_, ?_, ?_, ?_⟩
  · rw [finishIfDone_frame]; exact f4
  · rw [finishIfDone_frame]
  · rw [finishIfDone_frame]; exact f2
  · rw [finishIfDone_frame]; exact hw0
  · rw [finishIfDone_frame]
  · intro hl
    simp only [finishIfDone, hl, if_true]

/-! ### `SetTimeoutMs` -/

/-- C11 (amended): for a non-negative `time_ms` (the value `std::stoi` reads from the
argument) and an event frequency `freq`, `SetTimeoutMs(time_ms)` finishes, sets the
timeout-in-cycles to `time_ms * (freq / 1000)` - the frequency is divided by 1000 first,
rounding down, and then multiplied - whenever that number fits an `int`, and resets the
timeout counter to 0.  When `freq` is a multiple of 1000 this is `time_ms * freq / 1000`. -/
theorem SetTimeoutMs_cycles (s : ScriptHost) (arg : Str) (time_ms : Nat)
    (hstoi : stoi arg = .ok (time_ms : Int))
    (hfit : time_ms * (s.m_uiAVRFreq / 1000) < 2 ^ 31) :
    ∃ s', ProcessAction ActSetTimeoutMs [arg] s = .ok (.Finished, s') ∧
      s'.m_iTimeoutCycles = ((time_ms * (s.m_uiAVRFreq / 1000) : Nat) : Int) ∧
      s'.m_iTimeoutCount = 0 ∧
      (1000 ∣ s.m_uiAVRFreq →
        s'.m_iTimeoutCycles = ((time_ms * s.m_uiAVRFreq / 1000 : Nat) : Int)) := by
  refine ⟨_, SetTimeoutMs_general s arg time_ms hstoi hfit, rfl, rfl, ?_⟩
  intro hdvd
  show ((time_ms * (s.m_uiAVRFreq / 1000) : Nat) : Int) = _
  rw [Nat.mul_div_assoc _ hdvd]

/-- Witness of `SetTimeoutMs_cycles`: 100 ms at frequency 1000 gives 100 cycles. -/
theorem SetTimeoutMs_cycles_witness :
    ∃ s', ProcessAction ActSetTimeoutMs ["100".toList] (demo [] 1000) = .ok (.Finished, s') ∧
      s'.m_iTimeoutCycles = ((100 * ((demo [] 1000).m_uiAVRFreq / 1000) : Nat) : Int) ∧
      s'.m_iTimeoutCount = 0 ∧
      (1000 ∣ (demo [] 1000).m_uiAVRFreq →
        s'.m_iTimeoutCycles = ((100 * (demo [] 1000).m_uiAVRFreq / 1000 : Nat) : Int)) :=
  SetTimeoutMs_cycles (demo [] 1000) "100".toList 100 (by decide) (by decide)

/-- C11 as stated fails: at the event frequency 1500, `SetTimeoutMs(100)` sets the
timeout to 100 cycles, while `100 * 1500 / 1000` is 150. -/
theorem SetTimeoutMs_not_product :
    (demo [] 1500).m_uiAVRFreq = 1500 ∧
    (ProcessAction ActSetTimeoutMs ["100".toList] (demo [] 1500)).map
      (fun r => (r.1, r.2.m_iTimeoutCycles, r.2.m_iTimeoutCount))
      = .ok (LineStatus.Finished, 100, 0) ∧
    (ProcessAction ActSetTimeoutMs ["100".toList] (demo [] 1500)).map
      (fun r => r.2.m_iTimeoutCycles) ≠ .ok ((100 * 1500 / 1000 : Nat) : Int) := by
  decide

/-! ### The scenario of the three built-in lines -/

theorem clock_ms (t0 k : Nat) (h : t0 + 10000 * k < 2 ^ 63) :
    toU64 (Int.tdiv ((t0 + 10000 * k : Nat) : Int) 1000) = t0 / 1000 + 10 * k := by
  have e : Int.tdiv ((t0 + 10000 * k : Nat) : Int) 1000
      = (((t0 + 10000 * k) / 1000 : Nat) : Int) := by
    rw [Int.tdiv_eq_ediv (by omega) (by norm_num)]
    rfl
  rw [e]
  unfold toU64 SIZE_MOD
  have e2 : ((2 ^ 64 : Nat) : Int) = 18446744073709551616 := by norm_num
  rw [e2]
  omega

theorem wait_diff (T a : Nat) (hT : T + a < 2 ^ 63) (h20 : 20 ≤ a) :
    toI64 (sub64 (T + a) (T + 20)) = ((a - 20 : Nat) : Int) := by
  rw [sub64_of_le _ _ (by omega) (by omega)]
  have e : T + a - (T + 20) = a - 20 := by omega
  rw [e]
  unfold toI64 SIZE_MOD
  have hm : (a - 20) % 2 ^ 64 = a - 20 := Nat.mod_eq_of_lt (by omega)
  rw [hm, if_pos (by omega)]

theorem everyTenMs_succ (env : Nat → Clients) (t0 n : Nat) :
    everyTenMs env t0 (n + 1)
      = everyTenMs env t0 n ++ [(env n, ((t0 + 10000 * n : Nat) : Int))] := by
  unfold everyTenMs
  rw [List.range_succ, List.map_append]
  rfl

theorem runTicks_everyTenMs_succ (env : Nat → Clients) (t0 n : Nat) (s sn s' : ScriptHost)
    (h : runTicks (everyTenMs env t0 n) s = .ok sn)
    (hstep : OnMachineCycle (env n) ((t0 + 10000 * n : Nat) : Int) sn = .ok s') :
    runTicks (everyTenMs env t0 (n + 1)) s = .ok s' := by
  rw [everyTenMs_succ, runTicks_append, h]
  simp only [bind, Except.bind, runTicks, hstep, pure, Except.pure]

theorem builtin_AtLine (s : ScriptHost) (this : Nat) (line : Str) (p : LineParts_t)
    (ID : Nat) (vTypes : List ArgType)
    (hscript : s.m_script = builtinScript)
    (hclients : s.m_clients = [(hostName, some (hostObject this))])
    (hline : builtinScript.get? s.m_iLine = some line) (hp : GetLineParts line = .ok p)
    (hv : p.isValid = true) (hctx : p.strCtxt = hostName)
    (hact : mapFind (hostObject this).m_ActionIDs p.strAct = some ID)
    (htypes : mapFind (hostObject this).m_ActionArgs ID = some vTypes)
    (hlen : p.vArgs.length = vTypes.length)
    (hfresh : s.lineState.iLine ≠ s.m_iLine ∨ s.m_state = .Idle) :
    AtLine s (hostObject this) ID p.vArgs := by
  refine ⟨?_, line, p, ?_, hp, ⟨hv, ?_, hact, vTypes, htypes, hlen⟩, rfl, Or.inl hfresh⟩
  · rw [hscript]; decide
  · rw [hscript]; exact hline
  · rw [hclients, hctx]; rfl

theorem builtin_wait_tick (env : Clients) (this t0 k : Nat) (s : ScriptHost)
    (hk : 2 ≤ k) (hk6 : k ≤ 6) (ht0 : t0 + 70000 < 2 ^ 63)
    (hat : AtLine s (hostObject this) ActWait ["50".toList]) (hthis : s.this = this)
    (hcyc : s.m_iTimeoutCycles < 0)
    (hw : s.m_uiWaitMs = if k = 2 then 0 else t0 / 1000 + 20)
    (hline : s.m_iLine = 2) (hrun : s.m_state = .Running)
    (hhold : s.m_bIsExecHold = false) (hscript : s.m_script = builtinScript) :
    ∃ s', OnMachineCycle env ((t0 + 10000 * k : Nat) : Int) s = .ok s' ∧
      AtLine s' (hostObject this) ActWait ["50".toList] ∧ s'.this = this ∧
      s'.m_iTimeoutCycles < 0 ∧ s'.m_uiWaitMs = t0 / 1000 + 20 ∧ s'.m_iLine = 2 ∧
      s'.m_state = .Running ∧ s'.m_bIsExecHold = false ∧ s'.m_script = builtinScript ∧
      s'.m_eCmdStatus = .TermWaiting := by
  have hclock := clock_ms t0 k (by omega)
  have hbase : t0 / 1000 + 20
      = if s.m_uiWaitMs = 0 then toU64 (Int.tdiv ((t0 + 10000 * k : Nat) : Int) 1000)
        else s.m_uiWaitMs := by
    rw [hw, hclock]
    by_cases h2 : k = 2
    · subst h2
      simp
    · rw [if_neg h2, if_neg (by omega)]
  have hlt : toI64 (sub64 (toU64 (Int.tdiv ((t0 + 10000 * k : Nat) : Int) 1000))
      (t0 / 1000 + 20)) < 50 := by
    rw [hclock, wait_diff _ _ (by omega) (by omega)]
    omega
  obtain ⟨s', h, a1, a2, a3, a4, a5, a6, a7, a8, a9, a10, a11⟩ :=
    engine_tick_waiting env _ s (hostObject this) "50".toList 50 (t0 / 1000 + 20) hat
      (by rw [hthis]; rfl) (by decide) hcyc hbase hlt
  exact ⟨s', h, a1, a2.trans hthis, by rw [a6]; exact hcyc, a7, a3.trans hline, a11 hrun,
    a5.trans hhold, a4.trans hscript, a8⟩

theorem builtin_quit_finishes (t : ScriptHost) :
    ∃ t', ProcessAction ActSetQuitOnTimeout ["0".toList] t = .ok (.Finished, t') ∧
      t'.m_iTimeoutCycles = t.m_iTimeoutCycles ∧ t'.m_uiWaitMs = t.m_uiWaitMs :=
  ⟨_, rfl, rfl, rfl⟩

theorem builtin_log_finishes (t : ScriptHost) :
    ∃ t', ProcessAction ActLog ["hello".toList] t = .ok (.Finished, t') ∧
      t'.m_iTimeoutCycles = t.m_iTimeoutCycles ∧ t'.m_uiWaitMs = t.m_uiWaitMs :=
  ⟨_, rfl, rfl, rfl⟩

theorem builtin_two_ticks (this freq t0 : Nat) (env : Nat → Clients) :
    ∃ s1 s2, runTicks (everyTenMs env t0 1) (builtinStart this freq) = .ok s1 ∧
      s1.m_iLine = 1 ∧ s1.m_eCmdStatus = .TermSuccess ∧ s1.m_state = .Running ∧
      runTicks (everyTenMs env t0 2) (builtinStart this freq) = .ok s2 ∧
      s2.m_iLine = 2 ∧ s2.m_eCmdStatus = .TermSuccess ∧ s2.m_state = .Running ∧
      s2.m_script = builtinScript ∧ s2.m_clients = [(hostName, some (hostObject this))] ∧
      s2.this = this ∧ s2.lineState.iLine = 1 ∧ s2.m_bIsExecHold = false ∧
      s2.m_iTimeoutCycles = -1 ∧ s2.m_uiWaitMs = 0 := by
  have hat0 : AtLine (builtinStart this freq) (hostObject this) ActSetQuitOnTimeout
      ["0".toList] :=
    builtin_AtLine (builtinStart this freq) this "ScriptHost::SetQuitOnTimeout(0)".toList
      (LineParts_t.mk true hostName "SetQuitOnTimeout".toList ["0".toList])
      ActSetQuitOnTimeout [ArgType.Bool] rfl rfl rfl (by decide) rfl rfl rfl rfl rfl
      (Or.inr rfl)
  obtain ⟨s1, h1, a1, b1, c1, d1, e1, f1, g1, i1, j1, k1⟩ :=
    engine_tick_finished (env 0) ((t0 + 10000 * 0 : Nat) : Int) _ _ _ _ hat0 rfl (Or.inr rfl)
      rfl builtin_quit_finishes
  have a1' : s1.m_script = builtinScript := a1
  have b1' : s1.m_clients = [(hostName, some (hostObject this))] := b1
  have c1' : s1.this = this := c1
  have d1' : s1.m_iLine = 1 := d1
  have e1' : s1.lineState.iLine = 0 := e1
  have g1' : s1.m_iTimeoutCycles = -1 := g1
  have i1' : s1.m_uiWaitMs = 0 := i1
  have k1' : s1.m_state = .Running := k1
  have r1 := runTicks_everyTenMs_succ env t0 0 (builtinStart this freq) _ s1 rfl h1
  have hat1 : AtLine s1 (hostObject this) ActLog ["hello".toList] :=
    builtin_AtLine s1 this "ScriptHost::Log(hello)".toList
      (LineParts_t.mk true hostName "Log".toList ["hello".toList])
      ActLog [ArgType.String] a1' b1' (by rw [d1']; rfl) (by decide) rfl rfl rfl rfl rfl
      (Or.inl (by rw [e1', d1']; decide))
  obtain ⟨s2, h2, a2, b2, c2, d2, e2, f2, g2, i2, j2, k2⟩ :=
    engine_tick_finished (env 1) ((t0 + 10000 * 1 : Nat) : Int) s1 _ _ _ hat1
      (by rw [c1']; rfl) (Or.inl (by rw [e1', d1']; decide)) f1 builtin_log_finishes
  have r2 := runTicks_everyTenMs_succ env t0 1 (builtinStart this freq) s1 s2 r1 h2
  rw [d1', a1'] at k2
  refine ⟨s1, s2, r1, d1', j1, k1', r2, by rw [d2, d1'], j2, k2, a2.trans a1', b2.trans b1',
    c2.trans c1', e2.trans d1', f2, g2.trans g1', i2.trans i1'⟩

/-- C12 (amended): the three-line script `SetQuitOnTimeout(0)`, `Log(hello)`,
`WaitMs(50)`, each line addressed to the engine's own context, run from the idle state
with ticks 10 ms of simulated time apart (the first at any time `t0`): line 0 completes
on tick 1 and line 1 on tick 2; line 2 reports `Waiting` on exactly 5 ticks (ticks 3 to
7: the wait is measured from the first tick spent on the line, so 0, 10, 20, 30 and 40 ms
have elapsed) and `Finished` on the 6th tick spent on it (tick 8, 50 ms elapsed); the
final state is `Finished` with the cursor at the script length. -/
theorem builtin_script_run (this freq t0 : Nat) (env : Nat → Clients)
    (ht0 : t0 + 70000 < 2 ^ 63) :
    (∃ s, runTicks (everyTenMs env t0 1) (builtinStart this freq) = .ok s ∧
      s.m_iLine = 1 ∧ s.m_eCmdStatus = .TermSuccess ∧ s.m_state = .Running) ∧
    (∃ s, runTicks (everyTenMs env t0 2) (builtinStart this freq) = .ok s ∧
      s.m_iLine = 2 ∧ s.m_eCmdStatus = .TermSuccess ∧ s.m_state = .Running) ∧
    (∀ n, 3 ≤ n → n ≤ 7 →
      ∃ s, runTicks (everyTenMs env t0 n) (builtinStart this freq) = .ok s ∧
        s.m_iLine = 2 ∧ s.m_eCmdStatus = .TermWaiting ∧ s.m_state = .Running) ∧
    (∃ s, runTicks (everyTenMs env t0 8) (builtinStart this freq) = .ok s ∧
      s.m_iLine = 3 ∧ s.m_iLine = s.m_script.length ∧ s.m_eCmdStatus = .TermSuccess ∧
      s.m_state = .Finished) := by
  obtain ⟨s1, s2, r1, p1, p2, p3, r2, q1, q2, q3, q4, q5, q6, q7, q8, q9, q10⟩ :=
    builtin_two_ticks this freq t0 env
  have hat2 : AtLine s2 (hostObject this) ActWait ["50".toList] :=
    builtin_AtLine s2 this "ScriptHost::WaitMs(50)".toList
      (LineParts_t.mk true hostName "WaitMs".toList ["50".toList])
      ActWait [ArgType.Int] q4 q5 (by rw [q1]; rfl) (by decide) rfl rfl rfl rfl rfl
      (Or.inl (by rw [q7, q1]; decide))
  obtain ⟨s3, h3, a3, b3, c3, d3, e3, f3, g3, i3, j3⟩ :=
    builtin_wait_tick (env 2) this t0 2 s2 (by omega) (by omega) ht0 hat2 q6
      (by rw [q9]; decide) (by rw [q10]; rfl) q1 q3 q8 q4
  obtain ⟨s4, h4, a4, b4, c4, d4, e4, f4, g4, i4, j4⟩ :=
    builtin_wait_tick (env 3) this t0 3 s3 (by omega) (by omega) ht0 a3 b3 c3
      (by rw [d3]; rfl) e3 f3 g3 i3
  obtain ⟨s5, h5, a5, b5, c5, d5, e5, f5, g5, i5, j5⟩ :=
    builtin_wait_tick (env 4) this t0 4 s4 (by omega) (by omega) ht0 a4 b4 c4
      (by rw [d4]; rfl) e4 f4 g4 i4
  obtain ⟨s6, h6, a6, b6, c6, d6, e6, f6, g6, i6, j6⟩ :=
    builtin_wait_tick (env 5) this t0 5 s5 (by omega) (by omega) ht0 a5 b5 c5
      (by rw [d5]; rfl) e5 f5 g5 i5
  obtain ⟨s7, h7, a7, b7, c7, d7, e7, f7, g7, i7, j7⟩ :=
    builtin_wait_tick (env 6) this t0 6 s6 (by omega) (by omega) ht0 a6 b6 c6
      (by rw [d6]; rfl) e6 f6 g6 i6
  have r3 := runTicks_everyTenMs_succ env t0 2 _ s2 s3 r2 h3
  have r4 := runTicks_everyTenMs_succ env t0 3 _ s3 s4 r3 h4
  have r5 := runTicks_everyTenMs_succ env t0 4 _ s4 s5 r4 h5
  have r6 := runTicks_everyTenMs_succ env t0 5 _ s5 s6 r5 h6
  have r7 := runTicks_everyTenMs_succ env t0 6 _ s6 s7 r6 h7
  have hclock := clock_ms t0 7 (by omega)
  have hbase : t0 / 1000 + 20
      = if s7.m_uiWaitMs = 0 then toU64 (Int.tdiv ((t0 + 10000 * 7 : Nat) : Int) 1000)
        else s7.m_uiWaitMs := by
    rw [d7, if_neg (by omega)]
  have hge : ¬ toI64 (sub64 (toU64 (Int.tdiv ((t0 + 10000 * 7 : Nat) : Int) 1000))
      (t0 / 1000 + 20)) < 50 := by
    rw [hclock, wait_diff _ _ (by omega) (by omega)]
    omega
  obtain ⟨s8, h8, a8, b8, c8, d8, e8, f8⟩ :=
    engine_tick_wait_done (env 7) _ s7 (hostObject this) "50".toList 50 (t0 / 1000 + 20) a7
      (by rw [b7]; rfl) (by decide) g7 hbase hge
  have r8 := runTicks_everyTenMs_succ env t0 7 _ s7 s8 r7 h8
  refine ⟨⟨s1, r1, p1, p2, p3⟩, ⟨s2, r2, q1, q2, q3⟩, ?_,
    ⟨s8, r8, by rw [b8, e7], by rw [b8, e7, c8, i7]; rfl, e8,
      f8 (by rw [e7, i7]; rfl)⟩⟩
  intro n h3n hn7
  interval_cases n
  · exact ⟨s3, r3, e3, j3, f3⟩
  · exact ⟨s4, r4, e4, j4, f4⟩
  · exact ⟨s5, r5, e5, j5, f5⟩
  · exact ⟨s6, r6, e6, j6, f6⟩
  · exact ⟨s7, r7, e7, j7, f7⟩

/-- Witness of `builtin_script_run`: the engine at address 1, frequency 1000, the first
tick at time 0. -/
theorem builtin_script_run_witness :
    (∃ s, runTicks (everyTenMs (fun _ => always .Finished) 0 1) (builtinStart 1 1000) = .ok s ∧
      s.m_iLine = 1 ∧ s.m_eCmdStatus = .TermSuccess ∧ s.m_state = .Running) ∧
    (∃ s, runTicks (everyTenMs (fun _ => always .Finished) 0 2) (builtinStart 1 1000) = .ok s ∧
      s.m_iLine = 2 ∧ s.m_eCmdStatus = .TermSuccess ∧ s.m_state = .Running) ∧
    (∀ n, 3 ≤ n → n ≤ 7 →
      ∃ s, runTicks (everyTenMs (fun _ => always .Finished) 0 n) (builtinStart 1 1000) = .ok s ∧
        s.m_iLine = 2 ∧ s.m_eCmdStatus = .TermWaiting ∧ s.m_state = .Running) ∧
    (∃ s, runTicks (everyTenMs (fun _ => always .Finished) 0 8) (builtinStart 1 1000) = .ok s ∧
      s.m_iLine = 3 ∧ s.m_iLine = s.m_script.length ∧ s.m_eCmdStatus = .TermSuccess ∧
      s.m_state = .Finished) :=
  builtin_script_run 1 1000 0 (fun _ => always .Finished) (by decide)

/-- C12 as stated fails: with the ticks at 0, 10, ..., 70 ms, the tick that is the 5th
spent on line 2 (tick 7) still reports `Waiting` and leaves the cursor at line 2 with the
state `Running`; the line finishes on tick 8. -/
theorem builtin_fifth_tick_waits :
    (runTicks (everyTenMs (fun _ => always .Finished) 0 7) (builtinStart 1 1000)).map
      (fun s => (s.m_iLine, s.m_eCmdStatus, s.m_state))
      = .ok (2, TermStatus.TermWaiting, State.Running) ∧
    (runTicks (everyTenMs (fun _ => always .Finished) 0 7) (builtinStart 1 1000)).map
      (fun s => s.m_state) ≠ .ok State.Finished ∧
    (runTicks (everyTenMs (fun _ => always .Finished) 0 8) (builtinStart 1 1000)).map
      (fun s => (s.m_iLine, s.m_eCmdStatus, s.m_state))
      = .ok (3, TermStatus.TermSuccess, State.Finished) := by
  decide

/-! ## `CheckArg` and `ValidateScript` -/

theorem toU64_natCast (n : Nat) (h : n < 2 ^ 64) : toU64 (n : Int) = n := by
  unfold toU64 SIZE_MOD
  have e : ((2 ^ 64 : Nat) : Int) = 18446744073709551616 := by norm_num
  rw [e]
  omega

theorem fcnErr_ok (s : ScriptHost) (sMsg : Str) (i : Nat) (line : Str)
    (hlen : s.m_script.length ≤ 2 ^ 31) (hline : s.m_script.get? i = some line) :
    fcnErr s sMsg (toI32 i) = .ok (Report.mk sMsg (i : Int) line) := by
  have hi : i < s.m_script.length := (List.get?_eq_some.mp hline).1
  unfold fcnErr
  rw [toI32_of_lt i (by omega), toU64_natCast i (by omega), vecAt_of_get? _ _ _ hline]
  rfl

theorem checkArgs_spec (tiny : Str → Bool) (names : ArgType → Str) (s : ScriptHost)
    (i : Nat) (line : Str) (vArgs : List Str)
    (hlen : s.m_script.length ≤ 2 ^ 31) (hline : s.m_script.get? i = some line) :
    ∀ (ts : List ArgType) (j : Nat), j + ts.length ≤ vArgs.length →
      ∃ new : List Report,
        (∀ acc, checkArgs tiny names s i vArgs ts j acc
          = .ok (acc.1 && new.isEmpty, acc.2 ++ new)) ∧
        (new = [] ↔ ∀ k t v, ts.get? k = some t → vArgs.get? (j + k) = some v →
          CheckArg tiny t v = true) ∧
        ∀ r ∈ new, r.iLine = (i : Int) ∧ r.strLine = line := by
  intro ts
  induction ts with
  | nil =>
    intro j _
    refine ⟨[], ?_, ?_, ?_⟩
    · intro acc
      simp [checkArgs, pure, Except.pure]
    · simp
    · simp
  | cons t ts ih =>
    intro j hj
    have hjlt : j < vArgs.length := by simp only [List.length_cons] at hj; omega
    have hv : vecAt vArgs j = .ok (vArgs.get ⟨j, hjlt⟩) := vecAt_of_lt _ _ hjlt
    have hget : vArgs.get? j = some (vArgs.get ⟨j, hjlt⟩) := List.get?_eq_get hjlt
    obtain ⟨new', h1, h2, h3⟩ := ih (j + 1) (by simp only [List.length_cons] at hj; omega)
    have hshift : (∀ k t' v, (t :: ts).get? k = some t' → vArgs.get? (j + k) = some v →
          CheckArg tiny t' v = true) ↔
        (CheckArg tiny t (vArgs.get ⟨j, hjlt⟩) = true ∧
          ∀ k t' v, ts.get? k = some t' → vArgs.get? (j + 1 + k) = some v →
            CheckArg tiny t' v = true) := by
      constructor
      · intro h
        refine ⟨h 0 t _ rfl hget, ?_⟩
        intro k t' v hk hv'
        refine h (k + 1) t' v hk ?_
        rw [← hv']
        congr 1
        omega
      · rintro ⟨h0, hrest⟩ k t' v hk hv'
        cases k with
        | zero =>
          simp only [List.get?_cons_zero, Option.some.injEq] at hk
          rw [Nat.add_zero, hget] at hv'
          cases hv'
          rw [← hk]
          exact h0
        | succ k =>
          refine hrest k t' v hk ?_
          rw [← hv']
          congr 1
          omega
    by_cases hc : CheckArg tiny t (vArgs.get ⟨j, hjlt⟩) = true
    · refine ⟨new', ?_, ?_, h3⟩
      · intro acc
        rw [checkArgs]
        simp only [hv, bind, Except.bind, hc, Bool.not_true, Bool.false_eq_true, if_false]
        exact h1 acc
      · rw [hshift, h2]
        exact ⟨fun h => ⟨hc, h⟩, fun h => h.2⟩
    · have hr := fcnErr_ok s ("Conversion error, expected \"".toList ++ names t ++
          "\" but could not convert \"".toList ++ vArgs.get ⟨j, hjlt⟩ ++ "\"".toList)
        i line hlen hline
      refine ⟨Report.mk ("Conversion error, expected \"".toList ++ names t ++
          "\" but could not convert \"".toList ++ vArgs.get ⟨j, hjlt⟩ ++ "\"".toList)
        (i : Int) line :: new', ?_, ?_, ?_⟩
      · intro acc
        rw [checkArgs]
        simp only [hv, bind, Except.bind, hc, Bool.not_false, if_true, hr, h1]
        simp
      · rw [hshift]
        constructor
        · intro h
          cases h
        · intro h
          exact absurd h.1 hc
      · intro r hr'
        rcases List.mem_cons.mp hr' with h | h
        · rw [h]
          exact ⟨rfl, rfl⟩
        · exact h3 r h

theorem validateLine_spec (tiny : Str → Bool) (names : ArgType → Str) (s : ScriptHost)
    (i : Nat) (line : Str) (hreg : RegistryOK s)
    (hlen : s.m_script.length ≤ 2 ^ 31) (hline : s.m_script.get? i = some line) :
    ∃ new : List Report,
      (∀ acc, validateLine tiny names s acc i = .ok (acc.1 && new.isEmpty, acc.2 ++ new)) ∧
      (new = [] ↔ LineOK tiny s line) ∧
      (∀ r ∈ new, r.iLine = (i : Int) ∧ r.strLine = line) ∧
      (∀ p c ID vTypes, GetLineParts line = .ok p → p.isValid = true →
        mapFind s.m_clients p.strCtxt = some (some c) →
        mapFind c.m_ActionIDs p.strAct = some ID →
        mapFind c.m_ActionArgs ID = some vTypes → p.vArgs.length ≠ vTypes.length →
        new = [Report.mk
          ("Argument count mismatch, expected ".toList ++ to_string vTypes.length)
          (i : Int) line]) := by
  obtain ⟨p, hp⟩ := GetLineParts_total line
  have hget := vecAt_of_get? _ _ _ hline
  have single : ∀ (msg : Str),
      (∀ acc : Bool × List Report,
        (Except.ok (false, acc.2 ++ [Report.mk msg (i : Int) line]) :
            Except Exn (Bool × List Report))
          = .ok (acc.1 && [Report.mk msg (i : Int) line].isEmpty,
              acc.2 ++ [Report.mk msg (i : Int) line])) ∧
      (∀ r ∈ [Report.mk msg (i : Int) line], r.iLine = (i : Int) ∧ r.strLine = line) := by
    intro msg
    refine ⟨fun acc => by simp, ?_⟩
    intro r hr
    rw [List.mem_singleton.mp hr]
    exact ⟨rfl, rfl⟩
  by_cases hv : p.isValid = true
  swap
  · -- the line does not parse
    have hv' : p.isValid = false := by simpa using hv
    refine ⟨[Report.mk "Parse error: Line is not of the form Context::Action([arg1,arg2,...])".toList
      (i : Int) line], ?_, ?_, (single _).2, ?_⟩
    · intro acc
      unfold validateLine
      simp only [hget, hp, bind, Except.bind, hv', Bool.not_false, if_true,
        fcnErr_ok s _ i line hlen hline, pure, Except.pure]
      exact (single _).1 acc
    · constructor
      · intro h; cases h
      · rintro ⟨p', _, _, _, h1, h2, _⟩
        rw [hp] at h1
        cases h1
        exact absurd h2 hv
    · intro p' _ _ _ h1 h2
      rw [hp] at h1
      cases h1
      exact absurd h2 hv
  rcases hcl : mapFind s.m_clients p.strCtxt with _ | e
  · -- unknown context
    refine ⟨[Report.mk ("Unknown context ".toList ++ p.strCtxt)
      (i : Int) line], ?_, ?_, (single _).2, ?_⟩
    · intro acc
      unfold validateLine
      simp only [hget, hp, bind, Except.bind, hv, Bool.not_true, Bool.false_eq_true, if_false,
        hcl, fcnErr_ok s _ i line hlen hline, pure, Except.pure]
      exact (single _).1 acc
    · constructor
      · intro h; cases h
      · rintro ⟨p', _, _, _, h1, _, h3, _⟩
        rw [hp] at h1
        cases h1
        rw [hcl] at h3
        cases h3
    · intro p' _ _ _ h1 _ h3
      rw [hp] at h1
      cases h1
      rw [hcl] at h3
      cases h3
  obtain ⟨c, hc, hargsOK⟩ := hreg _ _ hcl
  subst hc
  rcases hact : mapFind c.m_ActionIDs p.strAct with _ | ID
  · -- unknown action
    refine ⟨[Report.mk ("Unknown action ".toList ++ p.strCtxt ++ "::".toList ++ p.strAct)
      (i : Int) line], ?_, ?_, (single _).2, ?_⟩
    · intro acc
      unfold validateLine
      simp only [hget, hp, bind, Except.bind, hv, Bool.not_true, Bool.false_eq_true, if_false,
        hcl, hact, fcnErr_ok s _ i line hlen hline, pure, Except.pure]
      exact (single _).1 acc
    · constructor
      · intro h; cases h
      · rintro ⟨p', c', _, _, h1, _, h3, h4, _⟩
        rw [hp] at h1
        cases h1
        rw [hcl] at h3
        cases h3
        rw [hact] at h4
        cases h4
    · intro p' c' _ _ h1 _ h3 h4
      rw [hp] at h1
      cases h1
      rw [hcl] at h3
      cases h3
      rw [hact] at h4
      cases h4
  obtain ⟨vTypes, htypes⟩ := hargsOK _ _ hact
  have hat : mapAt c.m_ActionArgs ID = .ok vTypes := by
    unfold mapAt
    rw [htypes]
  by_cases hcount : vTypes.length = p.vArgs.length
  swap
  · -- argument count mismatch
    refine ⟨[Report.mk ("Argument count mismatch, expected ".toList ++ to_string vTypes.length)
      (i : Int) line], ?_, ?_, (single _).2, ?_⟩
    · intro acc
      unfold validateLine
      simp only [hget, hp, bind, Except.bind, hv, Bool.not_true, Bool.false_eq_true, if_false,
        hcl, hact, hat, hcount, ne_eq, not_false_eq_true, if_true,
        fcnErr_ok s _ i line hlen hline, pure, Except.pure]
      exact (single _).1 acc
    · constructor
      · intro h; cases h
      · rintro ⟨p', c', ID', vT', h1, _, h3, h4, h5, h6, _⟩
        rw [hp] at h1
        cases h1
        rw [hcl] at h3
        cases h3
        rw [hact] at h4
        cases h4
        rw [htypes] at h5
        cases h5
        exact absurd h6.symm hcount
    · intro p' c' ID' vT' h1 _ h3 h4 h5 _
      rw [hp] at h1
      cases h1
      rw [hcl] at h3
      cases h3
      rw [hact] at h4
      cases h4
      rw [htypes] at h5
      cases h5
      rfl
  · -- the arguments are checked one by one
    obtain ⟨new, h1, h2, h3⟩ := checkArgs_spec tiny names s i line p.vArgs hlen hline vTypes 0
      (by omega)
    refine ⟨new, ?_, ?_, h3, ?_⟩
    · intro acc
      unfold validateLine
      simp only [hget, hp, bind, Except.bind, hv, Bool.not_true, Bool.false_eq_true, if_false,
        hcl, hact, hat, hcount, ne_eq, not_true_eq_false]
      exact h1 acc
    · rw [h2]
      constructor
      · intro h
        refine ⟨p, c, ID, vTypes, hp, hv, hcl, hact, htypes, hcount.symm, ?_⟩
        intro j t v ht hv'
        exact h j t v ht (by rw [Nat.zero_add]; exact hv')
      · rintro ⟨p', c', ID', vT', g1, _, g3, g4, g5, _, g7⟩ k t v ht hv'
        rw [hp] at g1
        cases g1
        rw [hcl] at g3
        cases g3
        rw [hact] at g4
        cases g4
        rw [htypes] at g5
        cases g5
        exact g7 k t v ht (by rw [Nat.zero_add] at hv'; exact hv')
    · intro p' c' ID' vT' g1 _ g3 g4 g5 g6
      rw [hp] at g1
      cases g1
      rw [hcl] at g3
      cases g3
      rw [hact] at g4
      cases g4
      rw [htypes] at g5
      cases g5
      exact absurd hcount.symm g6

theorem ValidateScript_fold (tiny : Str → Bool) (names : ArgType → Str) (s : ScriptHost)
    (hreg : RegistryOK s) (hlen : s.m_script.length ≤ 2 ^ 31) :
    ∀ n, n ≤ s.m_script.length →
      ∃ b reports,
        (List.range n).foldlM (validateLine tiny names s) (true, []) = .ok (b, reports) ∧
        (b = true ↔ ∀ i line, i < n → s.m_script.get? i = some line → LineOK tiny s line) ∧
        (∀ i line, i < n → s.m_script.get? i = some line → ¬ LineOK tiny s line →
          ∃ r ∈ reports, r.iLine = (i : Int) ∧ r.strLine = line) ∧
        (∀ r ∈ reports, ∃ i line, i < n ∧ s.m_script.get? i = some line ∧
          ¬ LineOK tiny s line ∧ r.iLine = (i : Int) ∧ r.strLine = line) ∧
        (∀ i line p c ID vTypes, i < n → s.m_script.get? i = some line →
          GetLineParts line = .ok p → p.isValid = true →
          mapFind s.m_clients p.strCtxt = some (some c) →
          mapFind c.m_ActionIDs p.strAct = some ID →
          mapFind c.m_ActionArgs ID = some vTypes → p.vArgs.length ≠ vTypes.length →
          Report.mk ("Argument count mismatch, expected ".toList ++ to_string vTypes.length)
            (i : Int) line ∈ reports) := by
  intro n
  induction n with
  | zero =>
    intro _
    refine ⟨true, [], rfl, ?_, ?_, ?_, ?_⟩
    · exact ⟨fun _ i line hi => absurd hi (Nat.not_lt_zero i), fun _ => rfl⟩
    · intro i line hi
      exact absurd hi (Nat.not_lt_zero i)
    · intro r hr
      cases hr
    · intro i line p c ID vTypes hi
      exact absurd hi (Nat.not_lt_zero i)
  | succ n ih =>
    intro hn
    obtain ⟨b, reports, hfold, hiff, hbad, hall, hcount⟩ := ih (by omega)
    have hnlt : n < s.m_script.length := by omega
    have hline : s.m_script.get? n = some (s.m_script.get ⟨n, hnlt⟩) := List.get?_eq_get hnlt
    obtain ⟨new, h1, h2, h3, h4⟩ :=
      validateLine_spec tiny names s n _ hreg hlen hline
    have hsame : ∀ line, s.m_script.get? n = some line → line = s.m_script.get ⟨n, hnlt⟩ := by
      intro line h
      rw [hline] at h
      cases h
      rfl
    refine ⟨b && new.isEmpty, reports ++ new, ?_, ?_, ?_, ?_, ?_⟩
    · rw [List.range_succ, List.foldlM_append, hfold]
      simp only [bind, Except.bind, List.foldlM, h1, pure, Except.pure]
    · rw [Bool.and_eq_true, List.isEmpty_iff, hiff, h2]
      constructor
      · rintro ⟨ha, hb⟩ i line hi hl
        rcases Nat.lt_succ_iff_lt_or_eq.mp hi with h | h
        · exact ha i line h hl
        · subst h
          rw [hsame line hl]
          exact hb
      · intro h
        exact ⟨fun i line hi hl => h i line (by omega) hl, h n _ (by omega) hline⟩
    · intro i line hi hl hnot
      rcases Nat.lt_succ_iff_lt_or_eq.mp hi with h | h
      · obtain ⟨r, hr, hr2⟩ := hbad i line h hl hnot
        exact ⟨r, List.mem_append_left _ hr, hr2⟩
      · subst h
        have hne : new ≠ [] := by
          intro he
          rw [hsame line hl] at hnot
          exact hnot (h2.mp he)
        obtain ⟨r, rest, hcons⟩ := List.exists_cons_of_ne_nil hne
        have hmem : r ∈ new := by rw [hcons]; exact List.mem_cons_self _ _
        refine ⟨r, List.mem_append_right _ hmem, ?_⟩
        rw [hsame line hl]
        exact h3 r hmem
    · intro r hr
      rcases List.mem_append.mp hr with h | h
      · obtain ⟨i, line, hi, rest⟩ := hall r h
        exact ⟨i, line, by omega, rest⟩
      · refine ⟨n, _, by omega, hline, ?_, h3 r h⟩
        intro hok
        rw [h2.mpr hok] at h
        cases h
    · intro i line p c ID vTypes hi hl g1 g2 g3 g4 g5 g6
      rcases Nat.lt_succ_iff_lt_or_eq.mp hi with h | h
      · exact List.mem_append_left _ (hcount i line p c ID vTypes h hl g1 g2 g3 g4 g5 g6)
      · subst h
        have hl' := hsame line hl
        subst hl'
        rw [h4 p c ID vTypes g1 g2 g3 g4 g5 g6]
        exact List.mem_append_right _ (List.mem_singleton.mpr rfl)

theorem mapFind_mem {κ α : Type} [DecidableEq κ] (m : List (κ × α)) (k : κ) (v : α)
    (h : mapFind m k = some v) : (k, v) ∈ m := by
  unfold mapFind at h
  rcases hf : m.find? (fun e => decide (e.1 = k)) with _ | e
  · rw [hf] at h
    cases h
  · rw [hf] at h
    cases h
    have h1 := List.find?_some hf
    have h2 := List.mem_of_find?_eq_some hf
    have h3 : e.1 = k := by simpa using h1
    rw [← h3]
    exact h2

theorem RegistryOK_of_check (s : ScriptHost) (h : registryCheck s = true) : RegistryOK s := by
  intro name e he
  have hmem := mapFind_mem _ _ _ he
  unfold registryCheck at h
  have h1 := List.all_eq_true.mp h _ hmem
  cases e with
  | none => simp at h1
  | some c =>
    refine ⟨c, rfl, ?_⟩
    intro act ID hact
    have h2 := List.all_eq_true.mp h1 _ (mapFind_mem _ _ _ hact)
    exact Option.isSome_iff_exists.mp h2

/-- C13: for every script (of at most 2^31 lines) and every registry as registration
leaves it, `ValidateScript` returns, and returns true if and only if every script line
parses, names a registered context, names an action registered in that context, has
exactly as many argument tokens as the action declares argument types, and every token
passes `CheckArg` against the declared type at its position.  An error on one line does
not stop the later lines from being checked: every line that fails is reported with its
0-based index and its text, whatever the lines before it, and only such lines are
reported. -/
theorem ValidateScript_iff (tiny : Str → Bool) (names : ArgType → Str) (s : ScriptHost)
    (hreg : RegistryOK s) (hlen : s.m_script.length ≤ 2 ^ 31) :
    ∃ b reports, ValidateScript tiny names s = .ok (b, reports) ∧
      (b = true ↔ ∀ i line, s.m_script.get? i = some line → LineOK tiny s line) ∧
      (∀ i line, s.m_script.get? i = some line → ¬ LineOK tiny s line →
        ∃ r ∈ reports, r.iLine = (i : Int) ∧ r.strLine = line) ∧
      (∀ r ∈ reports, ∃ i line, s.m_script.get? i = some line ∧ ¬ LineOK tiny s line ∧
        r.iLine = (i : Int) ∧ r.strLine = line) := by
  obtain ⟨b, reports, h, hiff, hbad, hall, _⟩ :=
    ValidateScript_fold tiny names s hreg hlen s.m_script.length (Nat.le_refl _)
  refine ⟨b, reports, h, ?_, ?_, ?_⟩
  · rw [hiff]
    exact ⟨fun g i line hl => g i line (List.get?_eq_some.mp hl).1 hl,
      fun g i line _ hl => g i line hl⟩
  · intro i line hl
    exact hbad i line (List.get?_eq_some.mp hl).1 hl
  · intro r hr
    obtain ⟨i, line, _, rest⟩ := hall r hr
    exact ⟨i, line, rest⟩

/-- Witness of `ValidateScript_iff`: the example engine with a four-line script. -/
theorem ValidateScript_iff_witness :
    RegistryOK (demo mismatchScript 1000) ∧
    ∃ b reports, ValidateScript (fun _ => false) demoNames (demo mismatchScript 1000)
        = .ok (b, reports) ∧
      (b = true ↔ ∀ i line, (demo mismatchScript 1000).m_script.get? i = some line →
        LineOK (fun _ => false) (demo mismatchScript 1000) line) ∧
      (∀ i line, (demo mismatchScript 1000).m_script.get? i = some line →
        ¬ LineOK (fun _ => false) (demo mismatchScript 1000) line →
        ∃ r ∈ reports, r.iLine = (i : Int) ∧ r.strLine = line) ∧
      (∀ r ∈ reports, ∃ i line, (demo mismatchScript 1000).m_script.get? i = some line ∧
        ¬ LineOK (fun _ => false) (demo mismatchScript 1000) line ∧
        r.iLine = (i : Int) ∧ r.strLine = line) :=
  ⟨RegistryOK_of_check _ (by decide),
    ValidateScript_iff (fun _ => false) demoNames (demo mismatchScript 1000)
      (RegistryOK_of_check _ (by decide)) (by decide)⟩

/-- C14: for every script line that parses and names a registered context and a
registered action whose declared argument-type list has length n, if the number of
argument tokens on the line differs from n then `ValidateScript` returns false and
reports, with that line's 0-based index and text, the error "Argument count mismatch,
expected n", n written in decimal (the script has at most 2^31 lines and the registry is
as registration leaves it). -/
theorem ValidateScript_count_mismatch (tiny : Str → Bool) (names : ArgType → Str)
    (s : ScriptHost) (i : Nat) (line : Str) (p : LineParts_t) (c : IScriptable) (ID : Nat)
    (vTypes : List ArgType)
    (hreg : RegistryOK s) (hlen : s.m_script.length ≤ 2 ^ 31)
    (hline : s.m_script.get? i = some line) (hp : GetLineParts line = .ok p)
    (hv : p.isValid = true) (hc : mapFind s.m_clients p.strCtxt = some (some c))
    (hact : mapFind c.m_ActionIDs p.strAct = some ID)
    (htypes : mapFind c.m_ActionArgs ID = some vTypes)
    (hne : p.vArgs.length ≠ vTypes.length) :
    ∃ reports, ValidateScript tiny names s = .ok (false, reports) ∧
      Report.mk ("Argument count mismatch, expected ".toList ++ (Nat.repr vTypes.length).toList)
        (i : Int) line ∈ reports := by
  obtain ⟨b, reports, h, hiff, _, _, hcount⟩ :=
    ValidateScript_fold tiny names s hreg hlen s.m_script.length (Nat.le_refl _)
  have hi : i < s.m_script.length := (List.get?_eq_some.mp hline).1
  have hb : b = false := by
    cases b with
    | false => rfl
    | true =>
      obtain ⟨p', c', ID', vT', g1, _, g3, g4, g5, g6, _⟩ := hiff.mp rfl i line hi hline
      rw [hp] at g1
      cases g1
      rw [hc] at g3
      cases g3
      rw [hact] at g4
      cases g4
      rw [htypes] at g5
      cases g5
      exact absurd g6 hne
  subst hb
  exact ⟨reports, h, hcount i line p c ID vTypes hi hline hp hv hc hact htypes hne⟩

/-- Witness of `ValidateScript_count_mismatch`: line 2 of the example script,
`Dev::Move(1,2)`, for the action `Move(int)`: the report reads "Argument count mismatch,
expected 1". -/
theorem ValidateScript_count_mismatch_witness :
    ∃ reports, ValidateScript (fun _ => false) demoNames (demo mismatchScript 1000)
        = .ok (false, reports) ∧
      Report.mk ("Argument count mismatch, expected ".toList ++ (Nat.repr [ArgType.Int].length).toList)
        ((2 : Nat) : Int) "Dev::Move(1,2)".toList ∈ reports :=
  ValidateScript_count_mismatch (fun _ => false) demoNames (demo mismatchScript 1000) 2
    "Dev::Move(1,2)".toList
    (LineParts_t.mk true "Dev".toList "Move".toList ["1".toList, "2".toList]) devObject 1
    [ArgType.Int] (RegistryOK_of_check _ (by decide)) (by decide) (by decide) (by decide)
    (by decide) (by decide) (by decide) (by decide) (by decide)

/-- C15 (amended): `CheckArg` accepts the text "12" for the types Int, uint32 and Bool
and the text "12.5" for the type Float; it also accepts "12.5" for the type Int,
because `std::stoi` converts the leading "12" and ignores the rest (a text such as
"x12.5", with no leading number, is rejected).  For every type and every text it returns
a boolean and never raises: the result is true exactly when the conversion of the type
(`std::stoi` for Int and Bool, `std::stof` for Float, `std::stoul` for uint32, none for
String) returns without an exception. -/
theorem CheckArg_accepts (tiny : Str → Bool) :
    CheckArg tiny .Int "12".toList = true ∧ CheckArg tiny .uint32 "12".toList = true ∧
    CheckArg tiny .Bool "12".toList = true ∧ CheckArg tiny .Float "12.5".toList = true ∧
    CheckArg tiny .Int "12.5".toList = true ∧ CheckArg tiny .Int "x12.5".toList = false ∧
    (∀ val, CheckArg tiny .Int val = true ↔ ∃ v, stoi val = .ok v) ∧
    (∀ val, CheckArg tiny .Bool val = true ↔ ∃ v, stoi val = .ok v) ∧
    (∀ val, CheckArg tiny .Float val = true ↔ stof tiny val = .ok ()) ∧
    (∀ val, CheckArg tiny .uint32 val = true ↔ ∃ v, stoul val = .ok v) ∧
    (∀ val, CheckArg tiny .String val = true) := by
  refine ⟨rfl, rfl, rfl, rfl, rfl, rfl, ?_, ?_, ?_, ?_, fun _ => rfl⟩
  · intro val
    unfold CheckArg
    cases stoi val <;> simp
  · intro val
    unfold CheckArg
    cases stoi val <;> simp
  · intro val
    unfold CheckArg
    cases stof tiny val <;> simp
  · intro val
    unfold CheckArg
    cases stoul val <;> simp

/-- C15 as stated fails: `CheckArg` does not reject the text "12.5" for the type Int;
`std::stoi` reads 12 from it. -/
theorem CheckArg_Int_accepts_fraction :
    stoi "12.5".toList = .ok 12 ∧
    CheckArg (fun _ => true) .Int "12.5".toList = true ∧
    CheckArg (fun _ => false) .Int "12.5".toList = true := by
  decide

/-! ## Registration and the menu tables -/

theorem mapFind_nil {κ α : Type} [DecidableEq κ] (k : κ) :
    mapFind ([] : List (κ × α)) k = none := rfl

theorem mapFind_cons {κ α : Type} [DecidableEq κ] (e : κ × α) (m : List (κ × α)) (k : κ) :
    mapFind (e :: m) k = if e.1 = k then some e.2 else mapFind m k := by
  unfold mapFind
  by_cases h : e.1 = k
  · simp [List.find?, h]
  · simp [List.find?, h]

theorem mapFind_mapSet_self {κ α : Type} [DecidableEq κ] (m : List (κ × α)) (k : κ) (v : α) :
    mapFind (mapSet m k v) k = some v := by
  induction m with
  | nil => simp [mapSet, mapFind_cons]
  | cons e m ih =>
    unfold mapSet
    by_cases h : e.1 = k
    · simp [h, mapFind_cons]
    · simp [h, mapFind_cons, ih]

theorem mapFind_mapSet_ne {κ α : Type} [DecidableEq κ] (m : List (κ × α)) (k k' : κ) (v : α)
    (hne : k' ≠ k) : mapFind (mapSet m k v) k' = mapFind m k' := by
  induction m with
  | nil => simp [mapSet, mapFind_cons, mapFind_nil, Ne.symm hne]
  | cons e m ih =>
    unfold mapSet
    by_cases h : e.1 = k
    · simp [h, mapFind_cons, Ne.symm hne]
    · simp [h, mapFind_cons, ih]

theorem mapFind_mapVals {κ α β : Type} [DecidableEq κ] (m : List (κ × α)) (g : α → β)
    (k : κ) : mapFind (m.map fun e => (e.1, g e.2)) k = (mapFind m k).map g := by
  induction m with
  | nil => rfl
  | cons e m ih =>
    rw [List.map_cons, mapFind_cons, mapFind_cons, ih]
    by_cases h : e.1 = k
    · simp [h]
    · simp [h]

theorem length_mapSet_new {κ α : Type} [DecidableEq κ] (m : List (κ × α)) (k : κ) (v : α)
    (h : mapFind m k = none) : (mapSet m k v).length = m.length + 1 := by
  induction m with
  | nil => rfl
  | cons e m ih =>
    rw [mapFind_cons] at h
    by_cases he : e.1 = k
    · simp [he] at h
    · simp only [he, if_false] at h
      unfold mapSet
      simp [he, ih h]

theorem writeObj_clients (a : Nat) (f : IScriptable → IScriptable) (s : ScriptHost)
    (k : Str) :
    mapFind (writeObj a f s).m_clients k
      = (mapFind s.m_clients k).map
          (fun e => e.map fun o => if o.addr = a then f o else o) :=
  mapFind_mapVals s.m_clients _ k

theorem writeObj_base2client (a : Nat) (f : IScriptable → IScriptable) (s : ScriptHost)
    (k : Nat) :
    mapFind (writeObj a f s).m_mMenuBase2Client k
      = (mapFind s.m_mMenuBase2Client k).map
          (fun e => e.map fun o => if o.addr = a then f o else o) :=
  mapFind_mapVals s.m_mMenuBase2Client _ k

theorem AddSubmenu_clients (src : IScriptable) (s : ScriptHost) :
    (AddSubmenu src s).m_clients = s.m_clients := by
  unfold AddSubmenu
  simp only
  split
  · rfl
  · split <;> rfl

theorem AddSubmenu_calls (src : IScriptable) (s : ScriptHost) :
    (AddSubmenu src s).calls = s.calls := by
  unfold AddSubmenu
  simp only
  split
  · rfl
  · split <;> rfl

theorem suffixLoop_registers (N : Str) (c : IScriptable) (s : ScriptHost) (j : Nat)
    (hj : j ≤ 20)
    (htaken : ∀ t, 1 ≤ t → t < j →
      ∃ o, mapFind s.m_clients (N ++ to_string t) = some (some o) ∧ o.addr ≠ c.addr)
    (hfree : mapFind s.m_clients (N ++ to_string j) = none) :
    ∀ d i, i + d + 1 = j →
      suffixLoop N c s (20 - i) i
        = (AddSubmenu (SetName (N ++ to_string j) c)
            (writeObj c.addr (SetName (N ++ to_string j))
              { s with m_clients := mapSet s.m_clients (N ++ to_string j) (some c) }),
           SetName (N ++ to_string j) c) := by
  intro d
  induction d with
  | zero =>
    intro i hi
    have h20 : 20 - i = (19 - i) + 1 := by omega
    have hij : i + 1 = j := by omega
    rw [h20, suffixLoop]
    simp only [hij, hfree]
  | succ d ih =>
    intro i hi
    have h20 : 20 - i = (19 - i) + 1 := by omega
    obtain ⟨o, ho, hne⟩ := htaken (i + 1) (by omega) (by omega)
    rw [h20, suffixLoop]
    simp only [ho, samePtr, hne, decide_False, Bool.false_eq_true, if_false]
    have h19 : 19 - i = 20 - (i + 1) := by omega
    rw [h19]
    exact ih (i + 1) (by omega)

theorem SetName_self (c : IScriptable) : SetName c.m_strName c = c := by
  cases c
  rfl

theorem effName_zero (N : Str) : effName N 0 = N := rfl

theorem effName_pos (N : Str) (j : Nat) (h : 1 ≤ j) : effName N j = N ++ to_string j := by
  unfold effName
  rw [if_neg (by omega)]

theorem AddScriptable_C_step (N : Str) (c : IScriptable) (s : ScriptHost) (j : Nat)
    (hj : j ≤ 20) (hN : c.m_strName = N)
    (htaken : ∀ i, i < j →
      ∃ o, mapFind s.m_clients (effName N i) = some (some o) ∧ o.addr ≠ c.addr)
    (hfree : mapFind s.m_clients (effName N j) = none) :
    (AddScriptable_C c s).2 = markRegistered (SetName (effName N j) c) ∧
    mapFind (AddScriptable_C c s).1.m_clients (effName N j)
      = some (some (markRegistered (SetName (effName N j) c))) ∧
    (∀ name o, mapFind s.m_clients name = some (some o) → o.addr ≠ c.addr →
      mapFind (AddScriptable_C c s).1.m_clients name = some (some o)) ∧
    (∀ name, name ≠ effName N j → mapFind s.m_clients name = none →
      mapFind (AddScriptable_C c s).1.m_clients name = none) := by
  rcases Nat.eq_zero_or_pos j with h0 | hpos
  · subst h0
    rw [effName_zero] at hfree ⊢
    subst hN
    have hA : AddScriptable c.m_strName c s
        = (AddSubmenu c { s with m_clients := mapSet s.m_clients c.m_strName (some c) }, c) := by
      unfold AddScriptable
      simp only [hfree]
    have hfind : ∀ k, mapFind (AddScriptable_C c s).1.m_clients k
        = (mapFind (mapSet s.m_clients c.m_strName (some c)) k).map
            (fun e => e.map fun o => if o.addr = c.addr then markRegistered o else o) := by
      intro k
      unfold AddScriptable_C
      simp only [hA]
      rw [writeObj_clients, AddSubmenu_clients]
    refine ⟨?_, ?_, ?_, ?_⟩
    · unfold AddScriptable_C
      simp only [hA, SetName_self]
    · rw [hfind, mapFind_mapSet_self, SetName_self]
      simp
    · intro name o ho hne
      have hk : name ≠ c.m_strName := by
        intro h
        rw [h, hfree] at ho
        cases ho
      rw [hfind, mapFind_mapSet_ne _ _ _ _ hk, ho]
      simp [hne]
    · intro name hk hnone
      rw [hfind, mapFind_mapSet_ne _ _ _ _ hk, hnone]
      rfl
  · rw [effName_pos N j hpos] at hfree ⊢
    obtain ⟨o0, ho0, hne0⟩ := htaken 0 hpos
    rw [effName_zero] at ho0
    have hloop := suffixLoop_registers N c s j hj
      (fun t ht1 htj => by
        obtain ⟨o, ho, hne⟩ := htaken t htj
        rw [effName_pos N t ht1] at ho
        exact ⟨o, ho, hne⟩) hfree (j - 1) 0 (by omega)
    have hA : AddScriptable c.m_strName c s
        = (AddSubmenu (SetName (N ++ to_string j) c)
            (writeObj c.addr (SetName (N ++ to_string j))
              { s with m_clients := mapSet s.m_clients (N ++ to_string j) (some c) }),
           SetName (N ++ to_string j) c) := by
      unfold AddScriptable
      rw [hN]
      simp only [ho0, samePtr, hne0, decide_False, Bool.not_false, if_true]
      exact hloop
    have hfind : ∀ k, mapFind (AddScriptable_C c s).1.m_clients k
        = ((mapFind (mapSet s.m_clients (N ++ to_string j) (some c)) k).map
            (fun e => e.map fun o =>
              if o.addr = c.addr then SetName (N ++ to_string j) o else o)).map
            (fun e => e.map fun o => if o.addr = c.addr then markRegistered o else o) := by
      intro k
      unfold AddScriptable_C
      simp only [hA]
      rw [writeObj_clients, AddSubmenu_clients, writeObj_clients]
    refine ⟨?_, ?_, ?_, ?_⟩
    · unfold AddScriptable_C
      simp only [hA]
    · rw [hfind, mapFind_mapSet_self]
      simp [SetName]
    · intro name o ho hne
      have hk : name ≠ N ++ to_string j := by
        intro h
        rw [h, hfree] at ho
        cases ho
      rw [hfind, mapFind_mapSet_ne _ _ _ _ hk, ho]
      simp [hne]
    · intro name hk hnone
      rw [hfind, mapFind_mapSet_ne _ _ _ _ hk, hnone]
      rfl

theorem to_string_inj20 :
    ∀ i j : Fin 21, to_string i.val = to_string j.val → i = j := by
  decide

theorem to_string_ne_nil20 : ∀ i : Fin 21, to_string i.val ≠ [] := by
  decide

theorem effName_inj (N : Str) (i j : Nat) (hi : i ≤ 20) (hj : j ≤ 20)
    (h : effName N i = effName N j) : i = j := by
  rcases Nat.eq_zero_or_pos i with hi0 | hipos
  · rcases Nat.eq_zero_or_pos j with hj0 | hjpos
    · omega
    · exfalso
      rw [hi0, effName_zero, effName_pos N j hjpos] at h
      have h2 : to_string j = [] := by
        have := congrArg List.length h
        simp only [List.length_append] at this
        exact List.length_eq_zero.mp (by omega)
      exact to_string_ne_nil20 ⟨j, by omega⟩ h2
  · rcases Nat.eq_zero_or_pos j with hj0 | hjpos
    · exfalso
      rw [hj0, effName_zero, effName_pos N i hipos] at h
      have h2 : to_string i = [] := by
        have := congrArg List.length h
        simp only [List.length_append] at this
        exact List.length_eq_zero.mp (by omega)
      exact to_string_ne_nil20 ⟨i, by omega⟩ h2
    · rw [effName_pos N i hipos, effName_pos N j hjpos] at h
      have h2 := List.append_cancel_left h
      have h3 := to_string_inj20 ⟨i, by omega⟩ ⟨j, by omega⟩ h2
      exact congrArg Fin.val h3

theorem registerAll_suffixes (N : Str) :
    ∀ (comps : List IScriptable) (j0 : Nat) (s : ScriptHost),
      j0 + comps.length ≤ 21 →
      (∀ c ∈ comps, c.m_strName = N) →
      comps.Pairwise (fun a b => a.addr ≠ b.addr) →
      (∀ i, i < j0 → ∃ o, mapFind s.m_clients (effName N i) = some (some o) ∧
        ∀ c ∈ comps, o.addr ≠ c.addr) →
      (∀ i, j0 ≤ i → i < j0 + comps.length → mapFind s.m_clients (effName N i) = none) →
      (registerAll comps s).2.length = comps.length ∧
      (∀ t c, comps.get? t = some c →
        (registerAll comps s).2.get? t
          = some (markRegistered (SetName (effName N (j0 + t)) c)) ∧
        mapFind (registerAll comps s).1.m_clients (effName N (j0 + t))
          = some (some (markRegistered (SetName (effName N (j0 + t)) c)))) ∧
      (∀ name o, mapFind s.m_clients name = some (some o) →
        (∀ c ∈ comps, o.addr ≠ c.addr) →
        mapFind (registerAll comps s).1.m_clients name = some (some o)) := by
  intro comps
  induction comps with
  | nil =>
    intro j0 s _ _ _ _ _
    refine ⟨rfl, ?_, ?_⟩
    · intro t c h
      cases h
    · intro name o h _
      exact h
  | cons c cs ih =>
    intro j0 s hlen hname hdist htaken hfree
    simp only [List.length_cons] at hlen hfree
    obtain ⟨hc_cs, hcs⟩ := List.pairwise_cons.mp hdist
    obtain ⟨F1, F2, F3, F4⟩ := AddScriptable_C_step N c s j0 (by omega)
      (hname c (List.mem_cons_self _ _))
      (fun i hi => by
        obtain ⟨o, ho, hne⟩ := htaken i hi
        exact ⟨o, ho, hne c (List.mem_cons_self _ _)⟩)
      (hfree j0 (Nat.le_refl _) (by omega))
    obtain ⟨I1, I2, I3⟩ := ih (j0 + 1) (AddScriptable_C c s).1 (by omega)
      (fun c' hc' => hname c' (List.mem_cons_of_mem _ hc')) hcs
      (fun i hi => by
        rcases Nat.lt_succ_iff_lt_or_eq.mp hi with h | h
        · obtain ⟨o, ho, hne⟩ := htaken i h
          exact ⟨o, F3 _ o ho (hne c (List.mem_cons_self _ _)),
            fun c' hc' => hne c' (List.mem_cons_of_mem _ hc')⟩
        · subst h
          exact ⟨_, F2, fun c' hc' => hc_cs c' hc'⟩)
      (fun i hi1 hi2 => by
        refine F4 _ ?_ (hfree i (by omega) (by omega))
        intro h
        have := effName_inj N i j0 (by omega) (by omega) h
        omega)
    refine ⟨?_, ?_, ?_⟩
    · simp only [registerAll, List.length_cons, I1]
    · intro t c' ht
      cases t with
      | zero =>
        simp only [List.get?_cons_zero, Option.some.injEq] at ht
        subst ht
        refine ⟨?_, ?_⟩
        · simp only [registerAll, List.get?_cons_zero, F1, Nat.add_zero]
        · simp only [registerAll, Nat.add_zero]
          exact I3 _ _ F2 (fun c' hc' => hc_cs c' hc')
      | succ t =>
        simp only [List.get?_cons_succ] at ht
        obtain ⟨J1, J2⟩ := I2 t c' ht
        have e : j0 + (t + 1) = j0 + 1 + t := by omega
        rw [e]
        exact ⟨by simpa only [registerAll, List.get?_cons_succ] using J1,
          by simpa only [registerAll] using J2⟩
    · intro name o ho hne
      simp only [registerAll]
      exact I3 name o (F3 name o ho (hne c (List.mem_cons_self _ _)))
        (fun c' hc' => hne c' (List.mem_cons_of_mem _ hc'))

/-- C16 (amended): for every name N and every k with 0 <= k <= 20 such that none of
N, N1, ..., Nk is in the registry yet, registering k+1 components at pairwise distinct
addresses that all request the name N yields, in registration order, the effective names
N, N1, N2, ..., Nk; afterwards the registry maps each of these names to its own
component, whose `GetName()` is the name it is registered under (and which is marked
registered). -/
theorem AddScriptable_collisions (N : Str) (comps : List IScriptable) (s : ScriptHost)
    (hk : comps.length ≤ 21) (hname : ∀ c ∈ comps, c.m_strName = N)
    (hdist : comps.Pairwise (fun a b => a.addr ≠ b.addr))
    (hfree : ∀ i, i < comps.length → mapFind s.m_clients (effName N i) = none) :
    (registerAll comps s).2.map (fun c => c.m_strName)
      = (List.range comps.length).map (effName N) ∧
    ∀ j c, comps.get? j = some c →
      ∃ o, (registerAll comps s).2.get? j = some o ∧
        mapFind (registerAll comps s).1.m_clients (effName N j) = some (some o) ∧
        o.addr = c.addr ∧ o.m_strName = effName N j ∧ o.m_bRegistered = true ∧
        o.m_ActionIDs = c.m_ActionIDs ∧ o.m_ActionArgs = c.m_ActionArgs := by
  obtain ⟨h1, h2, _⟩ := registerAll_suffixes N comps 0 s (by omega) hname hdist
    (fun i hi => absurd hi (Nat.not_lt_zero i))
    (fun i _ hi => hfree i (by omega))
  refine ⟨?_, ?_⟩
  · apply List.ext_get?
    intro t
    rw [List.get?_eq_getElem?, List.get?_eq_getElem?, List.getElem?_map, List.getElem?_map,
      ← List.get?_eq_getElem?, ← List.get?_eq_getElem?]
    rcases hc : comps.get? t with _ | c
    · have ht : comps.length ≤ t := List.get?_eq_none.mp hc
      rw [List.get?_eq_none.mpr (by rw [h1]; exact ht),
        List.get?_eq_none.mpr (by rw [List.length_range]; exact ht)]
      rfl
    · have ht : t < comps.length := (List.get?_eq_some.mp hc).1
      obtain ⟨g1, _⟩ := h2 t c hc
      rw [Nat.zero_add] at g1
      rw [g1, List.get?_eq_getElem?, List.getElem?_range ht]
      rfl
  · intro j c hc
    obtain ⟨g1, g2⟩ := h2 j c hc
    rw [Nat.zero_add] at g1 g2
    exact ⟨_, g1, g2, rfl, rfl, rfl, rfl, rfl⟩

/-- Witness of `AddScriptable_collisions`: two components requesting "Board" become
"Board" and "Board1". -/
theorem AddScriptable_collisions_witness :
    (registerAll [plainObject 20 "Board".toList, plainObject 21 "Board".toList]
        (_Init (statics 1))).2.map (fun c => c.m_strName)
      = (List.range [plainObject 20 "Board".toList, plainObject 21 "Board".toList].length).map
          (effName "Board".toList) ∧
    ∀ j c, [plainObject 20 "Board".toList, plainObject 21 "Board".toList].get? j = some c →
      ∃ o, (registerAll [plainObject 20 "Board".toList, plainObject 21 "Board".toList]
          (_Init (statics 1))).2.get? j = some o ∧
        mapFind (registerAll [plainObject 20 "Board".toList, plainObject 21 "Board".toList]
          (_Init (statics 1))).1.m_clients (effName "Board".toList j) = some (some o) ∧
        o.addr = c.addr ∧ o.m_strName = effName "Board".toList j ∧ o.m_bRegistered = true ∧
        o.m_ActionIDs = c.m_ActionIDs ∧ o.m_ActionArgs = c.m_ActionArgs :=
  AddScriptable_collisions "Board".toList
    [plainObject 20 "Board".toList, plainObject 21 "Board".toList] (_Init (statics 1))
    (by decide) (by decide) (by decide) (by decide)

/-- C16 as stated fails: "Board" is not in the registry, but "Board1" is (a component
that requested that name); two distinct components requesting "Board" then become
"Board" and "Board2", not "Board" and "Board1". -/
theorem collision_skips_taken_name :
    mapFind withBoard1.m_clients "Board".toList = none ∧
    (registerAll [plainObject 20 "Board".toList, plainObject 21 "Board".toList]
        withBoard1).2.map (fun c => c.m_strName)
      = ["Board".toList, "Board2".toList] ∧
    (registerAll [plainObject 20 "Board".toList, plainObject 21 "Board".toList]
        withBoard1).2.map (fun c => c.m_strName)
      ≠ [effName "Board".toList 0, effName "Board".toList 1] := by
  decide

theorem suffixLoop_exhausted (N : Str) (c : IScriptable) (s : ScriptHost)
    (htaken : ∀ t, 1 ≤ t → t ≤ 20 →
      ∃ o, mapFind s.m_clients (N ++ to_string t) = some (some o) ∧ o.addr ≠ c.addr) :
    ∀ left i, i + left = 20 →
      suffixLoop N c s left i
        = ({ s with calls := s.calls ++ [Event.cerr tooManyDuplicates] }, c) := by
  intro left
  induction left with
  | zero =>
    intro i _
    rfl
  | succ left ih =>
    intro i hi
    obtain ⟨o, ho, hne⟩ := htaken (i + 1) (by omega) (by omega)
    rw [suffixLoop]
    simp only [ho, samePtr, hne, decide_False, Bool.false_eq_true, if_false]
    exact ih (i + 1) (by omega)

theorem writeObj_clients_addr (a : Nat) (f : IScriptable → IScriptable) (s : ScriptHost)
    (hf : ∀ o, (f o).addr = o.addr) :
    (writeObj a f s).m_clients.map (fun e => (e.1, e.2.map fun o => o.addr))
      = s.m_clients.map (fun e => (e.1, e.2.map fun o => o.addr)) := by
  show (s.m_clients.map _).map _ = _
  rw [List.map_map]
  apply List.map_congr_left
  intro e _
  rcases e with ⟨k, _ | o⟩
  · rfl
  · by_cases h : o.addr = a
    · simp [h, hf]
    · simp [h]

theorem writeObj_base2client_addr (a : Nat) (f : IScriptable → IScriptable) (s : ScriptHost)
    (hf : ∀ o, (f o).addr = o.addr) :
    (writeObj a f s).m_mMenuBase2Client.map (fun e => (e.1, e.2.map fun o => o.addr))
      = s.m_mMenuBase2Client.map (fun e => (e.1, e.2.map fun o => o.addr)) := by
  show (s.m_mMenuBase2Client.map _).map _ = _
  rw [List.map_map]
  apply List.map_congr_left
  intro e _
  rcases e with ⟨k, _ | o⟩
  · rfl
  · by_cases h : o.addr = a
    · simp [h, hf]
    · simp [h]

theorem taken_of_allTaken (N : Str) (a : Nat) (s : ScriptHost) (h : allTaken N a s = true) :
    ∀ i, i ≤ 20 → ∃ o, mapFind s.m_clients (effName N i) = some (some o) ∧ o.addr ≠ a := by
  intro i hi
  unfold allTaken at h
  have h1 := List.all_eq_true.mp h i (List.mem_range.mpr (by omega))
  rcases hm : mapFind s.m_clients (effName N i) with _ | _ | o
  · rw [hm] at h1
    cases h1
  · rw [hm] at h1
    cases h1
  · rw [hm] at h1
    exact ⟨o, rfl, of_decide_eq_true h1⟩

/-- C17 (amended): when the name N and all of N1 ... N20 are registered to other
components, registering one more component under N is a registration error: the error
is written to `std::cerr`; the registry and the menu tables are left as they were (the
same names and bases for the same components, and no entry for the new component) and
the component's name is not changed.  `AddScriptable_C` sets the component's
`m_bRegistered` all the same, as it does after every call. -/
theorem AddScriptable_C_exhausted (N : Str) (c : IScriptable) (s : ScriptHost)
    (hN : c.m_strName = N)
    (htaken : ∀ i, i ≤ 20 →
      ∃ o, mapFind s.m_clients (effName N i) = some (some o) ∧ o.addr ≠ c.addr) :
    (AddScriptable_C c s).1
      = writeObj c.addr markRegistered
          { s with calls := s.calls ++ [Event.cerr tooManyDuplicates] } ∧
    (AddScriptable_C c s).1.calls = s.calls ++ [Event.cerr tooManyDuplicates] ∧
    (AddScriptable_C c s).1.m_clients.map (fun e => (e.1, e.2.map fun o => o.addr))
      = s.m_clients.map (fun e => (e.1, e.2.map fun o => o.addr)) ∧
    (AddScriptable_C c s).1.m_mMenuBase2Client.map (fun e => (e.1, e.2.map fun o => o.addr))
      = s.m_mMenuBase2Client.map (fun e => (e.1, e.2.map fun o => o.addr)) ∧
    (AddScriptable_C c s).1.m_mMenuIDs = s.m_mMenuIDs ∧
    (AddScriptable_C c s).1.m_mClient2MenuBase = s.m_mClient2MenuBase ∧
    (AddScriptable_C c s).1.m_mClientEntries = s.m_mClientEntries ∧
    (AddScriptable_C c s).2.m_strName = c.m_strName ∧
    (AddScriptable_C c s).2.addr = c.addr ∧
    (AddScriptable_C c s).2.m_bRegistered = true := by
  obtain ⟨o0, ho0, hne0⟩ := htaken 0 (by omega)
  rw [effName_zero] at ho0
  have hloop := suffixLoop_exhausted N c s
    (fun t ht1 ht20 => by
      obtain ⟨o, ho, hne⟩ := htaken t ht20
      rw [effName_pos N t ht1] at ho
      exact ⟨o, ho, hne⟩) 20 0 rfl
  have hA : AddScriptable c.m_strName c s
      = ({ s with calls := s.calls ++ [Event.cerr tooManyDuplicates] }, c) := by
    unfold AddScriptable
    rw [hN]
    simp only [ho0, samePtr, hne0, decide_False, Bool.not_false, if_true]
    exact hloop
  have hC : AddScriptable_C c s
      = (writeObj c.addr markRegistered
          { s with calls := s.calls ++ [Event.cerr tooManyDuplicates] },
         markRegistered c) := by
    unfold AddScriptable_C
    simp only [hA]
  rw [hC]
  exact ⟨rfl, rfl, writeObj_clients_addr _ _ _ (fun _ => rfl),
    writeObj_base2client_addr _ _ _ (fun _ => rfl), rfl, rfl, rfl, rfl, rfl, rfl⟩

/-- Witness of `AddScriptable_C_exhausted`: the registry with `Board` and `Board1` to
`Board20` taken by the components at the addresses 100 to 120, and one more component,
at the address 121, that requests the name `Board`. -/
theorem AddScriptable_C_exhausted_witness :
    (AddScriptable_C (plainObject 121 "Board".toList) fullBoards).1.calls
      = fullBoards.calls ++ [Event.cerr tooManyDuplicates] ∧
    (AddScriptable_C (plainObject 121 "Board".toList) fullBoards).1.m_mMenuIDs
      = fullBoards.m_mMenuIDs ∧
    (AddScriptable_C (plainObject 121 "Board".toList) fullBoards).2.m_strName
      = "Board".toList ∧
    (AddScriptable_C (plainObject 121 "Board".toList) fullBoards).2.m_bRegistered = true :=
  have h := AddScriptable_C_exhausted "Board".toList (plainObject 121 "Board".toList)
    fullBoards rfl (taken_of_allTaken _ _ _ (by decide))
  ⟨h.2.1, h.2.2.2.2.1, h.2.2.2.2.2.2.2.1, h.2.2.2.2.2.2.2.2.2⟩

/-- C17 as stated fails: with "Board" and "Board1" to "Board20" registered to 21 other
components, one more component that requests "Board" is not registered, but
`AddScriptable_C` sets its `m_bRegistered`, which was false. -/
theorem AddScriptable_C_marks_failed :
    allTaken "Board".toList 121 fullBoards = true ∧
    (plainObject 121 "Board".toList).m_bRegistered = false ∧
    (AddScriptable_C (plainObject 121 "Board".toList) fullBoards).2.m_bRegistered = true := by
  decide

theorem AddSubmenu_new (c : IScriptable) (Y : ScriptHost)
    (hmenu : Y.m_bMenuCreated = false) (hid : mapFind Y.m_mMenuIDs c.m_strName = none)
    (hfit : 100 * (Y.m_mMenuIDs.length + 1) < 2 ^ 32) :
    AddSubmenu c Y = { Y with
      m_mMenuIDs := mapSet Y.m_mMenuIDs c.m_strName 0
      m_mMenuBase2Client :=
        mapSet Y.m_mMenuBase2Client (100 * (Y.m_mMenuIDs.length + 1)) (some c)
      m_mClient2MenuBase :=
        mapSet Y.m_mClient2MenuBase c.m_strName (100 * (Y.m_mMenuIDs.length + 1)) } := by
  have hlen := length_mapSet_new Y.m_mMenuIDs c.m_strName (0 : Int) hid
  have hmod : (100 * (Y.m_mMenuIDs.length + 1)) % UINT_MOD = 100 * (Y.m_mMenuIDs.length + 1) :=
    Nat.mod_eq_of_lt (by unfold UINT_MOD; omega)
  unfold AddSubmenu
  simp only [hmenu, Bool.false_eq_true, if_false, hid, if_true, hlen, hmod]

theorem AddSubmenu_menuCreated (c : IScriptable) (Y : ScriptHost) :
    (AddSubmenu c Y).m_bMenuCreated = Y.m_bMenuCreated := by
  unfold AddSubmenu
  simp only
  split
  · rfl
  · split <;> rfl

theorem mapFind_map_ne_none {κ α : Type} [DecidableEq κ] (m : List (κ × α)) (g : α → α)
    (k : κ) (h : mapFind m k ≠ none) : mapFind (m.map fun e => (e.1, g e.2)) k ≠ none := by
  rw [mapFind_mapVals]
  cases hm : mapFind m k with
  | none => exact absurd hm h
  | some v => simp

theorem registered_of (s Y : ScriptHost) (c c' : IScriptable) (E : Str)
    (hfree : mapFind s.m_clients E = none) (hname : c'.m_strName = E)
    (haddr : c'.addr = c.addr)
    (H1 : Y.m_clients.length = s.m_clients.length + 1)
    (H2 : ∀ k, mapFind s.m_clients k ≠ none → mapFind Y.m_clients k ≠ none)
    (H3 : mapFind Y.m_clients E ≠ none)
    (H4 : Y.m_bMenuCreated = s.m_bMenuCreated) (H5 : Y.m_mMenuIDs = s.m_mMenuIDs)
    (H6 : Y.m_mClient2MenuBase = s.m_mClient2MenuBase)
    (H7 : ∀ key o, mapFind s.m_mMenuBase2Client key = some (some o) →
      ∃ o', mapFind Y.m_mMenuBase2Client key = some (some o') ∧ o'.addr = o.addr) :
    RegisteredAs s c E
      (writeObj c.addr markRegistered (AddSubmenu c' Y), markRegistered c') := by
  refine ⟨hfree, hname, haddr, ?_, ?_, ?_, ?_, ?_⟩
  · show ((AddSubmenu c' Y).m_clients.map _).length = _
    rw [List.length_map, AddSubmenu_clients, H1]
  · intro k hk
    show mapFind ((AddSubmenu c' Y).m_clients.map _) k ≠ none
    rw [AddSubmenu_clients]
    exact mapFind_map_ne_none _ _ _ (H2 k hk)
  · show mapFind ((AddSubmenu c' Y).m_clients.map _) E ≠ none
    rw [AddSubmenu_clients]
    exact mapFind_map_ne_none _ _ _ H3
  · show (AddSubmenu c' Y).m_bMenuCreated = _
    rw [AddSubmenu_menuCreated, H4]
  · intro hmenu hid hfit
    have hS := AddSubmenu_new c' Y (by rw [H4]; exact hmenu) (by rw [H5, hname]; exact hid)
      (by rw [H5]; exact hfit)
    rw [H5, H6, hname] at hS
    have hb : ∀ key, mapFind
        (writeObj c.addr markRegistered (AddSubmenu c' Y)).m_mMenuBase2Client key
        = (mapFind (mapSet Y.m_mMenuBase2Client (100 * (s.m_mMenuIDs.length + 1)) (some c'))
            key).map
            (fun e => e.map fun o => if o.addr = c.addr then markRegistered o else o) := by
      intro key
      rw [writeObj_base2client, hS]
    refine ⟨by rw [hS]; rfl, by rw [hS]; rfl, ?_, ?_⟩
    · refine ⟨markRegistered c', ?_, haddr⟩
      rw [hb, mapFind_mapSet_self]
      simp [haddr]
    · intro key o hkey ho
      obtain ⟨o', ho', ha⟩ := H7 key o ho
      refine ⟨if o'.addr = c.addr then markRegistered o' else o', ?_, ?_⟩
      · rw [hb, mapFind_mapSet_ne _ _ _ _ hkey, ho']
        rfl
      · rw [← ha]
        split <;> rfl

theorem registered_direct (s : ScriptHost) (c : IScriptable)
    (hfree : mapFind s.m_clients c.m_strName = none) :
    RegisteredAs s c c.m_strName
      (writeObj c.addr markRegistered
        (AddSubmenu c { s with m_clients := mapSet s.m_clients c.m_strName (some c) }),
       markRegistered c) := by
  refine registered_of s _ c c c.m_strName hfree rfl rfl ?_ ?_ ?_ rfl rfl rfl ?_
  · exact length_mapSet_new _ _ _ hfree
  · intro k hk
    show mapFind (mapSet s.m_clients c.m_strName (some c)) k ≠ none
    by_cases h : k = c.m_strName
    · rw [h, mapFind_mapSet_self]
      simp
    · rw [mapFind_mapSet_ne _ _ _ _ h]
      exact hk
  · show mapFind (mapSet s.m_clients c.m_strName (some c)) c.m_strName ≠ none
    rw [mapFind_mapSet_self]
    simp
  · intro key o ho
    exact ⟨o, ho, rfl⟩

theorem registered_suffix (s : ScriptHost) (c : IScriptable) (E : Str)
    (hfree : mapFind s.m_clients E = none) :
    RegisteredAs s c E
      (writeObj c.addr markRegistered
        (AddSubmenu (SetName E c)
          (writeObj c.addr (SetName E)
            { s with m_clients := mapSet s.m_clients E (some c) })),
       markRegistered (SetName E c)) := by
  refine registered_of s _ c (SetName E c) E hfree rfl rfl ?_ ?_ ?_ rfl rfl rfl ?_
  · show ((mapSet s.m_clients E (some c)).map _).length = _
    rw [List.length_map]
    exact length_mapSet_new _ _ _ hfree
  · intro k hk
    show mapFind ((mapSet s.m_clients E (some c)).map _) k ≠ none
    refine mapFind_map_ne_none _ _ _ ?_
    by_cases h : k = E
    · rw [h, mapFind_mapSet_self]
      simp
    · rw [mapFind_mapSet_ne _ _ _ _ h]
      exact hk
  · show mapFind ((mapSet s.m_clients E (some c)).map _) E ≠ none
    refine mapFind_map_ne_none _ _ _ ?_
    rw [mapFind_mapSet_self]
    simp
  · intro key o ho
    refine ⟨if o.addr = c.addr then SetName E o else o, ?_, ?_⟩
    · show mapFind (s.m_mMenuBase2Client.map _) key = _
      rw [mapFind_mapVals, ho]
      rfl
    · split <;> rfl

theorem suffixLoop_cases (N : Str) (c : IScriptable) (s : ScriptHost) :
    ∀ left i,
      (∃ E, mapFind s.m_clients E = none ∧
        suffixLoop N c s left i
          = (AddSubmenu (SetName E c)
              (writeObj c.addr (SetName E)
                { s with m_clients := mapSet s.m_clients E (some c) }),
             SetName E c)) ∨
      (suffixLoop N c s left i).1.m_clients = s.m_clients := by
  intro left
  induction left with
  | zero =>
    intro i
    exact Or.inr rfl
  | succ left ih =>
    intro i
    rw [suffixLoop]
    rcases h : mapFind s.m_clients (N ++ to_string (i + 1)) with _ | p
    · exact Or.inl ⟨_, h, rfl⟩
    · simp only
      by_cases hp : samePtr p c = true
      · rw [if_pos hp]
        exact Or.inr rfl
      · rw [if_neg hp]
        exact ih (i + 1)

theorem AddScriptable_C_cases (c : IScriptable) (s : ScriptHost) :
    (∃ E, RegisteredAs s c E (AddScriptable_C c s)) ∨
    (AddScriptable_C c s).1.m_clients.length = s.m_clients.length := by
  unfold AddScriptable_C AddScriptable
  rcases h : mapFind s.m_clients c.m_strName with _ | p
  · exact Or.inl ⟨_, registered_direct s c h⟩
  · simp only
    by_cases hp : samePtr p c = true
    · right
      simp only [hp, Bool.not_true, Bool.false_eq_true, if_false]
      show (s.m_clients.map _).length = _
      rw [List.length_map]
    · have hp' : samePtr p c = false := by
        cases hh : samePtr p c
        · rfl
        · exact absurd hh hp
      simp only [hp', Bool.not_false, if_true]
      rcases suffixLoop_cases c.m_strName c s 20 0 with ⟨E, hE, hloop⟩ | hsame
      · left
        rw [hloop]
        exact ⟨E, registered_suffix s c E hE⟩
      · right
        show ((suffixLoop c.m_strName c s 20 0).1.m_clients.map _).length = _
        rw [List.length_map, hsame]

theorem registerAll_length_le :
    ∀ (comps : List IScriptable) (s : ScriptHost),
      (registerAll comps s).1.m_clients.length ≤ s.m_clients.length + comps.length := by
  intro comps
  induction comps with
  | nil => intro s; exact Nat.le_refl _
  | cons c cs ih =>
    intro s
    have h1 := ih (AddScriptable_C c s).1
    have h2 : (AddScriptable_C c s).1.m_clients.length ≤ s.m_clients.length + 1 := by
      rcases AddScriptable_C_cases c s with ⟨E, hE⟩ | h
      · rw [hE.2.2.2.1]
      · omega
    simp only [registerAll, List.length_cons]
    omega

theorem suffixLoop_addr (N : Str) (c : IScriptable) (s : ScriptHost) :
    ∀ left i, (suffixLoop N c s left i).2.addr = c.addr := by
  intro left
  induction left with
  | zero => intro i; rfl
  | succ left ih =>
    intro i
    rw [suffixLoop]
    rcases h : mapFind s.m_clients (N ++ to_string (i + 1)) with _ | p
    · rfl
    · simp only
      by_cases hp : samePtr p c = true
      · rw [if_pos hp]
      · rw [if_neg hp]
        exact ih (i + 1)

theorem AddScriptable_C_addr (c : IScriptable) (s : ScriptHost) :
    (AddScriptable_C c s).2.addr = c.addr := by
  unfold AddScriptable_C AddScriptable
  rcases h : mapFind s.m_clients c.m_strName with _ | p
  · rfl
  · simp only
    by_cases hp : samePtr p c = true
    · simp only [hp, Bool.not_true, Bool.false_eq_true, if_false]
      rfl
    · have hp' : samePtr p c = false := by
        cases hh : samePtr p c
        · rfl
        · exact absurd hh hp
      simp only [hp', Bool.not_false, if_true]
      exact suffixLoop_addr c.m_strName c s 20 0

theorem registerAll_addr :
    ∀ (comps : List IScriptable) (s : ScriptHost) (t : Nat) (c : IScriptable),
      comps.get? t = some c →
      ∃ o, (registerAll comps s).2.get? t = some o ∧ o.addr = c.addr := by
  intro comps
  induction comps with
  | nil =>
    intro s t c h
    cases h
  | cons c0 cs ih =>
    intro s t c h
    cases t with
    | zero =>
      simp only [List.get?_cons_zero, Option.some.injEq] at h
      subst h
      exact ⟨_, rfl, AddScriptable_C_addr _ s⟩
    | succ t =>
      simp only [List.get?_cons_succ] at h
      simpa only [registerAll, List.get?_cons_succ] using ih (AddScriptable_C c0 s).1 t c h

theorem registerAll_menus :
    ∀ (comps : List IScriptable) (n0 : Nat) (s : ScriptHost),
      s.m_bMenuCreated = false → s.m_mMenuIDs.length = n0 →
      (∀ name, mapFind s.m_mMenuIDs name ≠ none → mapFind s.m_clients name ≠ none) →
      100 * (n0 + comps.length) < 2 ^ 32 →
      (registerAll comps s).1.m_clients.length = s.m_clients.length + comps.length →
      (∀ t o, (registerAll comps s).2.get? t = some o →
        mapFind (registerAll comps s).1.m_mClient2MenuBase o.m_strName
          = some (100 * (n0 + t + 1)) ∧
        ∃ o', mapFind (registerAll comps s).1.m_mMenuBase2Client (100 * (n0 + t + 1))
            = some (some o') ∧ o'.addr = o.addr) ∧
      (∀ name b, mapFind s.m_mClient2MenuBase name = some b →
        mapFind s.m_clients name ≠ none →
        mapFind (registerAll comps s).1.m_mClient2MenuBase name = some b) ∧
      (∀ key o, key ≤ 100 * n0 → mapFind s.m_mMenuBase2Client key = some (some o) →
        ∃ o', mapFind (registerAll comps s).1.m_mMenuBase2Client key = some (some o') ∧
          o'.addr = o.addr) := by
  intro comps
  induction comps with
  | nil =>
    intro n0 s _ _ _ _ _
    refine ⟨?_, ?_, ?_⟩
    · intro t o h
      cases h
    · intro name b h _
      exact h
    · intro key o _ h
      exact ⟨o, h, rfl⟩
  | cons c cs ih =>
    intro n0 s hmenu hlen hinv hfit hreg
    simp only [List.length_cons] at hfit
    simp only [registerAll, List.length_cons] at hreg
    have hle := registerAll_length_le cs (AddScriptable_C c s).1
    rcases AddScriptable_C_cases c s with ⟨E, f1, f2, f3, f4, f5, f6, f7, f8⟩ | hsame
    swap
    · omega
    have hid : mapFind s.m_mMenuIDs E = none := by
      cases h : mapFind s.m_mMenuIDs E with
      | none => rfl
      | some v => exact absurd f1 (hinv E (by rw [h]; simp))
    obtain ⟨g1, g2, ⟨ob, g3, g3a⟩, g4⟩ := f8 hmenu hid (by rw [hlen]; omega)
    rw [hlen] at g2 g3 g4
    obtain ⟨I1, I2, I3⟩ := ih (n0 + 1) (AddScriptable_C c s).1 (by rw [f7]; exact hmenu)
      (by rw [g1, length_mapSet_new _ _ _ hid, hlen])
      (fun name hname => by
        by_cases hE : name = E
        · rw [hE]; exact f6
        · rw [g1, mapFind_mapSet_ne _ _ _ _ hE] at hname
          exact f5 name (hinv name hname))
      (by omega) (by omega)
    refine ⟨?_, ?_, ?_⟩
    · intro t o ht
      cases t with
      | zero =>
        simp only [registerAll, List.get?_cons_zero, Option.some.injEq] at ht
        subst ht
        simp only [registerAll, Nat.add_zero]
        refine ⟨I2 _ _ (by rw [f2, g2, mapFind_mapSet_self]) (by rw [f2]; exact f6), ?_⟩
        obtain ⟨o', ho', ha⟩ := I3 _ ob (Nat.le_refl _) g3
        exact ⟨o', ho', by rw [ha, g3a, f3]⟩
      | succ t =>
        simp only [registerAll, List.get?_cons_succ] at ht
        have e : n0 + (t + 1) + 1 = n0 + 1 + t + 1 := by omega
        rw [e]
        simpa only [registerAll] using I1 t o ht
    · intro name b hb hname
      simp only [registerAll]
      have hE : name ≠ E := by
        intro h
        rw [h] at hname
        exact hname f1
      refine I2 name b ?_ (f5 name hname)
      rw [g2, mapFind_mapSet_ne _ _ _ _ hE]
      exact hb
    · intro key o hkey ho
      simp only [registerAll]
      obtain ⟨o1, ho1, ha1⟩ := g4 key o (by omega) ho
      obtain ⟨o', ho', ha⟩ := I3 key o1 (by omega) ho1
      exact ⟨o', ho', by rw [ha, ha1]⟩

/-- C18: after the n components of a list have been registered in order, each
registration adding its entry to the registry (no menu allocated before, menus not yet
finalized, 100 * (n + 1) within an `int`), the k-th registered component (k = t + 1)
owns the menu base 100*k; for every local ID l < 100 an entry added with `AddMenuEntry`
for it gets the UI ID 100*k + l, and `DispatchMenuCB` on the queued UI ID 100*k + l calls
`ProcessMenu(l)` on that k-th component and makes no other call. -/
theorem menu_routing (comps : List IScriptable) (s : ScriptHost)
    (hmenu : s.m_bMenuCreated = false) (hempty : s.m_mMenuIDs = [])
    (hfit : 100 * (comps.length + 1) ≤ 2 ^ 31)
    (hreg : (registerAll comps s).1.m_clients.length = s.m_clients.length + comps.length) :
    ∀ t c, comps.get? t = some c →
      ∃ o, (registerAll comps s).2.get? t = some o ∧ o.addr = c.addr ∧
        mapFind (registerAll comps s).1.m_mClient2MenuBase o.m_strName
          = some (100 * (t + 1)) ∧
        ∀ l, l < 100 →
          (∀ label, ∃ f, AddMenuEntry label l o (registerAll comps s).1 = .ok f ∧
            mapFind f.m_mClientEntries o.m_strName
              = some ((mapFind (registerAll comps s).1.m_mClientEntries o.m_strName).getD []
                  ++ [(label, ((100 * (t + 1) + l : Nat) : Int))])) ∧
          ∃ f, DispatchMenuCB
              (MenuCB ((100 * (t + 1) + l : Nat) : Int) (registerAll comps s).1) = .ok f ∧
            f.calls = (registerAll comps s).1.calls ++ [Event.ProcessMenu c.addr l] ∧
            f.m_uiQueuedMenu = 0 := by
  intro t c hc
  have ht : t < comps.length := (List.get?_eq_some.mp hc).1
  obtain ⟨o, ho, hoa⟩ := registerAll_addr comps s t c hc
  obtain ⟨h1, _, _⟩ := registerAll_menus comps 0 s hmenu (by rw [hempty]; rfl)
    (fun name hname => by
      rw [hempty] at hname
      exact absurd rfl hname)
    (by omega) hreg
  obtain ⟨g1, o', g2, g3⟩ := h1 t o ho
  rw [Nat.zero_add] at g1 g2
  refine ⟨o, ho, hoa, g1, ?_⟩
  intro l hl
  refine ⟨?_, ?_⟩
  · intro label
    have hat : mapAt (registerAll comps s).1.m_mClient2MenuBase o.m_strName
        = .ok (100 * (t + 1)) := by
      unfold mapAt
      rw [g1]
    have hmod : (100 * (t + 1) + l) % UINT_MOD = 100 * (t + 1) + l :=
      Nat.mod_eq_of_lt (by unfold UINT_MOD; omega)
    have hE : AddMenuEntry label l o (registerAll comps s).1
        = .ok { (registerAll comps s).1 with
            m_mClientEntries := mapSet (registerAll comps s).1.m_mClientEntries o.m_strName
              ((mapFind (registerAll comps s).1.m_mClientEntries o.m_strName).getD []
                ++ [(label, ((100 * (t + 1) + l : Nat) : Int))]) } := by
      unfold AddMenuEntry
      rw [if_neg (by omega)]
      simp only [hat, bind, Except.bind, pure, Except.pure, hmod, toI32_of_lt _
        (show 100 * (t + 1) + l < 2 ^ 31 by omega)]
    exact ⟨_, hE, mapFind_mapSet_self _ _ _⟩
  · have hq : toU32 ((100 * (t + 1) + l : Nat) : Int) = 100 * (t + 1) + l :=
      toU32_natCast _ (by omega)
    have hmod : (100 * (t + 1) + l) % 100 = l := by omega
    have hD : DispatchMenuCB (MenuCB ((100 * (t + 1) + l : Nat) : Int) (registerAll comps s).1)
        = .ok { (registerAll comps s).1 with
            m_uiQueuedMenu := 0
            calls := (registerAll comps s).1.calls ++ [Event.ProcessMenu o'.addr l] } := by
      unfold DispatchMenuCB MenuCB
      simp only [hq]
      rw [if_pos (by omega)]
      simp only [hmod, Nat.add_sub_cancel, g2, pure, Except.pure]
    refine ⟨_, hD, ?_, rfl⟩
    simp only [g3, hoa]

/-- Witness of `menu_routing`: two components that both request the name `Board` are
registered; the second, registered as `Board1`, has the base 200, and the UI ID 207
reaches it with the local ID 7. -/
theorem menu_routing_witness :
    ∃ o, (registerAll [plainObject 20 "Board".toList, plainObject 21 "Board".toList]
        (_Init (statics 1))).2.get? 1 = some o ∧
      o.addr = 21 ∧ o.m_strName = "Board1".toList ∧
      mapFind twoBoards.m_mClient2MenuBase o.m_strName = some 200 ∧
      ∃ f, DispatchMenuCB (MenuCB 207 twoBoards) = .ok f ∧
        f.calls = twoBoards.calls ++ [Event.ProcessMenu 21 7] ∧ f.m_uiQueuedMenu = 0 := by
  obtain ⟨o, ho, ha, h1, h2⟩ :=
    menu_routing [plainObject 20 "Board".toList, plainObject 21 "Board".toList]
      (_Init (statics 1)) rfl rfl (by decide) (by decide) 1 (plainObject 21 "Board".toList) rfl
  have ho' : some (markRegistered (SetName "Board1".toList (plainObject 21 "Board".toList)))
      = some o := ho
  have e : o.m_strName = "Board1".toList := by
    rw [← Option.some.inj ho']
    rfl
  exact ⟨o, ho, ha, e, h1, (h2 7 (by decide)).2⟩

/-! ## The autocompletion set -/

theorem foldl_names_ends (names : ArgType → Str) :
    ∀ (types : List ArgType) (init : Str), types ≠ [] →
      ∃ X, types.foldl (fun acc t => acc ++ (names t ++ ", ".toList)) init
        = X ++ [',', ' '] := by
  intro types
  induction types with
  | nil => intro _ h; exact absurd rfl h
  | cons t ts ih =>
    intro init _
    rcases ts with _ | ⟨t', ts'⟩
    · exact ⟨init ++ names t, by simp [List.foldl]⟩
    · obtain ⟨X, hX⟩ := ih (init ++ (names t ++ ", ".toList)) (by simp)
      exact ⟨X, by rw [List.foldl_cons, hX]⟩

/-- For an action with at least one argument type the text built by `SetupAutocomplete`
ends in `)` followed by a space. -/
theorem argFmt_trailing (names : ArgType → Str) (strAct : Str) (types : List ArgType)
    (h : types ≠ []) : ∃ X, argFmt names strAct types = X ++ [')', ' '] := by
  obtain ⟨X, hX⟩ := foldl_names_ends names types (strAct ++ ['(']) h
  refine ⟨X, ?_⟩
  have hlen : types.length > 0 := List.length_pos.mpr h
  unfold argFmt
  simp only [hlen, if_true, hX]
  have e : (X ++ [',', ' ']).length - 2 = X.length := by simp
  rw [e, List.set_append_right _ _ (Nat.le_refl _)]
  simp

/-- C19 fails on the code: for an action with argument types the entry has a space after
the closing parenthesis.  With the engine and `Dev` registered, `SetupAutocomplete`
builds the set below: `Dev::Stall()` has no argument and ends in `)`, the others end in
`) `; the string `ScriptHost::SetTimeoutMs(int)` is not in the set. -/
theorem SetupAutocomplete_trailing_space :
    (SetupAutocomplete demoNames withDev).map (fun s => s.m_strGLAutoC)
      = .ok ["Dev::Move(int) ".toList, "Dev::Stall()".toList, "ScriptHost::Log(string) ".toList,
          "ScriptHost::SetQuitOnTimeout(bool) ".toList, "ScriptHost::SetTimeoutMs(int) ".toList,
          "ScriptHost::WaitMs(int) ".toList] ∧
    (SetupAutocomplete demoNames withDev).map
        (fun s => decide ("ScriptHost::SetTimeoutMs(int)".toList ∈ s.m_strGLAutoC))
      = .ok false := by
  decide

theorem strLt_cons (a b : Char) (as bs : Str) :
    strLt (a :: as) (b :: bs) = true ↔ a.toNat < b.toNat ∨ (a = b ∧ strLt as bs = true) := by
  rw [strLt]
  by_cases h1 : a.toNat < b.toNat
  · simp [h1]
  · by_cases h2 : a = b
    · simp [h1, h2]
    · simp [h1, h2]

theorem strLt_irrefl : ∀ a : Str, strLt a a = false := by
  intro a
  induction a with
  | nil => rfl
  | cons c cs ih =>
    rw [strLt]
    simp [ih]

theorem strLt_trans : ∀ a b c : Str, strLt a b = true → strLt b c = true →
    strLt a c = true := by
  intro a
  induction a with
  | nil =>
    intro b c hab hbc
    cases b with
    | nil => simp [strLt] at hab
    | cons y ys =>
      cases c with
      | nil => simp [strLt] at hbc
      | cons z zs => rfl
  | cons x xs ih =>
    intro b c hab hbc
    cases b with
    | nil => simp [strLt] at hab
    | cons y ys =>
      cases c with
      | nil => simp [strLt] at hbc
      | cons z zs =>
        rw [strLt_cons] at hab hbc ⊢
        rcases hab with h1 | ⟨h1, h2⟩
        · rcases hbc with g1 | ⟨g1, _⟩
          · exact Or.inl (by omega)
          · subst g1
            exact Or.inl h1
        · subst h1
          rcases hbc with g1 | ⟨g1, g2⟩
          · exact Or.inl g1
          · exact Or.inr ⟨g1, ih ys zs h2 g2⟩

theorem strLt_of_isPrefixOf : ∀ p e : Str, p.isPrefixOf e = true → e ≠ p →
    strLt p e = true := by
  intro p
  induction p with
  | nil =>
    intro e _ hne
    cases e with
    | nil => exact absurd rfl hne
    | cons c cs => rfl
  | cons a as ih =>
    intro e hp hne
    cases e with
    | nil => simp [List.isPrefixOf] at hp
    | cons c cs =>
      simp only [List.isPrefixOf, Bool.and_eq_true, beq_iff_eq] at hp
      obtain ⟨h1, h2⟩ := hp
      subst h1
      rw [strLt_cons]
      refine Or.inr ⟨rfl, ih cs h2 ?_⟩
      intro h
      exact hne (by rw [h])

theorem isPrefixOf_between : ∀ p x y : Str, strLt p x = true → strLt x y = true →
    p.isPrefixOf y = true → p.isPrefixOf x = true := by
  intro p
  induction p with
  | nil =>
    intro x _ _ _ _
    cases x <;> rfl
  | cons a as ih =>
    intro x y hpx hxy hpy
    cases x with
    | nil => simp [strLt] at hpx
    | cons c cs =>
      cases y with
      | nil => simp [strLt] at hxy
      | cons d ds =>
        simp only [List.isPrefixOf, Bool.and_eq_true, beq_iff_eq] at hpy ⊢
        obtain ⟨h1, h2⟩ := hpy
        subst h1
        rw [strLt_cons] at hpx hxy
        rcases hpx with g1 | ⟨g1, g2⟩
        · rcases hxy with k1 | ⟨k1, _⟩
          · omega
          · subst k1
            omega
        · subst g1
          rcases hxy with k1 | ⟨_, k2⟩
          · omega
          · exact ⟨rfl, ih cs ds g2 k2 h2⟩

theorem mem_setInsert (e x : Str) : ∀ acc : List Str,
    e ∈ setInsert x acc ↔ e = x ∨ e ∈ acc := by
  intro acc
  induction acc with
  | nil => simp [setInsert]
  | cons y ys ih =>
    rw [setInsert]
    by_cases h1 : x = y
    · subst h1
      simp
    · by_cases h2 : strLt x y = true
      · simp [h1, h2]
      · have h2' : strLt x y = false := by
          cases h : strLt x y
          · rfl
          · exact absurd h h2
        rw [if_neg h1, h2']
        simp only [Bool.false_eq_true, if_false, List.mem_cons, ih]
        tauto

theorem collectMatches_spec (p : Str) : ∀ (U acc : List Str),
    (∃ z ∈ U, p.isPrefixOf z = false) →
    ∃ R, collectMatches p U acc = .ok R ∧
      ∀ e, e ∈ R ↔ e ∈ acc ∨ e ∈ U.takeWhile (fun u => p.isPrefixOf u) := by
  intro U
  induction U with
  | nil =>
    rintro acc ⟨z, hz, _⟩
    cases hz
  | cons u us ih =>
    intro acc hex
    by_cases hu : p.isPrefixOf u = true
    · have hex' : ∃ z ∈ us, p.isPrefixOf z = false := by
        obtain ⟨z, hz, hzp⟩ := hex
        rcases List.mem_cons.mp hz with h | h
        · subst h
          rw [hu] at hzp
          cases hzp
        · exact ⟨z, h, hzp⟩
      obtain ⟨R, hR, hmem⟩ := ih (setInsert u acc) hex'
      refine ⟨R, ?_, ?_⟩
      · rw [collectMatches, if_pos hu]
        exact hR
      · intro e
        rw [hmem, mem_setInsert, List.takeWhile_cons, if_pos hu, List.mem_cons]
        tauto
    · refine ⟨acc, ?_, ?_⟩
      · rw [collectMatches, if_neg hu]
        rfl
      · intro e
        have hu' : p.isPrefixOf u = false := by
          cases h : p.isPrefixOf u
          · rfl
          · exact absurd h hu
        rw [List.takeWhile_cons]
        simp [hu']

theorem dropWhile_head {α : Type} (q : α → Bool) (l : List α) (u : α) (rest : List α)
    (h : l.dropWhile q = u :: rest) : q u = false := by
  have h1 := List.head?_dropWhile_not q l
  rw [h] at h1
  exact h1

theorem last_mem {α : Type} (u : α) (rest : List α) :
    ∃ z, (u :: rest).getLast? = some z ∧ z ∈ u :: rest := by
  rcases h : (u :: rest).getLast? with _ | z
  · have := List.getLast?_isSome.mpr (List.cons_ne_nil u rest)
    rw [h] at this
    cases this
  · exact ⟨z, rfl, List.mem_of_mem_getLast? (by rw [h]; exact rfl)⟩

/-- The calls of `OnAutoComplete_C` on which the loop ends before `end()`: for every
autocomplete set (its elements in increasing order) and every query string p such that
the last entry of the set does not extend p, the result is exactly the set of all
entries that have p as a prefix and are not p itself (the search starts at the first
entry strictly greater than p). -/
theorem OnAutoComplete_C_proper (s : ScriptHost) (p : Str)
    (hsorted : s.m_strGLAutoC.Pairwise (fun a b => strLt a b = true))
    (hlast : ∀ z, s.m_strGLAutoC.getLast? = some z → ¬ (p.isPrefixOf z = true ∧ z ≠ p)) :
    ∃ R, OnAutoComplete_C p s = .ok R ∧
      ∀ e, e ∈ R ↔ (e ∈ s.m_strGLAutoC ∧ p.isPrefixOf e = true ∧ e ≠ p) := by
  have hsplit := List.takeWhile_append_dropWhile (fun e => !strLt p e) s.m_strGLAutoC
  have hpre : ∀ x ∈ s.m_strGLAutoC.takeWhile (fun e => !strLt p e), strLt p x = false := by
    intro x hx
    have := List.mem_takeWhile_imp hx
    simpa using this
  rcases hU : upper_bound p s.m_strGLAutoC with _ | ⟨u0, rest⟩
  · -- no entry is greater than p
    refine ⟨[], ?_, ?_⟩
    · unfold OnAutoComplete_C
      rw [hU]
      rfl
    · intro e
      constructor
      · intro h
        cases h
      · rintro ⟨he, hp, hne⟩
        exfalso
        have hlt := strLt_of_isPrefixOf p e hp hne
        unfold upper_bound at hU
        rw [hU, List.append_nil] at hsplit
        rw [← hsplit] at he
        rw [hpre e he] at hlt
        cases hlt
  · unfold upper_bound at hU
    rw [hU] at hsplit
    have hu0 : strLt p u0 = true := by
      have := dropWhile_head _ _ _ _ hU
      simpa using this
    obtain ⟨_, hUs, _⟩ := List.pairwise_append.mp (hsplit ▸ hsorted)
    have hgt : ∀ x ∈ u0 :: rest, strLt p x = true := by
      intro x hx
      rcases List.mem_cons.mp hx with h | h
      · rw [h]; exact hu0
      · exact strLt_trans p u0 x hu0 ((List.pairwise_cons.mp hUs).1 x h)
    have hne_p : ∀ x ∈ u0 :: rest, x ≠ p := by
      intro x hx h
      have := hgt x hx
      rw [h, strLt_irrefl] at this
      cases this
    obtain ⟨z, hz, hzmem⟩ := last_mem u0 rest
    have hzL : s.m_strGLAutoC.getLast? = some z := by
      rw [← hsplit, List.getLast?_append_of_ne_nil _ (List.cons_ne_nil _ _)]
      exact hz
    have hzp : p.isPrefixOf z = false := by
      cases h : p.isPrefixOf z
      · rfl
      · exact absurd ⟨h, hne_p z hzmem⟩ (hlast z hzL)
    obtain ⟨R, hR, hmem⟩ := collectMatches_spec p (u0 :: rest) [] ⟨z, hzmem, hzp⟩
    refine ⟨R, ?_, ?_⟩
    · unfold OnAutoComplete_C upper_bound
      rw [hU]
      exact hR
    · intro e
      rw [hmem]
      constructor
      · rintro (h | h)
        · cases h
        · have heU : e ∈ u0 :: rest := (List.takeWhile_prefix _).subset h
          refine ⟨?_, List.mem_takeWhile_imp h, hne_p e heU⟩
          rw [← hsplit]
          exact List.mem_append_right _ heU
      · rintro ⟨he, hp, hne⟩
        right
        have hlt := strLt_of_isPrefixOf p e hp hne
        have heU : e ∈ u0 :: rest := by
          rw [← hsplit] at he
          rcases List.mem_append.mp he with h | h
          · rw [hpre e h] at hlt
            cases hlt
          · exact h
        have hsplit2 := List.takeWhile_append_dropWhile (fun u => p.isPrefixOf u) (u0 :: rest)
        rw [← hsplit2] at heU
        rcases List.mem_append.mp heU with h | h
        · exact h
        · exfalso
          rcases hD : (u0 :: rest).dropWhile (fun u => p.isPrefixOf u) with _ | ⟨d0, ds⟩
          · rw [hD] at h
            cases h
          · have hd0 : p.isPrefixOf d0 = false := dropWhile_head _ _ _ _ hD
            rw [hD] at h hsplit2
            obtain ⟨_, hDs, _⟩ := List.pairwise_append.mp (hsplit2 ▸ hUs)
            have hd0U : d0 ∈ u0 :: rest := by
              rw [← hsplit2]
              exact List.mem_append_right _ (List.mem_cons_self _ _)
            rcases List.mem_cons.mp h with h1 | h1
            · rw [h1, hd0] at hp
              cases hp
            · have hlt2 := (List.pairwise_cons.mp hDs).1 e h1
              have := isPrefixOf_between p d0 e (hgt d0 hd0U) hlt2 hp
              rw [hd0] at this
              cases this

/-- Witness of `OnAutoComplete_C_proper`: the set `a`, `ab`, `ac`, `b` and the query
`a`. -/
theorem OnAutoComplete_C_proper_witness :
    ∃ R, OnAutoComplete_C "a".toList
        { statics 1 with
          m_strGLAutoC := ["a".toList, "ab".toList, "ac".toList, "b".toList] } = .ok R ∧
      ∀ e, e ∈ R ↔
        (e ∈ ["a".toList, "ab".toList, "ac".toList, "b".toList] ∧
          "a".toList.isPrefixOf e = true ∧ e ≠ "a".toList) :=
  OnAutoComplete_C_proper
    { statics 1 with m_strGLAutoC := ["a".toList, "ab".toList, "ac".toList, "b".toList] }
    "a".toList (by decide) (by decide)

/-- An entry equal to the query is not among the matches: in the set `a`, `ab`, `ac`, `b`
the entry `a` has the query `a` as a prefix but is not returned, since the search starts
at the first entry strictly greater than the query. -/
theorem OnAutoComplete_C_misses_equal_entry :
    OnAutoComplete_C "a".toList
        { statics 1 with m_strGLAutoC := ["a".toList, "ab".toList, "ac".toList, "b".toList] }
      = .ok ["ab".toList, "ac".toList] ∧
    "a".toList.isPrefixOf "a".toList = true := by
  decide

/-- C20 fails on the code: the loop condition reads `*pNext` before it compares `pNext`
with `end()`, so when the matching entries run up to the last entry the loop reads
`*pNext` at `end()` (undefined behaviour, `end_dereference` here) and returns no result.
In the set `SetupAutocomplete` builds for the engine with the component `Dev`, whose
last entry is that of `ScriptHost::WaitMs`, this is so for the queries `ScriptHost::W`
and `ScriptHost::` and for the empty query, each of which the last entry extends; for
the query `Dev::`, whose matches are followed by another entry, the loop ends on that
entry and the matches are returned. -/
theorem OnAutoComplete_C_reads_end :
    (atPrompt []).m_strGLAutoC.getLast? = some "ScriptHost::WaitMs(int) ".toList ∧
      List.isPrefixOf "ScriptHost::W".toList "ScriptHost::WaitMs(int) ".toList = true ∧
      OnAutoComplete_C "ScriptHost::W".toList (atPrompt []) = .error .end_dereference ∧
      OnAutoComplete_C "ScriptHost::".toList (atPrompt []) = .error .end_dereference ∧
      OnAutoComplete_C [] (atPrompt []) = .error .end_dereference ∧
      OnAutoComplete_C "Dev::".toList (atPrompt []) =
        .ok ["Dev::Move(int) ".toList, "Dev::Stall()".toList] := by
  decide

/-! ## Loading a script -/

theorem loadLines_filter (fileIn m_script : List Str) :
    loadLines fileIn m_script =
      m_script ++ fileIn.filter fun strLn => decide (strLn ≠ [] ∧ strLn.head? ≠ some '#') := by
  induction fileIn generalizing m_script with
  | nil => simp [loadLines]
  | cons l rest ih =>
    unfold loadLines
    by_cases h : l = [] ∨ l.head? = some '#'
    · have hc : (l.isEmpty || l.head? == some '#') = true := by
        rcases h with h | h
        · simp [h]
        · simp [h]
      have hd : decide (l ≠ [] ∧ l.head? ≠ some '#') = false := by
        simp only [decide_eq_false_iff_not]
        tauto
      rw [if_pos hc, ih, List.filter_cons, hd]
      rfl
    · have hc : ¬ ((l.isEmpty || l.head? == some '#') = true) := by
        intro hc
        simp only [Bool.or_eq_true, List.isEmpty_iff, beq_iff_eq] at hc
        exact h hc
      have hd : decide (l ≠ [] ∧ l.head? ≠ some '#') = true := by
        simp only [decide_eq_true_eq]
        tauto
      rw [if_neg hc, ih, List.filter_cons, hd, List.append_assoc]
      rfl

/-- C24: for every sequence of file lines, `LoadScript` appends to the script, in file
order, exactly the lines that are non-empty and do not start with `#` (so none of the
stored lines is empty or starts with `#`), sets the cursor to 0 and makes the
interactive snapshot equal to the script; nothing else of the engine changes. -/
theorem LoadScript_appends_kept_lines (fileIn : List Str) (s : ScriptHost) :
    (LoadScript fileIn s).m_script =
        s.m_script ++ fileIn.filter (fun strLn => decide (strLn ≠ [] ∧ strLn.head? ≠ some '#')) ∧
      (∀ strLn ∈ fileIn.filter (fun strLn => decide (strLn ≠ [] ∧ strLn.head? ≠ some '#')),
        strLn ≠ [] ∧ strLn.head? ≠ some '#') ∧
      (LoadScript fileIn s).m_iLine = 0 ∧
      (LoadScript fileIn s).m_scriptGL = (LoadScript fileIn s).m_script ∧
      LoadScript fileIn s =
        { s with
          m_script := (LoadScript fileIn s).m_script
          m_iLine := 0
          m_scriptGL := (LoadScript fileIn s).m_script } := by
  refine ⟨loadLines_filter fileIn s.m_script, ?_, rfl, rfl, rfl⟩
  intro strLn h
  simpa using (List.mem_filter.1 h).2

/-! ## The keys of the interactive prompt -/

theorem upper_bound_nil (strCmd : Str) (set : List Str)
    (h : ∀ x ∈ set, strLt strCmd x = false) : upper_bound strCmd set = [] := by
  unfold upper_bound
  rw [List.dropWhile_eq_nil_iff]
  intro x hx
  simp [h x hx]

theorem upper_bound_least (strCmd e : Str) (set : List Str)
    (hsorted : set.Pairwise fun a b => strLt a b = true)
    (he : e ∈ set) (hgt : strLt strCmd e = true)
    (hleast : ∀ x ∈ set, strLt strCmd x = true → x = e ∨ strLt e x = true) :
    ∃ rest, upper_bound strCmd set = e :: rest := by
  have hsplit := List.takeWhile_append_dropWhile (fun x => !strLt strCmd x) set
  have hmem : e ∈ upper_bound strCmd set := by
    rw [← hsplit] at he
    rcases List.mem_append.1 he with h | h
    · have := List.mem_takeWhile_imp h
      simp [hgt] at this
    · exact h
  cases hU : upper_bound strCmd set with
  | nil => rw [hU] at hmem; cases hmem
  | cons u rest =>
    refine ⟨rest, ?_⟩
    have hu : strLt strCmd u = true := by
      have := List.head?_dropWhile_not (fun x => !strLt strCmd x) set
      unfold upper_bound at hU
      rw [hU] at this
      simpa using this
    have huset : u ∈ set := by
      rw [← hsplit]
      apply List.mem_append_right
      show u ∈ upper_bound strCmd set
      rw [hU]
      exact List.mem_cons_self _ _
    rcases hleast u huset hu with h | h
    · rw [h]
    · exfalso
      rw [hU] at hmem
      rcases List.mem_cons.1 hmem with h1 | h1
      · rw [h1] at h
        rw [strLt_irrefl] at h
        cases h
      · have hp : (u :: rest).Pairwise fun a b => strLt a b = true := by
          have h2 : List.Sublist (u :: rest) set := by
            rw [← hU]
            exact (List.dropWhile_suffix _).sublist
          exact hsorted.sublist h2
        have h3 := (List.pairwise_cons.1 hp).1 e h1
        have h4 := strLt_trans _ _ _ h h3
        rw [strLt_irrefl] at h4
        cases h4


theorem KeyCB_tab_none (s : ScriptHost) (haccept : s.m_bCanAcceptInput = true)
    (h : upper_bound s.m_strCmd s.m_strGLAutoC = []) : KeyCB '\t' s = .ok s := by
  have h1 : ¬ (('\t').toNat = 0x1b) := by decide
  have h2 : ¬ (('\t').toNat = 0x7F ∨ ('\t').toNat = 0x08) := by decide
  have h3 : ¬ (('\t').toNat = 0x0d) := by decide
  have h4 : ('\t').toNat = 0x9 := by decide
  unfold KeyCB
  simp only [haccept, Bool.not_true, Bool.false_eq_true, if_false, if_neg h1, if_neg h2,
    if_neg h3, if_pos h4, h]
  rfl

theorem KeyCB_tab_some (s : ScriptHost) (e : Str) (rest : List Str)
    (haccept : s.m_bCanAcceptInput = true) (hlen : e.length < SIZE_MOD)
    (h : upper_bound s.m_strCmd s.m_strGLAutoC = e :: rest) :
    KeyCB '\t' s = .ok
      { s with
        m_strCmd :=
          match findChar '(' e with
          | some posTrim => e.take (posTrim + 1)
          | none => e } := by
  have h1 : ¬ (('\t').toNat = 0x1b) := by decide
  have h2 : ¬ (('\t').toNat = 0x7F ∨ ('\t').toNat = 0x08) := by decide
  have h3 : ¬ (('\t').toNat = 0x0d) := by decide
  have h4 : ('\t').toNat = 0x9 := by decide
  unfold KeyCB
  simp only [haccept, Bool.not_true, Bool.false_eq_true, if_false, if_neg h1, if_neg h2,
    if_neg h3, if_pos h4, h]
  cases hf : findChar '(' e with
  | none => rfl
  | some posTrim =>
    have hb := findChar_bound _ _ _ hf
    have ha : add64 posTrim 1 = posTrim + 1 := by
      unfold add64
      exact Nat.mod_eq_of_lt (by omega)
    simp only [ha, substr, Nat.not_lt_zero, gt_iff_lt, if_false, List.drop_zero, bind,
      Except.bind, pure, Except.pure]

/-- C21 (amended): with input accepted and the autocomplete set in order, tab leaves the
state as it is when no entry is greater than the edit buffer; otherwise the buffer
becomes the least entry greater than it, cut after its first `(` when the entry has
one and whole when it has none - whether or not the buffer is a beginning of the entry
- and nothing else changes. -/
theorem KeyCB_tab_completes (s : ScriptHost) (haccept : s.m_bCanAcceptInput = true)
    (hsorted : s.m_strGLAutoC.Pairwise fun a b => strLt a b = true)
    (hlen : ∀ e ∈ s.m_strGLAutoC, e.length < SIZE_MOD) :
    ((∀ x ∈ s.m_strGLAutoC, strLt s.m_strCmd x = false) → KeyCB '\t' s = .ok s) ∧
      ∀ e ∈ s.m_strGLAutoC, strLt s.m_strCmd e = true →
        (∀ x ∈ s.m_strGLAutoC, strLt s.m_strCmd x = true → x = e ∨ strLt e x = true) →
        KeyCB '\t' s = .ok
          { s with
            m_strCmd :=
              match findChar '(' e with
              | some posTrim => e.take (posTrim + 1)
              | none => e } := by
  refine ⟨fun h => KeyCB_tab_none s haccept (upper_bound_nil _ _ h), ?_⟩
  intro e he hgt hleast
  obtain ⟨rest, hU⟩ := upper_bound_least _ e _ hsorted he hgt hleast
  exact KeyCB_tab_some s e rest haccept (hlen e he) hU

theorem KeyCB_tab_completes_witness :
    KeyCB '\t' (atPrompt "Dev::M".toList) =
      .ok { atPrompt "Dev::M".toList with m_strCmd := "Dev::Move(".toList } :=
  (KeyCB_tab_completes (atPrompt "Dev::M".toList) (by decide) (by decide) (by decide)).2
    "Dev::Move(int) ".toList (by decide) (by decide) (by decide)

/-- C21, as stated, fails: with `Dev::N` in the buffer the least greater entry is
`Dev::Stall()`, which does not begin with the buffer, and the buffer is replaced all the
same; and for the action `Stall`, which takes no argument, the buffer `Dev::St` becomes
`Dev::Stall(`, not the whole entry. -/
theorem KeyCB_tab_no_begin_check :
    "Dev::Stall()".toList ∈ (atPrompt []).m_strGLAutoC ∧
      mapFind devObject.m_ActionArgs 0 = some [] ∧
      List.isPrefixOf "Dev::N".toList "Dev::Stall()".toList = false ∧
      (KeyCB '\t' (atPrompt "Dev::N".toList)).map (fun s => s.m_strCmd) =
        .ok "Dev::Stall(".toList ∧
      (KeyCB '\t' (atPrompt "Dev::St".toList)).map (fun s => s.m_strCmd) =
        .ok "Dev::Stall(".toList := by
  decide

/-- C22 (amended): return, with input accepted, appends the edit buffer as one new last
line of the script, sets the command status to idle and leaves the accepting-input flag
set; the earlier lines, the cursor and the edit buffer itself are unchanged (the buffer
is not emptied).  With the flag clear no key changes anything. -/
theorem KeyCB_return_appends (s : ScriptHost) :
    KeyCB '\r' { s with m_bCanAcceptInput := true } =
        .ok { s with
          m_eCmdStatus := .TermIdle
          m_script := s.m_script ++ [s.m_strCmd]
          m_bCanAcceptInput := true } ∧
      ∀ key, KeyCB key { s with m_bCanAcceptInput := false } =
        .ok { s with m_bCanAcceptInput := false } := by
  constructor
  · rfl
  · intro key
    rfl

/-- C22, as stated, fails: after return the edit buffer still holds the line that was
entered. -/
theorem KeyCB_return_keeps_buffer :
    (KeyCB '\r' (atPrompt "Dev::Stall()".toList)).map (fun s => (s.m_strCmd, s.m_script)) =
      .ok ("Dev::Stall()".toList, ["Dev::Stall()".toList]) := by
  decide

/-! ## Conversions at run time, and the baseline of `WaitMs` -/

/-- C23 fails on the code: a line entered at run time (it is never validated) whose
argument is not a number resolves, since only the number of arguments is compared, and
the `std::stoi` of the built-in action throws out of `OnMachineCycle`, which has no
handler: `std::invalid_argument` for `WaitMs(abc)`, `SetTimeoutMs(x)` and
`SetQuitOnTimeout(yes)`, `std::out_of_range` for `WaitMs(99999999999)`.  The validator
catches the same conversion and only reports the line. -/
theorem OnMachineCycle_conversion_throws :
    OnMachineCycle (always .Finished) 0 (entered "ScriptHost::WaitMs(abc)".toList) =
        .error .invalid_argument ∧
      OnMachineCycle (always .Finished) 0 (entered "ScriptHost::SetTimeoutMs(x)".toList) =
        .error .invalid_argument ∧
      OnMachineCycle (always .Finished) 0
          (entered "ScriptHost::SetQuitOnTimeout(yes)".toList) =
        .error .invalid_argument ∧
      OnMachineCycle (always .Finished) 0 (entered "ScriptHost::WaitMs(99999999999)".toList) =
        .error .out_of_range ∧
      CheckArg (fun _ => false) ArgType.Int "abc".toList = false ∧
      (ValidateScript (fun _ => false) demoNames
          (entered "ScriptHost::WaitMs(abc)".toList)).map (fun r => r.1) = .ok false := by
  decide

/-- C26 fails on the code at `t0 = 0`: `m_uiWaitMs == 0` means "no baseline", so a
`WaitMs(50)` first evaluated at 0 ms records nothing, takes the time of the next tick
(10 ms) as its baseline, is still waiting at 50 ms and finishes at 60 ms.  First
evaluated at 10 ms it records 10 and finishes at 60 ms, as claimed. -/
theorem WaitMs_baseline_zero_lost :
    (ProcessAction ActWait ["50".toList] (demo [] 16000000)).map
        (fun r => (r.1, r.2.m_uiWaitMs, r.2.m_uiCurrentMs)) = .ok (.Waiting, 0, 0) ∧
      waitRun 0 1 = .ok (0, 0, 0) ∧
      waitRun 0 2 = .ok (0, 10, 10) ∧
      waitRun 0 6 = .ok (0, 10, 50) ∧
      waitRun 0 7 = .ok (1, 0, 60) ∧
      waitRun 10000 1 = .ok (0, 10, 10) ∧
      waitRun 10000 5 = .ok (0, 10, 50) ∧
      waitRun 10000 6 = .ok (1, 0, 60) := by
  decide

theorem toI64_sub64 (now t0 : Nat) (hle : t0 ≤ now) (hnow : now < 2 ^ 63) :
    toI64 (sub64 now t0) = (now : Int) - (t0 : Int) := by
  rw [sub64_of_le _ _ hle (by omega)]
  unfold toI64 SIZE_MOD
  have hm : (now - t0) % 2 ^ 64 = now - t0 := Nat.mod_eq_of_lt (by omega)
  rw [hm, if_pos (by omega)]
  omega

/-- `WaitMs` with a first evaluation at a time `t0` other than 0: the baseline is `t0`,
the action waits while the time is below `t0 + D` and finishes, with the baseline
cleared, at a time of `t0 + D` or more. -/
theorem WaitMs_from_nonzero (t : ScriptHost) (d : Str) (D : Int) (t0 now : Nat)
    (hstoi : stoi d = .ok D) (hD : 0 < D) (h0 : 0 < t0) (hle : t0 ≤ now)
    (hnow : now < 2 ^ 63) :
    ProcessAction ActWait [d] { t with m_uiCurrentMs := t0, m_uiWaitMs := 0 } =
        .ok (.Waiting, { t with m_uiCurrentMs := t0, m_uiWaitMs := t0 }) ∧
      ProcessAction ActWait [d] { t with m_uiCurrentMs := now, m_uiWaitMs := t0 } =
        if (now : Int) < t0 + D then
          .ok (.Waiting, { t with m_uiCurrentMs := now, m_uiWaitMs := t0 })
        else .ok (.Finished, { t with m_uiCurrentMs := now, m_uiWaitMs := 0 }) := by
  constructor
  · rw [ProcessAction_ActWait _ d D hstoi]
    simp only [if_true]
    rw [toI64_sub64 t0 t0 (le_refl _) (by omega), if_pos (by omega)]
  · rw [ProcessAction_ActWait _ d D hstoi]
    have hne : ¬ (t0 = 0) := by omega
    simp only [if_neg hne]
    rw [toI64_sub64 now t0 hle hnow]
    by_cases h : (now : Int) < t0 + D
    · rw [if_pos h, if_pos (by omega)]
    · rw [if_neg h, if_neg (by omega)]

/-! ## The cursor -/

theorem OnMachineCycle_resolve_error (env : Clients) (iGuestUs : Int) (s : ScriptHost)
    (e : Exn) (hcur : s.m_iLine < s.m_script.length)
    (hres : resolveStep (setClock iGuestUs s) = .error e) :
    OnMachineCycle env iGuestUs s = .error e := by
  have hget : vecAt (setClock iGuestUs s).m_script (setClock iGuestUs s).m_iLine
      = .ok (s.m_script.get ⟨s.m_iLine, hcur⟩) := by
    exact vecAt_of_lt _ _ hcur
  have hn : ¬ ((setClock iGuestUs s).m_iLine ≥ (setClock iGuestUs s).m_script.length) := by
    simp only [setClock]; omega
  unfold OnMachineCycle
  simp only [hn, if_false, hget, hres, bind, Except.bind]

theorem OnMachineCycle_null_client (env : Clients) (iGuestUs : Int) (s s1 : ScriptHost)
    (hcur : s.m_iLine < s.m_script.length)
    (hres : resolveStep (setClock iGuestUs s) = .ok s1)
    (hv : s1.lineState.isValid = true) (hp : s1.lineState.pClient = none) :
    OnMachineCycle env iGuestUs s = .error .null_dereference := by
  have hget : vecAt (setClock iGuestUs s).m_script (setClock iGuestUs s).m_iLine
      = .ok (s.m_script.get ⟨s.m_iLine, hcur⟩) := by
    exact vecAt_of_lt _ _ hcur
  have hn : ¬ ((setClock iGuestUs s).m_iLine ≥ (setClock iGuestUs s).m_script.length) := by
    simp only [setClock]; omega
  unfold OnMachineCycle
  simp only [hn, if_false, hget, hres, bind, Except.bind, hv, if_true, hp]

theorem OnMachineCycle_call_error (env : Clients) (iGuestUs : Int) (s s1 : ScriptHost)
    (c : IScriptable) (e : Exn)
    (hcur : s.m_iLine < s.m_script.length)
    (hres : resolveStep (setClock iGuestUs s) = .ok s1)
    (hv : s1.lineState.isValid = true) (hp : s1.lineState.pClient = some c)
    (hcall : callAction env c s1.lineState.iActID s1.lineState.vArgs s1 = .error e) :
    OnMachineCycle env iGuestUs s = .error e := by
  have hget : vecAt (setClock iGuestUs s).m_script (setClock iGuestUs s).m_iLine
      = .ok (s.m_script.get ⟨s.m_iLine, hcur⟩) := by
    exact vecAt_of_lt _ _ hcur
  have hn : ¬ ((setClock iGuestUs s).m_iLine ≥ (setClock iGuestUs s).m_script.length) := by
    simp only [setClock]; omega
  unfold OnMachineCycle
  simp only [hn, if_false, hget, hres, bind, Except.bind, hv, if_true, hp, hcall]

theorem caseTimeout_cursor (len : Nat) (t : ScriptHost) :
    (caseTimeout len t).2.m_script = t.m_script ∧
      ((caseTimeout len t).2.m_iLine = (t.m_iLine + 1) % UINT_MOD ∨
        (caseTimeout len t).2.m_iLine = len % UINT_MOD) := by
  unfold caseTimeout
  simp only
  split
  · exact ⟨rfl, Or.inr rfl⟩
  · exact ⟨rfl, Or.inl rfl⟩

theorem caseWaiting_cursor (len : Nat) (t : ScriptHost) :
    (caseWaiting len t).2.m_script = t.m_script ∧
      ((caseWaiting len t).2.m_iLine = t.m_iLine ∨
        (caseWaiting len t).2.m_iLine = (t.m_iLine + 1) % UINT_MOD ∨
        (caseWaiting len t).2.m_iLine = len % UINT_MOD) := by
  unfold caseWaiting
  simp only
  split
  · exact ⟨rfl, Or.inl rfl⟩
  · split
    · exact ⟨rfl, Or.inl rfl⟩
    · exact ⟨(caseTimeout_cursor len _).1, Or.inr (caseTimeout_cursor len _).2⟩

theorem callBoard_cursor (env : Clients) (act : Str) (t t1 : ScriptHost)
    (h : callBoard env act t = .ok (some t1)) :
    t1.m_script = t.m_script ∧ t1.m_iLine = t.m_iLine := by
  unfold callBoard at h
  cases hm : mapFind t.m_clients "Board".toList with
  | none =>
    rw [hm] at h
    cases h
  | some b =>
    rw [hm] at h
    cases b with
    | none => cases h
    | some board =>
      simp only at h
      cases hi : mapFind board.m_ActionIDs act with
      | none =>
        rw [hi] at h
        cases h
      | some ID =>
        rw [hi] at h
        simp only at h
        cases hc : callAction env board ID [] t with
        | error e =>
          rw [hc] at h
          cases h
        | ok r =>
          rw [hc] at h
          have h1 : r.2 = t1 := by
            simp only [bind, Except.bind, pure, Except.pure] at h
            injection h with h
            injection h
          have hf := callAction_frame env board ID [] t r.2 r.1 hc
          rw [← h1, hf]
          exact ⟨rfl, rfl⟩

theorem switchResult_cursor (env : Clients) (len : Nat) (r : LineStatus) (t : ScriptHost)
    (x : Bool × ScriptHost) (h : switchResult env len r t = .ok x) :
    x.2.m_script = t.m_script ∧
      (x.2.m_iLine = t.m_iLine ∨ x.2.m_iLine = (t.m_iLine + 1) % UINT_MOD ∨
        x.2.m_iLine = len % UINT_MOD) := by
  cases r with
  | Finished =>
    unfold switchResult at h
    simp only at h
    by_cases hh : t.m_bIsExecHold = true
    · simp only [hh, if_true, bind, Except.bind, pure, Except.pure] at h
      cases hb : callBoard env "Resume".toList { t with m_bIsExecHold := false } with
      | error e =>
        rw [hb] at h
        cases h
      | ok o =>
        rw [hb] at h
        cases h
        cases o with
        | none => exact ⟨rfl, Or.inr (Or.inl rfl)⟩
        | some t1 =>
          have hc := callBoard_cursor env _ _ t1 hb
          exact ⟨hc.1, Or.inr (Or.inl (by simp only [Option.getD]; rw [hc.2]))⟩
    · simp only [hh, Bool.false_eq_true, if_false, bind, Except.bind, pure, Except.pure] at h
      cases h
      exact ⟨rfl, Or.inr (Or.inl rfl)⟩
  | Error =>
    cases h
    exact ⟨rfl, Or.inr (Or.inr rfl)⟩
  | Unhandled =>
    cases h
    exact ⟨rfl, Or.inr (Or.inr rfl)⟩
  | Waiting =>
    cases h
    exact caseWaiting_cursor len t
  | Timeout =>
    cases h
    exact ⟨(caseTimeout_cursor len t).1, Or.inr (caseTimeout_cursor len t).2⟩
  | HoldExec =>
    unfold switchResult at h
    simp only [bind, Except.bind, pure, Except.pure] at h
    cases hb : callBoard env "Pause".toList t with
    | error e =>
      rw [hb] at h
      cases h
    | ok o =>
      rw [hb] at h
      cases h
      cases o with
      | none => exact caseWaiting_cursor len t
      | some t1 =>
        have hc := callBoard_cursor env _ _ t1 hb
        have hw := caseWaiting_cursor len { t1 with m_bIsExecHold := true }
        refine ⟨hw.1.trans hc.1, ?_⟩
        rcases hw.2 with h1 | h1 | h1
        · exact Or.inl (h1.trans hc.2)
        · exact Or.inr (Or.inl (h1.trans (congrArg (fun n => (n + 1) % UINT_MOD) hc.2)))
        · exact Or.inr (Or.inr h1)

theorem OnMachineCycle_cursor (env : Clients) (iGuestUs : Int) (s s' : ScriptHost)
    (h : OnMachineCycle env iGuestUs s = .ok s') :
    s'.m_script = s.m_script ∧
      (s'.m_iLine = s.m_iLine ∨
        (s.m_iLine < s.m_script.length ∧
          (s'.m_iLine = (s.m_iLine + 1) % UINT_MOD ∨
            s'.m_iLine = s.m_script.length % UINT_MOD))) := by
  by_cases hcur : s.m_script.length ≤ s.m_iLine
  · rw [OnMachineCycle_done env iGuestUs s hcur] at h
    cases h
    exact ⟨rfl, Or.inl rfl⟩
  · have hlt : s.m_iLine < s.m_script.length := by omega
    cases hres : resolveStep (setClock iGuestUs s) with
    | error e =>
      rw [OnMachineCycle_resolve_error env iGuestUs s e hlt hres] at h
      cases h
    | ok s1 =>
      have hfr := resolveStep_frame _ _ hres
      have hs1 : s1.m_script = s.m_script ∧ s1.m_iLine = s.m_iLine := by
        rw [hfr]
        exact ⟨rfl, rfl⟩
      cases hv : s1.lineState.isValid with
      | false =>
        rw [OnMachineCycle_invalid env iGuestUs s s1 hlt hres hv] at h
        cases h
        exact ⟨hs1.1, Or.inr ⟨hlt, Or.inr rfl⟩⟩
      | true =>
        cases hp : s1.lineState.pClient with
        | none =>
          rw [OnMachineCycle_null_client env iGuestUs s s1 hlt hres hv hp] at h
          cases h
        | some c =>
          cases hcall : callAction env c s1.lineState.iActID s1.lineState.vArgs s1 with
          | error e =>
            rw [OnMachineCycle_call_error env iGuestUs s s1 c e hlt hres hv hp hcall] at h
            cases h
          | ok r =>
            obtain ⟨hl2, hsc2, _⟩ := prelude_fields env iGuestUs s s1 r.2 c _ _ r.1 hres hcall
            rw [OnMachineCycle_valid env iGuestUs s s1 r.2 c r.1 hlt hres hv hp hcall] at h
            cases hsw : switchResult env s.m_script.length r.1 r.2 with
            | error e =>
              rw [hsw] at h
              cases h
            | ok x =>
              rw [hsw] at h
              have hx := switchResult_cursor env _ _ _ x hsw
              rw [hsc2, hl2] at hx
              have hs' : s' = if x.1 = true then x.2 else finishIfDone s.m_script.length x.2 := by
                simp only [bind, Except.bind, pure, Except.pure] at h
                injection h with h
                exact h.symm
              have hfin : (finishIfDone s.m_script.length x.2).m_script = x.2.m_script ∧
                  (finishIfDone s.m_script.length x.2).m_iLine = x.2.m_iLine := by
                rw [finishIfDone_frame]
                exact ⟨rfl, rfl⟩
              have hboth : s'.m_script = x.2.m_script ∧ s'.m_iLine = x.2.m_iLine := by
                rw [hs']
                split
                · exact ⟨rfl, rfl⟩
                · exact hfin
              rw [hboth.1, hboth.2]
              refine ⟨hx.1, ?_⟩
              rcases hx.2 with h1 | h1 | h1
              · exact Or.inl h1
              · exact Or.inr ⟨hlt, Or.inl h1⟩
              · exact Or.inr ⟨hlt, Or.inr h1⟩

theorem OnMachineCycle_component_returns (env : Clients) (iGuestUs : Int) (s : ScriptHost)
    (c : IScriptable) (ID : Nat) (vArgs : List Str) (hat : AtLine s c ID vArgs)
    (hc : c.addr ≠ s.this) (hb : BoardIsComponent s) :
    ∃ s', OnMachineCycle env iGuestUs s = .ok s' := by
  have hlt := AtLine_cursor s c ID vArgs hat
  obtain ⟨s1, hres, hv, hp, hid, hargs, _⟩ := AtLine_resolve iGuestUs s c ID vArgs hat
  have hfr := resolveStep_frame _ _ hres
  have hthis : s1.this = s.this := by
    rw [hfr]
    rfl
  have hcall := callAction_component env c s1.lineState.iActID s1.lineState.vArgs s1
    (by rw [hthis]; exact hc)
  obtain ⟨_, _, hcl, hth, _⟩ := prelude_fields env iGuestUs s s1 _ c _ _ _ hres hcall
  have hb2 : BoardIsComponent
      { s1 with calls := s1.calls ++
        [Event.ProcessAction c.addr s1.lineState.iActID s1.lineState.vArgs] } := by
    intro b hbb
    have hbb' : mapFind s.m_clients "Board".toList = some b := by
      rw [← hcl]
      exact hbb
    obtain ⟨c', h1, h2⟩ := hb b hbb'
    exact ⟨c', h1, by rw [hth]; exact h2⟩
  obtain ⟨x, hx, _⟩ := switchResult_calls env s.m_script.length
    (env c.addr s1.lineState.iActID s1.lineState.vArgs) _ hb2
  rw [OnMachineCycle_valid env iGuestUs s s1 _ c _ hlt hres hv hp hcall, hx]
  exact ⟨_, rfl⟩

theorem KeyCB_cursor (key : Char) (s : ScriptHost) :
    ∃ s2, KeyCB key s = .ok s2 ∧ s2.m_iLine = s.m_iLine ∧
      (s2.m_script = s.m_script ∨ s2.m_script = s.m_script ++ [s.m_strCmd]) := by
  unfold KeyCB
  split
  · exact ⟨_, rfl, rfl, Or.inl rfl⟩
  · split
    · refine ⟨_, rfl, ?_, Or.inl ?_⟩
      · unfold popCmd
        split <;> rfl
      · unfold popCmd
        split <;> rfl
    · split
      · refine ⟨_, rfl, ?_, Or.inl ?_⟩
        · unfold popCmd
          split <;> rfl
        · unfold popCmd
          split <;> rfl
      · split
        · exact ⟨_, rfl, rfl, Or.inr rfl⟩
        · split
          · split
            · exact ⟨_, rfl, rfl, Or.inl rfl⟩
            · split
              · exact ⟨_, rfl, rfl, Or.inl rfl⟩
              · exact ⟨_, rfl, rfl, Or.inl rfl⟩
          · exact ⟨_, rfl, rfl, Or.inl rfl⟩

/-- C25: cursor invariant.  For every engine state whose cursor is at most the script
length (a length that fits `unsigned int`), every simulated time and every answer of the
contexts, a tick that returns leaves the script as it is and the cursor unchanged, one
greater, or equal to the script length, so the cursor does not decrease and does not
pass the script length; the tick does return when the script is done and when the line
at the cursor belongs to a component.  `OnCommand_C` and `KeyCB` (any key, return
included) leave the cursor where it is, within the script. -/
theorem cursor_invariant (env : Clients) (iGuestUs : Int) (s : ScriptHost)
    (hcur : s.m_iLine ≤ s.m_script.length) (hsize : s.m_script.length < UINT_MOD) :
    (∀ s', OnMachineCycle env iGuestUs s = .ok s' →
        (s'.m_iLine = s.m_iLine ∨ s'.m_iLine = s.m_iLine + 1 ∨
          s'.m_iLine = s.m_script.length) ∧
        s.m_iLine ≤ s'.m_iLine ∧ s'.m_iLine ≤ s'.m_script.length ∧
        s'.m_script = s.m_script) ∧
      (s.m_iLine = s.m_script.length → ∃ s', OnMachineCycle env iGuestUs s = .ok s') ∧
      (∀ c ID vArgs, AtLine s c ID vArgs → c.addr ≠ s.this → BoardIsComponent s →
        ∃ s', OnMachineCycle env iGuestUs s = .ok s') ∧
      (∀ strCmd, (OnCommand_C strCmd s).m_iLine = s.m_iLine ∧
        s.m_iLine ≤ (OnCommand_C strCmd s).m_script.length) ∧
      ∀ key, ∃ s2, KeyCB key s = .ok s2 ∧ s2.m_iLine = s.m_iLine ∧
        s.m_iLine ≤ s2.m_script.length := by
  refine ⟨?_, ?_, ?_, ?_, ?_⟩
  · intro s' h
    obtain ⟨hsc, hc⟩ := OnMachineCycle_cursor env iGuestUs s s' h
    have hm : s.m_script.length % UINT_MOD = s.m_script.length := Nat.mod_eq_of_lt hsize
    rw [hsc]
    rcases hc with h1 | ⟨hlt, h1 | h1⟩
    · rw [h1]
      exact ⟨Or.inl rfl, le_refl _, hcur, rfl⟩
    · have hm1 : (s.m_iLine + 1) % UINT_MOD = s.m_iLine + 1 := Nat.mod_eq_of_lt (by omega)
      rw [h1, hm1]
      exact ⟨Or.inr (Or.inl rfl), by omega, by omega, rfl⟩
    · rw [h1, hm]
      exact ⟨Or.inr (Or.inr rfl), hcur, le_refl _, rfl⟩
  · intro h
    exact ⟨_, OnMachineCycle_done env iGuestUs s (by omega)⟩
  · intro c ID vArgs hat hc hb
    exact OnMachineCycle_component_returns env iGuestUs s c ID vArgs hat hc hb
  · intro strCmd
    unfold OnCommand_C
    split
    · exact ⟨rfl, hcur⟩
    · refine ⟨rfl, ?_⟩
      show s.m_iLine ≤ (s.m_script ++ [strCmd]).length
      rw [List.length_append]
      omega
  · intro key
    obtain ⟨s2, h, hl, hs⟩ := KeyCB_cursor key s
    refine ⟨s2, h, hl, ?_⟩
    rcases hs with hs | hs
    · rw [hs]
      exact hcur
    · rw [hs, List.length_append]
      omega

theorem cursor_invariant_witness :
    (OnMachineCycle (always .Finished) 0
        (demo ["Dev::Stall()".toList, "Dev::Stall()".toList] 16000000)).map
        (fun s => s.m_iLine) = .ok 1 ∧
      ∀ s', OnMachineCycle (always .Finished) 0
          (demo ["Dev::Stall()".toList, "Dev::Stall()".toList] 16000000) = .ok s' →
        (s'.m_iLine = 0 ∨ s'.m_iLine = 0 + 1 ∨ s'.m_iLine = 2) ∧
        0 ≤ s'.m_iLine ∧ s'.m_iLine ≤ s'.m_script.length ∧
        s'.m_script = ["Dev::Stall()".toList, "Dev::Stall()".toList] :=
  ⟨by decide,
    (cursor_invariant (always .Finished) 0
      (demo ["Dev::Stall()".toList, "Dev::Stall()".toList] 16000000)
      (by decide) (by decide)).1⟩

end Mini404
